import Mathlib

/-!
# Verification of the sudoku core engine

A shallow embedding in Lean 4 of the constraint/validation engine, the
backtracking solvers and the puzzle generator of the sudoku repository,
together with theorems settling the specification claims.

Modelling conventions:
* JavaScript numbers that only ever hold small non-negative integers
  (cell values, coordinates, sizes, counts) are modelled as `Nat`;
  numbers that flow through the 32-bit bitwise operators are modelled
  as `Int` with explicit two's-complement 32-bit semantics
  (`jsToUInt32`, `jsOfUInt32`, `jsAnd`, ...), matching the ECMAScript
  `ToInt32` conversion used by `&`, `|`, `~`, `<<`.
* `grid[row][col].value` throws a `TypeError` in JavaScript whenever
  `row` or `col` is out of range (property access on `undefined`);
  cell reads are therefore modelled in the `Except String` monad, and
  the solver/generator entry points catch such errors, mirroring the
  `try`/`catch` at the solve/generate boundary.
* `Math.random()`-driven choices are modelled by an explicit choice
  oracle `rng : Nat → Nat` consumed at successive indices (each
  Fisher-Yates step uses `rng k % (i+1)`, which reaches the same set
  of outcomes as `Math.floor(Math.random()*(i+1))`).
* `Date.now()` is modelled by a clock oracle `clock : Nat → Int`
  consumed at successive indices at exactly the call sites the source
  consults for control flow or reported timestamps (calls whose result
  only feeds log messages are elided together with all logging).
* Callbacks returning `boolean | undefined` are modelled as functions
  returning `Option Bool` (`none` = `undefined`).
-/

namespace Sudoku

/-! ## JavaScript 32-bit integer semantics (used by the `&`, `|`, `~`, `<<` operators) -/

/-- The unsigned 32-bit representative of a JS number that flows into a
bitwise operator (`ToUint32`). -/
def jsToUInt32 (i : Int) : Nat := (i % 4294967296).toNat

/-- Reinterpret an unsigned 32-bit pattern as a signed JS `Int32` result. -/
def jsOfUInt32 (n : Nat) : Int :=
  if n < 2147483648 then (n : Int) else (n : Int) - 4294967296

/-- JS `a & b`. -/
def jsAnd (a b : Int) : Int := jsOfUInt32 (Nat.land (jsToUInt32 a) (jsToUInt32 b))

/-- JS `a | b`. -/
def jsOr (a b : Int) : Int := jsOfUInt32 (Nat.lor (jsToUInt32 a) (jsToUInt32 b))

/-- JS `~a`. -/
def jsNot (a : Int) : Int := jsOfUInt32 (4294967295 - jsToUInt32 a)

/-- JS `a << b` (shift count is `ToUint32(b) & 31`). -/
def jsShl (a b : Int) : Int :=
  jsOfUInt32 (jsToUInt32 a * 2 ^ (jsToUInt32 b % 32) % 4294967296)

/-- Bit `v` of the 32-bit pattern of a JS number. -/
def bitOf (m : Int) (v : Nat) : Bool := (jsToUInt32 m).testBit v

theorem jsToUInt32_lt (m : Int) : jsToUInt32 m < 2 ^ 32 := by
  simp only [jsToUInt32]
  omega

theorem jsToUInt32_jsOfUInt32 {n : Nat} (h : n < 2 ^ 32) :
    jsToUInt32 (jsOfUInt32 n) = n := by
  simp only [jsToUInt32, jsOfUInt32]
  split <;> omega

theorem jsOfUInt32_eq_zero_iff {n : Nat} (h : n < 2 ^ 32) :
    jsOfUInt32 n = 0 ↔ n = 0 := by
  simp only [jsOfUInt32]
  split <;> omega

theorem testBit_allOnes_sub {u : Nat} (h : u < 2 ^ 32) {i : Nat} (hi : i < 32) :
    (2 ^ 32 - 1 - u).testBit i = !u.testBit i := by
  have hmod : u % 4294967296 = u := Nat.mod_eq_of_lt (by exact_mod_cast h)
  have hb : ((~~~(BitVec.ofNat 32 u)).toNat) = 2 ^ 32 - 1 - u := by
    rw [BitVec.toNat_not, BitVec.toNat_ofNat]
    norm_num [hmod]
  rw [← hb, ← BitVec.getLsbD, BitVec.getLsbD_not]
  simp [hi, BitVec.getLsbD, BitVec.toNat_ofNat, hmod]

theorem bitOf_jsAnd (a b : Int) (i : Nat) :
    bitOf (jsAnd a b) i = (bitOf a i && bitOf b i) := by
  have h : Nat.land (jsToUInt32 a) (jsToUInt32 b) < 2 ^ 32 :=
    Nat.and_lt_two_pow _ (jsToUInt32_lt b)
  simp only [bitOf, jsAnd]
  rw [jsToUInt32_jsOfUInt32 h]
  exact Nat.testBit_land _ _ _

theorem bitOf_jsOr (a b : Int) (i : Nat) :
    bitOf (jsOr a b) i = (bitOf a i || bitOf b i) := by
  have h : Nat.lor (jsToUInt32 a) (jsToUInt32 b) < 2 ^ 32 :=
    Nat.or_lt_two_pow (jsToUInt32_lt a) (jsToUInt32_lt b)
  simp only [bitOf, jsOr]
  rw [jsToUInt32_jsOfUInt32 h]
  exact Nat.testBit_lor _ _ _

theorem bitOf_jsNot (a : Int) {i : Nat} (hi : i < 32) :
    bitOf (jsNot a) i = !bitOf a i := by
  have h : 4294967295 - jsToUInt32 a < 2 ^ 32 := by omega
  have := testBit_allOnes_sub (jsToUInt32_lt a) hi
  simpa [bitOf, jsNot, jsToUInt32_jsOfUInt32 h] using this

theorem bitOf_zero (i : Nat) : bitOf 0 i = false := by
  simp [bitOf, jsToUInt32]

theorem jsToUInt32_jsShl_one {v : Nat} (hv : v < 32) :
    jsToUInt32 (jsShl 1 (v : Int)) = 2 ^ v := by
  have h1 : jsToUInt32 1 = 1 := by simp [jsToUInt32]
  have h2 : jsToUInt32 (v : Int) = v := by
    simp only [jsToUInt32]
    omega
  have hlt : 2 ^ v < 2 ^ 32 := Nat.pow_lt_pow_right (by norm_num) hv
  have hlt' : 2 ^ v < 4294967296 := by
    calc 2 ^ v < 2 ^ 32 := hlt
    _ = 4294967296 := by norm_num
  simp only [jsShl, h1, h2, Nat.mod_eq_of_lt hv, one_mul, Nat.mod_eq_of_lt hlt']
  exact jsToUInt32_jsOfUInt32 hlt

theorem bitOf_jsShl_one {v : Nat} (hv : v < 32) (i : Nat) :
    bitOf (jsShl 1 (v : Int)) i = decide (i = v) := by
  rw [bitOf, jsToUInt32_jsShl_one hv]
  rcases eq_or_ne i v with h | h
  · simp [h, Nat.testBit_two_pow_self]
  · simp [h, Nat.testBit_two_pow_of_ne (Ne.symm h)]

/-! ## Bitmask primitives (`src/core/validation/bitmask.ts`) -/

/-- `valueToBitmask(value)`: `1 << value` for `1 ≤ value ≤ 31`, else `0`. -/
def valueToBitmask (value : Int) : Int :=
  if value ≤ 0 ∨ 31 < value then 0 else jsShl 1 value

/-- `valuesFromBitmask(bitmask)`: all `value ∈ 1..31` whose bit is set. -/
def valuesFromBitmask (bitmask : Int) : List Nat :=
  (List.range' 1 31).filter fun value => jsAnd bitmask (jsShl 1 (value : Int)) ≠ 0

/-- `hasBit(bitmask, value)`. -/
def hasBit (bitmask value : Int) : Bool :=
  if value ≤ 0 ∨ 31 < value then false
  else jsAnd bitmask (jsShl 1 value) ≠ 0

/-- `addBit(bitmask, value)`. -/
def addBit (bitmask value : Int) : Int :=
  if value ≤ 0 ∨ 31 < value then bitmask else jsOr bitmask (jsShl 1 value)

/-- `removeBit(bitmask, value)`. -/
def removeBit (bitmask value : Int) : Int :=
  if value ≤ 0 ∨ 31 < value then bitmask else jsAnd bitmask (jsNot (jsShl 1 value))

/-- `countBits(bitmask)`. -/
def countBits (bitmask : Int) : Nat :=
  ((List.range' 1 31).filter fun value => jsAnd bitmask (jsShl 1 (value : Int)) ≠ 0).length

/-- `createFullBitmask(size)`: throws for `size ≤ 0` or `size > 31`,
otherwise `(1 << (size + 1)) - 2`. -/
def createFullBitmask (size : Int) : Except String Int :=
  if size ≤ 0 ∨ 31 < size then .error "unsupported grid size"
  else .ok (jsShl 1 (size + 1) - 2)

/-! ### Characterizations of the bitmask primitives -/

theorem bitOf_valueToBitmask (value : Nat) (i : Nat) :
    bitOf (valueToBitmask (value : Int)) i =
      (decide (1 ≤ value) && decide (value ≤ 31) && decide (i = value)) := by
  by_cases h : 1 ≤ value ∧ value ≤ 31
  · have hv : ¬ ((value : Int) ≤ 0 ∨ 31 < (value : Int)) := by
      push_neg
      constructor <;> [exact_mod_cast h.1; exact_mod_cast h.2]
    rw [valueToBitmask, if_neg hv, bitOf_jsShl_one (by omega)]
    simp [h.1, h.2]
  · have hv : (value : Int) ≤ 0 ∨ 31 < (value : Int) := by
      rcases Nat.lt_or_ge value 1 with h1 | h1
      · left; omega
      · right
        have : 31 < value := by omega
        exact_mod_cast this
    rw [valueToBitmask, if_pos hv, bitOf_zero]
    rcases Nat.lt_or_ge value 1 with h1 | h1
    · simp; omega
    · have : 31 < value := by omega
      simp; omega

theorem jsAnd_jsShl_one_ne_zero (m : Int) {v : Nat} (hv : v < 32) :
    (jsAnd m (jsShl 1 (v : Int)) ≠ 0) ↔ bitOf m v = true := by
  have hshl : jsToUInt32 (jsShl 1 (v : Int)) = 2 ^ v := jsToUInt32_jsShl_one hv
  have hland : Nat.land (jsToUInt32 m) (jsToUInt32 (jsShl 1 (v : Int))) < 2 ^ 32 :=
    Nat.and_lt_two_pow _ (jsToUInt32_lt _)
  rw [jsAnd, Ne, jsOfUInt32_eq_zero_iff hland]
  have : Nat.land (jsToUInt32 m) (jsToUInt32 (jsShl 1 (v : Int)))
      = ((jsToUInt32 m).testBit v).toNat * 2 ^ v := by
    rw [hshl]
    exact Nat.and_two_pow _ _
  rw [this]
  rcases hb : (jsToUInt32 m).testBit v with _ | _
  · simp [bitOf, hb]
  · have hpos := Nat.two_pow_pos v
    simp [bitOf, hb, hpos.ne']

theorem mem_valuesFromBitmask (m : Int) (v : Nat) :
    v ∈ valuesFromBitmask m ↔ (1 ≤ v ∧ v ≤ 31 ∧ bitOf m v = true) := by
  simp only [valuesFromBitmask, List.mem_filter, decide_eq_true_eq]
  constructor
  · rintro ⟨hmem, h3⟩
    obtain ⟨h1, h2⟩ := List.mem_range'_1.mp hmem
    have hv : v < 32 := by omega
    exact ⟨h1, by omega, (jsAnd_jsShl_one_ne_zero m hv).1 h3⟩
  · rintro ⟨h1, h2, h3⟩
    have hv : v < 32 := by omega
    exact ⟨List.mem_range'_1.mpr ⟨h1, by omega⟩, (jsAnd_jsShl_one_ne_zero m hv).2 h3⟩

/-- Characterization of the full-size mask: for `1 ≤ size ≤ 31` it holds
exactly the bits `1..size` (bit 0 is also set when `size = 31` because
`1 << 32` wraps, but bit 0 never encodes a value). -/
theorem bitOf_createFullBitmask {size : Nat} (h1 : 1 ≤ size) (h31 : size ≤ 31) :
    ∃ m, createFullBitmask (size : Int) = .ok m ∧
      ∀ v : Nat, 1 ≤ v → bitOf m v = decide (v ≤ size) := by
  have hguard : ¬ ((size : Int) ≤ 0 ∨ 31 < (size : Int)) := by
    push_neg
    constructor <;> [exact_mod_cast h1; exact_mod_cast h31]
  refine ⟨jsShl 1 ((size : Int) + 1) - 2, by rw [createFullBitmask, if_neg hguard], ?_⟩
  intro v hv1
  rcases Nat.lt_or_ge size 31 with hs | hs
  · -- size ≤ 30 : the 32-bit pattern of the mask is 2^(size+1) - 2
    have hcast : ((size : Int) + 1) = ((size + 1 : Nat) : Int) := by push_cast; ring
    have hsz : size + 1 < 32 := by omega
    have hlt : (2 : Nat) ^ (size + 1) < 2 ^ 32 := Nat.pow_lt_pow_right (by norm_num) hsz
    have hlt' : (2 : Nat) ^ (size + 1) < 4294967296 := by
      calc (2 : Nat) ^ (size + 1) < 2 ^ 32 := hlt
      _ = 4294967296 := by norm_num
    have h2le : (2 : Nat) ≤ 2 ^ (size + 1) := by
      calc (2 : Nat) = 2 ^ 1 := by norm_num
      _ ≤ 2 ^ (size + 1) := Nat.pow_le_pow_right (by norm_num) (by omega)
    have hshl2 : jsShl 1 ((size : Int) + 1) = jsOfUInt32 (2 ^ (size + 1)) := by
      rw [hcast]
      simp only [jsShl]
      have h1' : jsToUInt32 1 = 1 := by decide
      have h2' : jsToUInt32 ((size + 1 : Nat) : Int) = size + 1 := by
        simp only [jsToUInt32]; omega
      rw [h1', h2', Nat.mod_eq_of_lt hsz, one_mul, Nat.mod_eq_of_lt hlt']
    have hmask : jsToUInt32 (jsShl 1 ((size : Int) + 1) - 2) = 2 ^ (size + 1) - 2 := by
      rw [hshl2]
      simp only [jsOfUInt32, jsToUInt32]
      generalize (2 : Nat) ^ (size + 1) = k at h2le hlt' ⊢
      split <;> omega
    rw [bitOf, hmask]
    have hrw : 2 ^ (size + 1) - 2 = 2 * (2 ^ size - 1) := by
      have : (2 : Nat) ^ (size + 1) = 2 * 2 ^ size := by ring
      omega
    rw [hrw]
    rcases v with _ | v'
    · omega
    · rw [Nat.testBit_succ]
      simp [Nat.testBit_two_pow_sub_one]
      omega
  · -- size = 31 : `1 << 32` wraps to 1, the mask is the JS number -1
    have hs31 : size = 31 := by omega
    subst hs31
    have hshl : jsShl 1 (((31 : Nat) : Int) + 1) = 1 := by decide
    have hmask : jsToUInt32 (jsShl 1 (((31 : Nat) : Int) + 1) - 2) = 2 ^ 32 - 1 := by
      rw [hshl]; decide
    rw [bitOf, hmask]
    rcases Nat.lt_or_ge v 32 with hv | hv
    · rw [Nat.testBit_two_pow_sub_one]
      simp only [decide_eq_decide]
      omega
    · have hlt2 : (2 ^ 32 - 1 : Nat) < 2 ^ v := by
        calc (2 ^ 32 - 1 : Nat) < 2 ^ 32 := by norm_num
        _ ≤ 2 ^ v := Nat.pow_le_pow_right (by norm_num) hv
      rw [Nat.testBit_lt_two_pow hlt2]
      have hnle : ¬ (v ≤ 31) := by omega
      simp [hnle]

/-! ## Data model (`src/core/types/grid.ts`, `region.ts`, `engine.ts`) -/

/-- `CellState`: the fields the core reads or writes.  `notes` is a set of
digits; insertion order is irrelevant to the core, so it is modelled as a
sorted list. -/
structure CellState where
  value : Nat
  isPuzzle : Bool
  notes : List Nat
  error : Bool
  animationState : Option String
  deriving Repr, DecidableEq

/-- The cell produced by `createEmptyCell()`. -/
def createEmptyCell : CellState :=
  { value := 0, isPuzzle := false, notes := [], error := false, animationState := none }

instance : Inhabited CellState := ⟨createEmptyCell⟩

/-- `Grid`: a 2-D array of cells. -/
abbrev Grid := List (List CellState)

/-- A region: id, kind tag, cell coordinates, optional cage sum
(`properties.sum`). -/
structure Region where
  id : String
  type : String
  cells : List (Nat × Nat)
  sum? : Option Nat := none
  deriving Repr, DecidableEq

/-- A variant rule, reduced to the one capability the candidate engine
consults: `getExcludedCandidates` (optional, `typeof ... === "function"`).
In the source the method also receives the enclosing config; since a rule
installed in a config is only ever called with that same config, the
embedded rule closes over it. -/
structure VariantRule where
  id : String
  getExcludedCandidates : Option (Grid → Nat → Nat → List Nat) := none

/-- `SudokuConfig`: the fields the solver/generator chain reads. -/
structure SudokuConfig where
  size : Nat
  regions : List Region
  variantRules : List VariantRule := []

/-! ## Grid reads and writes (`src/core/grid/access.ts`, `create.ts`) -/

/-- Statement-side total cell accessor (out-of-range reads give the empty
cell); used to state properties of in-range cells. -/
def cellAtD (grid : Grid) (row col : Nat) : CellState :=
  (grid.getD row []).getD col createEmptyCell

/-- Statement-side total value accessor. -/
def valAtD (grid : Grid) (p : Nat × Nat) : Nat := (cellAtD grid p.1 p.2).value

/-- The embedding of a JS `grid[row][col]` read followed by a property
access: throws (`TypeError`) when either index is out of range. -/
def cellAt (grid : Grid) (row col : Nat) : Except String CellState :=
  match grid[row]? with
  | none => .error "TypeError: cannot read properties of undefined"
  | some r =>
    match r[col]? with
    | none => .error "TypeError: cannot read properties of undefined"
    | some cell => .ok cell

/-- `isValidPosition(grid, row, col)`. -/
def isValidPosition (grid : Grid) (row col : Nat) : Bool :=
  row < grid.length && col < (grid.getD 0 []).length

/-- The cell written by `setCellValue` at the target position. -/
def setCellFields (c : CellState) (value : Nat) (isEditingPuzzle : Bool) : CellState :=
  { c with
    value := value
    isPuzzle := isEditingPuzzle && value != 0
    notes := []
    animationState := some "changed" }

/-- `setCellValue(grid, row, col, value, isEditingPuzzle = false)`:
returns the grid unchanged for an invalid position or a puzzle cell
outside editing mode, otherwise a copy with the target cell replaced. -/
def setCellValue (grid : Grid) (row col : Nat) (value : Nat)
    (isEditingPuzzle : Bool := false) : Grid :=
  if ¬ isValidPosition grid row col then grid
  else if (cellAtD grid row col).isPuzzle && !isEditingPuzzle then grid
  else
    grid.mapIdx fun rIndex r =>
      r.mapIdx fun cIndex c =>
        if rIndex = row ∧ cIndex = col then setCellFields c value isEditingPuzzle else c

/-- `createEmptyGrid(size)`. -/
def createEmptyGrid (size : Nat) : Grid :=
  List.replicate size (List.replicate size createEmptyCell)

/-- `cloneGrid(grid)`: a deep copy (the defensive `notes` re-construction
always takes the plain copy path for well-typed cells). -/
def cloneGrid (grid : Grid) : Grid :=
  grid.map fun r => r.map fun c => { c with notes := c.notes }

theorem cloneGrid_eq (grid : Grid) : cloneGrid grid = grid := by
  simp [cloneGrid]

/-! ## Duplicate detection (`src/core/validation/standard.ts`) -/

/-- Result of `checkDuplicatesBitmask`. -/
structure DupResult where
  duplicates : List (Nat × Nat)
  sources : List (Nat × Nat)
  deriving Repr, DecidableEq

/-- One step of filling the `valuePositions` map (a JS `Map`, which
iterates in key-insertion order): append the position to the entry of
`v`, creating the entry at the end if absent. -/
def addPosition (m : List (Nat × List (Nat × Nat))) (v : Nat) (p : Nat × Nat) :
    List (Nat × List (Nat × Nat)) :=
  match m with
  | [] => [(v, [p])]
  | (k, ps) :: rest =>
    if k = v then (k, ps ++ [p]) :: rest else (k, ps) :: addPosition rest v p

/-- The single collection pass of `checkDuplicatesBitmask`: builds the
`valuePositions` map and the `usedValues` bitmask, skipping empty cells. -/
def collectPositions (grid : Grid) :
    List (Nat × Nat) → List (Nat × List (Nat × Nat)) → Int →
    Except String (List (Nat × List (Nat × Nat)) × Int)
  | [], m, used => .ok (m, used)
  | (row, col) :: rest, m, used =>
    match cellAt grid row col with
    | .error e => .error e
    | .ok cell =>
      if cell.value = 0 then collectPositions grid rest m used
      else
        let valueMask := valueToBitmask (cell.value : Int)
        let used' := if jsAnd used valueMask ≠ 0 then used else jsOr used valueMask
        collectPositions grid rest (addPosition m cell.value (row, col)) used'

/-- `checkDuplicatesBitmask(grid, cellCoords)`: single pass collecting all
positions per non-zero value, then reporting every position of each value
occurring at least twice as `duplicates` and its first-seen position as a
`source`. -/
def checkDuplicatesBitmask (grid : Grid) (cellCoords : List (Nat × Nat)) :
    Except String DupResult := do
  let (m, _usedValues) ← collectPositions grid cellCoords [] 0
  let dupEntries := m.filter fun e => 1 < e.2.length
  .ok { duplicates := dupEntries.flatMap fun e => e.2
        sources := dupEntries.filterMap fun e => e.2.head? }

/-! ### Characterization of `checkDuplicatesBitmask` (used for C7 and for the
validity analysis of `validateAllRegions`) -/

/-- In-range condition for a coordinate (needed so that the JS cell read
does not throw). -/
def InRange (grid : Grid) (p : Nat × Nat) : Prop :=
  p.1 < grid.length ∧ p.2 < (grid.getD p.1 []).length

instance (grid : Grid) (p : Nat × Nat) : Decidable (InRange grid p) := by
  unfold InRange
  infer_instance

theorem cellAt_ok {grid : Grid} {p : Nat × Nat} (h : InRange grid p) :
    cellAt grid p.1 p.2 = .ok (cellAtD grid p.1 p.2) := by
  obtain ⟨hr, hc⟩ := h
  have h1 : grid[p.1]? = some grid[p.1] := List.getElem?_eq_getElem hr
  have hrow : grid.getD p.1 [] = grid[p.1] := by
    rw [List.getD_eq_getElem?_getD, h1, Option.getD_some]
  have hc2 : p.2 < grid[p.1].length := hrow ▸ hc
  have h2 : grid[p.1][p.2]? = some grid[p.1][p.2] := List.getElem?_eq_getElem hc2
  have hcell : cellAtD grid p.1 p.2 = grid[p.1][p.2] := by
    rw [cellAtD, hrow, List.getD_eq_getElem?_getD, h2, Option.getD_some]
  simp only [cellAt, h1, h2, hcell]

/-- Proof-side lookup in the `valuePositions` association list. -/
def lookupPos : List (Nat × List (Nat × Nat)) → Nat → Option (List (Nat × Nat))
  | [], _ => none
  | (k, ps) :: rest, v => if k = v then some ps else lookupPos rest v

theorem lookupPos_addPosition_self (m : List (Nat × List (Nat × Nat))) (v : Nat)
    (p : Nat × Nat) :
    lookupPos (addPosition m v p) v = some ((lookupPos m v).getD [] ++ [p]) := by
  induction m with
  | nil => simp [addPosition, lookupPos]
  | cons e rest ih =>
    obtain ⟨k, ps⟩ := e
    by_cases hk : k = v
    · subst hk
      simp [addPosition, lookupPos]
    · simp [addPosition, lookupPos, hk, ih]

theorem lookupPos_addPosition_ne (m : List (Nat × List (Nat × Nat))) {v v' : Nat}
    (p : Nat × Nat) (h : v' ≠ v) :
    lookupPos (addPosition m v p) v' = lookupPos m v' := by
  induction m with
  | nil => simp [addPosition, lookupPos, Ne.symm h]
  | cons e rest ih =>
    obtain ⟨k, ps⟩ := e
    by_cases hk : k = v
    · subst hk
      simp [addPosition, lookupPos, Ne.symm h]
    · by_cases hk' : k = v'
      · subst hk'
        simp [addPosition, lookupPos, hk]
      · simp [addPosition, lookupPos, hk, hk', ih]

theorem keys_addPosition (m : List (Nat × List (Nat × Nat))) (v : Nat) (p : Nat × Nat) :
    (addPosition m v p).map Prod.fst =
      if v ∈ m.map Prod.fst then m.map Prod.fst else m.map Prod.fst ++ [v] := by
  induction m with
  | nil => simp [addPosition]
  | cons e rest ih =>
    obtain ⟨k, ps⟩ := e
    by_cases hk : k = v
    · subst hk
      simp [addPosition]
    · simp only [addPosition, if_neg hk, List.map_cons, ih]
      by_cases hv : v ∈ rest.map Prod.fst
      · simp [hv, Ne.symm hk]
      · simp [hv, Ne.symm hk]

theorem keys_nodup_addPosition {m : List (Nat × List (Nat × Nat))} (v : Nat) (p : Nat × Nat)
    (h : (m.map Prod.fst).Nodup) : ((addPosition m v p).map Prod.fst).Nodup := by
  rw [keys_addPosition]
  split
  · exact h
  · next hnot =>
    simp only [List.nodup_append, List.nodup_cons]
    refine ⟨h, by simp, ?_⟩
    intro a ha hb
    simp at hb
    subst hb
    exact hnot ha

theorem mem_iff_lookupPos {m : List (Nat × List (Nat × Nat))}
    (hnd : (m.map Prod.fst).Nodup) (v : Nat) (ps : List (Nat × Nat)) :
    (v, ps) ∈ m ↔ lookupPos m v = some ps := by
  induction m with
  | nil => simp [lookupPos]
  | cons e rest ih =>
    obtain ⟨k, qs⟩ := e
    simp only [List.map_cons, List.nodup_cons] at hnd
    by_cases hk : k = v
    · subst hk
      simp only [lookupPos, if_pos rfl, List.mem_cons]
      constructor
      · rintro (he | hmem)
        · simp at he
          simp [he]
        · exfalso
          exact hnd.1 (List.mem_map.mpr ⟨(k, ps), hmem, rfl⟩)
      · intro h
        left
        simp at h
        simp [h]
    · simp only [lookupPos, if_neg hk, List.mem_cons]
      rw [← ih hnd.2]
      constructor
      · rintro (he | hmem)
        · exfalso
          apply hk
          exact (by simpa using congrArg Prod.fst he : v = k).symm
        · exact hmem
      · exact .inr

theorem lookupPos_mem_keys {m : List (Nat × List (Nat × Nat))} {v : Nat} :
    (∃ ps, lookupPos m v = some ps) ↔ v ∈ m.map Prod.fst := by
  induction m with
  | nil => simp [lookupPos]
  | cons e rest ih =>
    obtain ⟨k, qs⟩ := e
    by_cases hk : k = v
    · subst hk
      simp [lookupPos]
    · simp [lookupPos, hk, ih, Ne.symm hk]

/-- The filter of coordinates carrying a given value. -/
def valueFilter (grid : Grid) (coords : List (Nat × Nat)) (v : Nat) : List (Nat × Nat) :=
  coords.filter fun q => decide (valAtD grid q = v)

theorem collectPositions_cons (grid : Grid) (pr pc : Nat) (rest : List (Nat × Nat))
    (m : List (Nat × List (Nat × Nat))) (used : Int) {cell : CellState}
    (h : cellAt grid pr pc = .ok cell) :
    collectPositions grid ((pr, pc) :: rest) m used =
      if cell.value = 0 then collectPositions grid rest m used
      else
        collectPositions grid rest (addPosition m cell.value (pr, pc))
          (if jsAnd used (valueToBitmask (cell.value : Int)) ≠ 0 then used
           else jsOr used (valueToBitmask (cell.value : Int))) := by
  rw [collectPositions, h]

/-- Main invariant of the collection pass of `checkDuplicatesBitmask`. -/
theorem collectPositions_spec (grid : Grid) (coords : List (Nat × Nat))
    (hin : ∀ p ∈ coords, InRange grid p) :
    ∀ (m0 : List (Nat × List (Nat × Nat))) (used0 : Int),
    ∃ m used, collectPositions grid coords m0 used0 = .ok (m, used) ∧
      (∀ v, v ≠ 0 →
        lookupPos m v = if valueFilter grid coords v = []
          then lookupPos m0 v
          else some ((lookupPos m0 v).getD [] ++ valueFilter grid coords v)) ∧
      (∀ v, v ∈ m.map Prod.fst ↔
        (v ∈ m0.map Prod.fst ∨ (v ≠ 0 ∧ valueFilter grid coords v ≠ []))) ∧
      ((m0.map Prod.fst).Nodup → (m.map Prod.fst).Nodup) := by
  induction coords with
  | nil =>
    intro m0 used0
    refine ⟨m0, used0, rfl, ?_, ?_, fun h => h⟩
    · intro v _
      simp [valueFilter]
    · intro v
      simp [valueFilter]
  | cons p rest ih =>
    intro m0 used0
    have hp : InRange grid p := hin p (by simp)
    have hrest : ∀ q ∈ rest, InRange grid q := fun q hq => hin q (by simp [hq])
    obtain ⟨pr, pc⟩ := p
    have hcell : cellAt grid pr pc = .ok (cellAtD grid pr pc) := cellAt_ok hp
    have hval : valAtD grid (pr, pc) = (cellAtD grid pr pc).value := rfl
    by_cases hz : (cellAtD grid pr pc).value = 0
    · -- empty cell: skipped
      obtain ⟨m, used, hrun, hlook, hkeys, hnd⟩ := ih hrest m0 used0
      have hfil : ∀ v, v ≠ 0 →
          valueFilter grid ((pr, pc) :: rest) v = valueFilter grid rest v := by
        intro v hv
        simp only [valueFilter, List.filter_cons]
        have hne : ¬ (valAtD grid (pr, pc) = v) := by
          rw [hval, hz]
          exact Ne.symm hv
        simp [hne]
      refine ⟨m, used, ?_, ?_, ?_, hnd⟩
      · rw [collectPositions_cons grid pr pc rest m0 used0 hcell, if_pos hz]
        exact hrun
      · intro v hv
        rw [hfil v hv]
        exact hlook v hv
      · intro v
        rcases eq_or_ne v 0 with rfl | hv
        · rw [hkeys 0]
          simp
        · rw [hkeys v, hfil v hv]
    · -- filled cell: recorded under its value
      obtain ⟨m, used, hrun, hlook, hkeys, hnd⟩ :=
        ih hrest (addPosition m0 (cellAtD grid pr pc).value (pr, pc))
          (if jsAnd used0 (valueToBitmask ((cellAtD grid pr pc).value : Int)) ≠ 0 then used0
           else jsOr used0 (valueToBitmask ((cellAtD grid pr pc).value : Int)))
      have hfilz : valueFilter grid ((pr, pc) :: rest) (cellAtD grid pr pc).value
          = (pr, pc) :: valueFilter grid rest (cellAtD grid pr pc).value := by
        simp [valueFilter, List.filter_cons, hval]
      have hfilne : ∀ v, v ≠ (cellAtD grid pr pc).value →
          valueFilter grid ((pr, pc) :: rest) v = valueFilter grid rest v := by
        intro v hvz
        simp only [valueFilter, List.filter_cons]
        have hne : ¬ (valAtD grid (pr, pc) = v) := by
          rw [hval]
          exact Ne.symm hvz
        simp [hne]
      refine ⟨m, used, ?_, ?_, ?_, ?_⟩
      · rw [collectPositions_cons grid pr pc rest m0 used0 hcell, if_neg hz]
        exact hrun
      · intro v hv
        by_cases hvz : v = (cellAtD grid pr pc).value
        · rw [hvz, hfilz, hlook _ (hvz ▸ hv), lookupPos_addPosition_self]
          by_cases hr : valueFilter grid rest (cellAtD grid pr pc).value = []
          · simp [hr]
          · simp [hr]
        · rw [hfilne v hvz, hlook v hv, lookupPos_addPosition_ne _ _ hvz]
      · intro v
        rw [hkeys v]
        have hmem : v ∈ (addPosition m0 (cellAtD grid pr pc).value (pr, pc)).map Prod.fst ↔
            (v ∈ m0.map Prod.fst ∨ v = (cellAtD grid pr pc).value) := by
          rw [keys_addPosition]
          split
          · next hzin =>
            constructor
            · exact .inl
            · rintro (h | rfl)
              · exact h
              · exact hzin
          · simp [or_comm]
        rw [hmem]
        by_cases hvz : v = (cellAtD grid pr pc).value
        · rw [hvz]
          have hne : valueFilter grid ((pr, pc) :: rest) (cellAtD grid pr pc).value ≠ [] := by
            rw [hfilz]
            simp
          simp [hne, hz]
        · rw [hfilne v hvz]
          tauto
      · intro hnd0
        exact hnd (keys_nodup_addPosition _ _ hnd0)

/-- First element of a filtered list: it is the first list element
satisfying the predicate. -/
theorem head?_filter_eq_some {α : Type} (f : α → Bool) (l : List α) (a : α) :
    (l.filter f).head? = some a ↔
      ∃ pre post, l = pre ++ a :: post ∧ (∀ x ∈ pre, f x = false) ∧ f a = true := by
  induction l with
  | nil => simp
  | cons x rest ih =>
    by_cases hx : f x
    · simp only [List.filter_cons, hx, if_pos rfl]
      constructor
      · intro h
        simp at h
        subst h
        exact ⟨[], rest, by simp, by simp, hx⟩
      · rintro ⟨pre, post, heq, hpre, ha⟩
        rcases pre with _ | ⟨y, pre'⟩
        · simp at heq
          simp [heq.1]
        · simp only [List.cons_append, List.cons.injEq] at heq
          exfalso
          have := hpre y (by simp)
          rw [← heq.1] at this
          rw [hx] at this
          simp at this
    · have hx' : f x = false := by simpa using hx
      rw [List.filter_cons, if_neg (by simp [hx'])]
      rw [ih]
      constructor
      · rintro ⟨pre, post, heq, hpre, ha⟩
        refine ⟨x :: pre, post, by simp [heq], ?_, ha⟩
        intro y hy
        rcases List.mem_cons.mp hy with rfl | hy'
        · exact hx'
        · exact hpre y hy'
      · rintro ⟨pre, post, heq, hpre, ha⟩
        rcases pre with _ | ⟨y, pre'⟩
        · simp at heq
          exfalso
          rw [← heq.1] at ha
          rw [hx'] at ha
          simp at ha
        · simp only [List.cons_append, List.cons.injEq] at heq
          refine ⟨pre', post, heq.2, ?_, ha⟩
          intro q hq
          exact hpre q (by simp [hq])

/-- Entries of the final `valuePositions` map: exactly one entry per
non-zero value occurring in the list, holding all its positions in list
order. -/
theorem checkDuplicates_map_spec (grid : Grid) (coords : List (Nat × Nat))
    (hin : ∀ p ∈ coords, InRange grid p) :
    ∃ m used, collectPositions grid coords [] 0 = .ok (m, used) ∧
      (∀ v ps, (v, ps) ∈ m ↔ (v ≠ 0 ∧ ps = valueFilter grid coords v ∧ ps ≠ [])) := by
  obtain ⟨m, used, hrun, hlook, hkeys, hnd⟩ := collectPositions_spec grid coords hin [] 0
  have hndm : (m.map Prod.fst).Nodup := hnd (by simp)
  have hlook' : ∀ v, v ≠ 0 → lookupPos m v =
      (if valueFilter grid coords v = [] then none else some (valueFilter grid coords v)) := by
    intro v hv
    rw [hlook v hv]
    by_cases h : valueFilter grid coords v = [] <;> simp [h, lookupPos]
  refine ⟨m, used, hrun, ?_⟩
  intro v ps
  constructor
  · intro hm
    have hv0 : v ≠ 0 := by
      intro h0
      subst h0
      have h1 : (0 : Nat) ∈ m.map Prod.fst := List.mem_map.mpr ⟨(0, ps), hm, rfl⟩
      rw [hkeys 0] at h1
      simp [lookupPos] at h1
    have h2 := (mem_iff_lookupPos hndm v ps).mp hm
    rw [hlook' v hv0] at h2
    by_cases h : valueFilter grid coords v = []
    · rw [if_pos h] at h2
      cases h2
    · rw [if_neg h] at h2
      have h3 : ps = valueFilter grid coords v := by
        injection h2 with h'
        exact h'.symm
      exact ⟨hv0, h3, h3 ▸ h⟩
  · rintro ⟨hv0, rfl, hne⟩
    apply (mem_iff_lookupPos hndm _ _).mpr
    rw [hlook' v hv0, if_neg hne]

/-- **C7**: `checkDuplicatesBitmask` skips empty cells and returns, as
`duplicates`, exactly the listed coordinates (all occurrences) of every
non-zero value appearing at two or more of the listed coordinates, and,
as `sources`, for each such value, exactly its first-seen coordinate in
list order. -/
theorem checkDuplicatesBitmask_spec (grid : Grid) (coords : List (Nat × Nat))
    (hin : ∀ p ∈ coords, InRange grid p) :
    ∃ res, checkDuplicatesBitmask grid coords = .ok res ∧
      (∀ p, p ∈ res.duplicates ↔
        (p ∈ coords ∧ valAtD grid p ≠ 0 ∧
          2 ≤ (coords.filter fun q => decide (valAtD grid q = valAtD grid p)).length)) ∧
      (∀ p, p ∈ res.sources ↔
        (valAtD grid p ≠ 0 ∧ ∃ pre post, coords = pre ++ p :: post ∧
          (∀ q ∈ pre, valAtD grid q ≠ valAtD grid p) ∧
          ∃ q ∈ post, valAtD grid q = valAtD grid p)) := by
  obtain ⟨m, used, hrun, hment⟩ := checkDuplicates_map_spec grid coords hin
  refine ⟨{ duplicates := (m.filter fun e => 1 < e.2.length).flatMap fun e => e.2
            sources := (m.filter fun e => 1 < e.2.length).filterMap fun e => e.2.head? },
    ?_, ?_, ?_⟩
  · unfold checkDuplicatesBitmask
    rw [hrun]
    rfl
  · intro p
    simp only [List.mem_flatMap, List.mem_filter, decide_eq_true_eq]
    constructor
    · rintro ⟨e, ⟨hem, helen⟩, hpe⟩
      obtain ⟨v, ps⟩ := e
      obtain ⟨hv0, hps, -⟩ := (hment v ps).mp hem
      subst hps
      have hpv : valAtD grid p = v ∧ p ∈ coords := by
        have := List.mem_filter.mp hpe
        exact ⟨by simpa using this.2, this.1⟩
      refine ⟨hpv.2, hpv.1 ▸ hv0, ?_⟩
      rw [hpv.1]
      exact helen
    · rintro ⟨hpc, hpv0, hlen⟩
      refine ⟨(valAtD grid p, valueFilter grid coords (valAtD grid p)), ⟨?_, ?_⟩, ?_⟩
      · apply (hment _ _).mpr
        refine ⟨hpv0, rfl, ?_⟩
        intro h
        have : p ∈ valueFilter grid coords (valAtD grid p) := by
          simp [valueFilter, List.mem_filter, hpc]
        rw [h] at this
        cases this
      · exact hlen
      · simp [valueFilter, List.mem_filter, hpc]
  · intro p
    simp only [List.mem_filterMap, List.mem_filter, decide_eq_true_eq]
    constructor
    · rintro ⟨e, ⟨hem, helen⟩, hhead⟩
      obtain ⟨v, ps⟩ := e
      obtain ⟨hv0, hps, -⟩ := (hment v ps).mp hem
      subst hps
      simp only at hhead helen
      obtain ⟨pre, post, heq, hpre, hfp⟩ := (head?_filter_eq_some _ coords p).mp hhead
      have hpv : valAtD grid p = v := by simpa using hfp
      subst hpv
      refine ⟨hv0, pre, post, heq, ?_, ?_⟩
      · intro q hq
        have := hpre q hq
        simpa using this
      · -- the filter has ≥ 2 elements and pre contributes none, so post has one
        have hfil : valueFilter grid coords (valAtD grid p)
            = p :: valueFilter grid post (valAtD grid p) := by
          rw [heq]
          simp only [valueFilter, List.filter_append, List.filter_cons]
          have hprefil : List.filter (fun q => decide (valAtD grid q = valAtD grid p)) pre = [] := by
            apply List.filter_eq_nil_iff.mpr
            intro q hq
            simpa using hpre q hq
          simp [hprefil]
        rw [hfil] at helen
        have : 0 < (valueFilter grid post (valAtD grid p)).length := by
          simpa using helen
        obtain ⟨q, hq⟩ := List.exists_mem_of_length_pos this
        have := List.mem_filter.mp hq
        exact ⟨q, this.1, by simpa using this.2⟩
    · rintro ⟨hpv0, pre, post, heq, hpre, q, hqpost, hqv⟩
      refine ⟨(valAtD grid p, valueFilter grid coords (valAtD grid p)), ⟨?_, ?_⟩, ?_⟩
      · apply (hment _ _).mpr
        refine ⟨hpv0, rfl, ?_⟩
        intro h
        have hp : p ∈ valueFilter grid coords (valAtD grid p) := by
          rw [heq]
          simp [valueFilter, List.mem_filter]
        rw [h] at hp
        cases hp
      · have hfil : valueFilter grid coords (valAtD grid p)
            = p :: valueFilter grid post (valAtD grid p) := by
          rw [heq]
          simp only [valueFilter, List.filter_append, List.filter_cons]
          have hprefil : List.filter (fun q => decide (valAtD grid q = valAtD grid p)) pre = [] := by
            apply List.filter_eq_nil_iff.mpr
            intro r hr
            simpa using hpre r hr
          simp [hprefil]
        rw [hfil]
        simp only [List.length_cons]
        have hq : q ∈ valueFilter grid post (valAtD grid p) := by
          simp [valueFilter, List.mem_filter, hqpost, hqv]
        have := List.length_pos.mpr (List.ne_nil_of_mem hq)
        omega
      · apply (head?_filter_eq_some _ coords p).mpr
        refine ⟨pre, post, heq, ?_, by simp⟩
        intro x hx
        simpa using hpre x hx

/-- `createGridFromValues(values)` (`src/core/grid/create.ts`): cells with
non-zero values become puzzle givens. -/
def createGridFromValues (values : List (List Nat)) : Grid :=
  values.map fun rowVals => rowVals.map fun value =>
    { value := value, isPuzzle := value != 0, notes := [], error := false,
      animationState := none }

/-- Witness for C7 on a concrete 2×2 grid with a duplicated value 1. -/
theorem checkDuplicatesBitmask_spec_witness :
    ∃ res, checkDuplicatesBitmask (createGridFromValues [[1, 1], [0, 1]])
        [(0, 0), (0, 1), (1, 0), (1, 1)] = .ok res ∧
      (∀ p, p ∈ res.duplicates ↔
        (p ∈ [(0, 0), (0, 1), (1, 0), (1, 1)] ∧
          valAtD (createGridFromValues [[1, 1], [0, 1]]) p ≠ 0 ∧
          2 ≤ (([(0, 0), (0, 1), (1, 0), (1, 1)] :
              List (Nat × Nat)).filter fun q =>
            decide (valAtD (createGridFromValues [[1, 1], [0, 1]]) q =
              valAtD (createGridFromValues [[1, 1], [0, 1]]) p)).length)) ∧
      (∀ p, p ∈ res.sources ↔
        (valAtD (createGridFromValues [[1, 1], [0, 1]]) p ≠ 0 ∧
          ∃ pre post, [(0, 0), (0, 1), (1, 0), (1, 1)] = pre ++ p :: post ∧
          (∀ q ∈ pre, valAtD (createGridFromValues [[1, 1], [0, 1]]) q ≠
            valAtD (createGridFromValues [[1, 1], [0, 1]]) p) ∧
          ∃ q ∈ post, valAtD (createGridFromValues [[1, 1], [0, 1]]) q =
            valAtD (createGridFromValues [[1, 1], [0, 1]]) p)) :=
  checkDuplicatesBitmask_spec (createGridFromValues [[1, 1], [0, 1]])
    [(0, 0), (0, 1), (1, 0), (1, 1)] (by decide)

/-! ## Region validation (`src/core/validation/standard.ts`, `collector.ts`) -/

/-- `ValidationResult` (the fields the core produces and merges). -/
structure ValidationResult where
  isValid : Bool
  errorCells : List (Nat × Nat)
  conflictSources : Option (List (Nat × Nat)) := none
  errorMessages : Option (List String) := none
  deriving Repr, DecidableEq

/-- `validateRegionBitmask(grid, region)`. -/
def validateRegionBitmask (grid : Grid) (region : Region) :
    Except String ValidationResult := do
  let r ← checkDuplicatesBitmask grid region.cells
  .ok { isValid := r.duplicates.length = 0
        errorCells := r.duplicates
        conflictSources := some r.sources
        errorMessages := some (if 0 < r.duplicates.length
          then ["duplicate cells in region " ++ region.id] else []) }

/-- The short-circuiting `region.cells.every(([r,c]) => grid[r][c].value !== 0)`. -/
def allFilledLoop (grid : Grid) : List (Nat × Nat) → Except String Bool
  | [] => .ok true
  | p :: rest =>
    match cellAt grid p.1 p.2 with
    | .error e => .error e
    | .ok c => if c.value != 0 then allFilledLoop grid rest else .ok false

/-- The accumulation loop `actualSum += grid[row][col].value`. -/
def sumLoop (grid : Grid) : List (Nat × Nat) → Nat → Except String Nat
  | [], acc => .ok acc
  | p :: rest, acc =>
    match cellAt grid p.1 p.2 with
    | .error e => .error e
    | .ok c => sumLoop grid rest (acc + c.value)

/-- `validateSum(grid, region)`: checks the cage sum once all cells of the
region are filled; regions without a `sum` property, or with unfilled
cells, are reported valid. -/
def validateSum (grid : Grid) (region : Region) : Except String ValidationResult :=
  match region.sum? with
  | none => .ok { isValid := true, errorCells := [] }
  | some expectedSum =>
    match allFilledLoop grid region.cells with
    | .error e => .error e
    | .ok allFilled =>
      if !allFilled then .ok { isValid := true, errorCells := [] }
      else
        match sumLoop grid region.cells 0 with
        | .error e => .error e
        | .ok actualSum =>
          .ok { isValid := actualSum = expectedSum
                errorCells := if actualSum = expectedSum then [] else region.cells
                errorMessages := some (if actualSum = expectedSum then []
                  else ["sum mismatch"]) }

/-- Insertion into a JS `Set` of `"row,col"` keys (kept in insertion
order, skipping already-present keys). -/
def insertDedup (l : List (Nat × Nat)) (p : Nat × Nat) : List (Nat × Nat) :=
  if p ∈ l then l else l ++ [p]

/-- `mergeValidationResults(...results)`. -/
def mergeValidationResults (results : List ValidationResult) : ValidationResult :=
  if results.length = 0 then { isValid := true, errorCells := [] }
  else
    let isValid := results.foldl (fun b r => b && r.isValid) true
    let errorCells := results.foldl (fun acc r => r.errorCells.foldl insertDedup acc) []
    let conflictSources := results.foldl (fun acc r =>
      match r.conflictSources with
      | some l => l.foldl insertDedup acc
      | none => acc) []
    let errorMessages := results.foldl (fun acc r =>
      match r.errorMessages with
      | some l => acc ++ l
      | none => acc) []
    { isValid := isValid
      errorCells := errorCells
      conflictSources := if 0 < conflictSources.length then some conflictSources else none
      errorMessages := if 0 < errorMessages.length then some errorMessages else none }

/-- The `regions.map(...)` pass of `validateAllRegions` (sequential, with
JS exception propagation). -/
def validateRegionsLoop (grid : Grid) : List Region → Except String (List ValidationResult)
  | [] => .ok []
  | region :: rest =>
    match validateRegionBitmask grid region with
    | .error e => .error e
    | .ok duplicateResult =>
      match region.sum? with
      | some _ =>
        match validateSum grid region with
        | .error e => .error e
        | .ok sumResult =>
          match validateRegionsLoop grid rest with
          | .error e => .error e
          | .ok results => .ok (mergeValidationResults [duplicateResult, sumResult] :: results)
      | none =>
        match validateRegionsLoop grid rest with
        | .error e => .error e
        | .ok results => .ok (duplicateResult :: results)

/-- `validateAllRegions(grid, regions)`: validates every region (duplicate
check, plus the sum check for cage regions) and merges the results. -/
def validateAllRegions (grid : Grid) (regions : List Region) :
    Except String ValidationResult :=
  match validateRegionsLoop grid regions with
  | .error e => .error e
  | .ok results => .ok (mergeValidationResults results)

/-! ### Characterization of `validateAllRegions` -/

/-- Specification predicate: no non-zero value occurs at two or more of
the listed coordinates. -/
def NoDupValues (grid : Grid) (cells : List (Nat × Nat)) : Prop :=
  ∀ p ∈ cells, valAtD grid p ≠ 0 →
    (cells.filter fun q => decide (valAtD grid q = valAtD grid p)).length ≤ 1

instance (grid : Grid) (cells : List (Nat × Nat)) : Decidable (NoDupValues grid cells) := by
  unfold NoDupValues
  infer_instance

/-- Specification predicate: the cage-sum constraint of a region (holds
trivially without a `sum` property or while a cell is unfilled). -/
def SumOk (grid : Grid) (region : Region) : Prop :=
  match region.sum? with
  | none => True
  | some s =>
    (∀ p ∈ region.cells, valAtD grid p ≠ 0) → (region.cells.map (valAtD grid)).sum = s

instance (grid : Grid) (region : Region) : Decidable (SumOk grid region) :=
  match h : region.sum? with
  | none => .isTrue (by unfold SumOk; rw [h]; trivial)
  | some s => decidable_of_iff
      ((∀ p ∈ region.cells, valAtD grid p ≠ 0) → (region.cells.map (valAtD grid)).sum = s)
      (by unfold SumOk; rw [h])

/-- Specification predicate: the whole grid satisfies every region's
duplicate-freedom and cage-sum constraints. -/
def GridValid (grid : Grid) (regions : List Region) : Prop :=
  ∀ reg ∈ regions, NoDupValues grid reg.cells ∧ SumOk grid reg

instance (grid : Grid) (regions : List Region) : Decidable (GridValid grid regions) := by
  unfold GridValid
  infer_instance

theorem allFilledLoop_ok (grid : Grid) (cells : List (Nat × Nat))
    (hin : ∀ p ∈ cells, InRange grid p) :
    allFilledLoop grid cells = .ok (cells.all fun p => valAtD grid p != 0) := by
  induction cells with
  | nil => rfl
  | cons p rest ih =>
    have h := cellAt_ok (hin p (by simp))
    rw [allFilledLoop, h]
    dsimp only
    by_cases hz : (cellAtD grid p.1 p.2).value = 0
    · simp [valAtD, hz]
    · have hrec := ih fun q hq => hin q (by simp [hq])
      simp [valAtD, hz, hrec]

theorem sumLoop_ok (grid : Grid) (cells : List (Nat × Nat))
    (hin : ∀ p ∈ cells, InRange grid p) :
    ∀ acc, sumLoop grid cells acc = .ok (acc + (cells.map (valAtD grid)).sum) := by
  induction cells with
  | nil => intro acc; simp [sumLoop]
  | cons p rest ih =>
    intro acc
    have h := cellAt_ok (hin p (by simp))
    rw [sumLoop, h]
    dsimp only
    rw [ih (fun q hq => hin q (by simp [hq]))]
    simp [valAtD]
    ring_nf

theorem validateRegionBitmask_ok (grid : Grid) (region : Region)
    (hin : ∀ p ∈ region.cells, InRange grid p) :
    ∃ res, validateRegionBitmask grid region = .ok res ∧
      (res.isValid = true ↔ NoDupValues grid region.cells) := by
  obtain ⟨r, hrun, hdup, -⟩ := checkDuplicatesBitmask_spec grid region.cells hin
  refine ⟨{ isValid := r.duplicates.length = 0
            errorCells := r.duplicates
            conflictSources := some r.sources
            errorMessages := some (if 0 < r.duplicates.length
              then ["duplicate cells in region " ++ region.id] else []) },
    by unfold validateRegionBitmask; rw [hrun]; rfl, ?_⟩
  simp only [decide_eq_true_eq]
  rw [List.length_eq_zero]
  constructor
  · intro hnil p hp hnz
    by_contra hcount
    have : p ∈ r.duplicates := (hdup p).mpr ⟨hp, hnz, by omega⟩
    rw [hnil] at this
    cases this
  · intro hnodup
    by_contra hne
    obtain ⟨p, hpmem⟩ := List.exists_mem_of_length_pos
      (List.length_pos.mpr hne)
    obtain ⟨hp, hnz, hcount⟩ := (hdup p).mp hpmem
    have := hnodup p hp hnz
    omega

theorem validateSum_ok (grid : Grid) (region : Region)
    (hin : ∀ p ∈ region.cells, InRange grid p) :
    ∃ res, validateSum grid region = .ok res ∧
      (res.isValid = true ↔ SumOk grid region) := by
  unfold validateSum SumOk
  match h : region.sum? with
  | none => exact ⟨_, rfl, by simp⟩
  | some s =>
    rw [allFilledLoop_ok grid region.cells hin]
    by_cases hall : region.cells.all (fun p => valAtD grid p != 0)
    · rw [sumLoop_ok grid region.cells hin 0]
      dsimp only
      rw [if_neg (by simp [hall])]
      refine ⟨_, rfl, ?_⟩
      simp only [decide_eq_true_eq, Nat.zero_add]
      constructor
      · intro hsum _
        exact hsum
      · intro hsum
        apply hsum
        intro p hp
        have := List.all_eq_true.mp hall p hp
        simpa using this
    · dsimp only
      rw [if_pos (by simpa using hall)]
      refine ⟨_, rfl, ?_⟩
      simp only [true_iff]
      intro hfilled
      exfalso
      apply hall
      apply List.all_eq_true.mpr
      intro p hp
      simpa using hfilled p hp

theorem foldl_and_isValid (l : List ValidationResult) (b : Bool) :
    l.foldl (fun acc r => acc && r.isValid) b = (b && l.all fun r => r.isValid) := by
  induction l generalizing b with
  | nil => simp
  | cons r rest ih =>
    simp only [List.foldl_cons, List.all_cons, ih, Bool.and_assoc]

theorem mergeValidationResults_isValid (results : List ValidationResult) :
    (mergeValidationResults results).isValid = results.all fun r => r.isValid := by
  unfold mergeValidationResults
  by_cases h : results.length = 0
  · rw [if_pos h]
    rw [List.length_eq_zero] at h
    subst h
    rfl
  · rw [if_neg h]
    exact (foldl_and_isValid results true).trans (by simp)

theorem validateRegionsLoop_ok (grid : Grid) (regions : List Region)
    (hin : ∀ reg ∈ regions, ∀ p ∈ reg.cells, InRange grid p) :
    ∃ results, validateRegionsLoop grid regions = .ok results ∧
      ((results.all fun r => r.isValid) = true ↔ GridValid grid regions) := by
  induction regions with
  | nil => exact ⟨[], rfl, by simp [GridValid]⟩
  | cons region rest ih =>
    have hreg : ∀ p ∈ region.cells, InRange grid p := hin region (by simp)
    have hrest : ∀ reg ∈ rest, ∀ p ∈ reg.cells, InRange grid p :=
      fun reg hr => hin reg (by simp [hr])
    obtain ⟨dres, hdrun, hdiff⟩ := validateRegionBitmask_ok grid region hreg
    obtain ⟨results, hrun, hiff⟩ := ih hrest
    match hs : region.sum? with
    | some s =>
      obtain ⟨sres, hsrun, hsiff⟩ := validateSum_ok grid region hreg
      refine ⟨mergeValidationResults [dres, sres] :: results, ?_, ?_⟩
      · rw [validateRegionsLoop, hdrun]
        dsimp only
        rw [hs, hsrun]
        dsimp only
        rw [hrun]
      · simp only [List.all_cons, mergeValidationResults_isValid]
        simp only [List.all_cons, List.all_nil, Bool.and_true, Bool.and_eq_true]
        rw [hiff]
        unfold GridValid
        constructor
        · rintro ⟨⟨hd, hsv⟩, hrest'⟩
          intro reg hregmem
          rcases List.mem_cons.mp hregmem with rfl | hmem
          · exact ⟨hdiff.mp hd, hsiff.mp hsv⟩
          · exact hrest' reg hmem
        · intro hall
          obtain ⟨hd, hsv⟩ := hall region (by simp)
          exact ⟨⟨hdiff.mpr hd, hsiff.mpr hsv⟩, fun reg hmem => hall reg (by simp [hmem])⟩
    | none =>
      refine ⟨dres :: results, ?_, ?_⟩
      · rw [validateRegionsLoop, hdrun]
        dsimp only
        rw [hs, hrun]
      · simp only [List.all_cons, Bool.and_eq_true]
        rw [hiff]
        unfold GridValid
        constructor
        · rintro ⟨hd, hrest'⟩
          intro reg hregmem
          rcases List.mem_cons.mp hregmem with rfl | hmem
          · refine ⟨hdiff.mp hd, ?_⟩
            unfold SumOk
            rw [hs]
            trivial
          · exact hrest' reg hmem
        · intro hall
          exact ⟨hdiff.mpr (hall region (by simp)).1,
            fun reg hmem => hall reg (by simp [hmem])⟩

/-- Characterization of `validateAllRegions`: with in-range regions it
never throws and its `isValid` flag means exactly `GridValid`. -/
theorem validateAllRegions_ok (grid : Grid) (regions : List Region)
    (hin : ∀ reg ∈ regions, ∀ p ∈ reg.cells, InRange grid p) :
    ∃ res, validateAllRegions grid regions = .ok res ∧
      (res.isValid = true ↔ GridValid grid regions) := by
  obtain ⟨results, hrun, hiff⟩ := validateRegionsLoop_ok grid regions hin
  refine ⟨mergeValidationResults results, ?_, ?_⟩
  · rw [validateAllRegions, hrun]
  · rw [mergeValidationResults_isValid]
    exact hiff

/-! ## Move feasibility and candidates
(`src/core/validation/standard.ts`, `src/core/candidates/optimized.ts`) -/

/-- The used-value bitmask of a region's cells, excluding the target cell
`(row, col)` (the inner loop of `isValidMoveBitmask` and
`getCandidatesForCellBitmask`). -/
def regionUsedMask (grid : Grid) (row col : Nat) :
    List (Nat × Nat) → Int → Except String Int
  | [], used => .ok used
  | (r, c) :: rest, used =>
    if r = row ∧ c = col then regionUsedMask grid row col rest used
    else
      match cellAt grid r c with
      | .error e => .error e
      | .ok cell =>
        regionUsedMask grid row col rest
          (if cell.value ≠ 0 then jsOr used (valueToBitmask (cell.value : Int)) else used)

/-- The per-region conflict loop of `isValidMoveBitmask`. -/
def isValidMoveLoop (grid : Grid) (row col : Nat) (value : Nat) :
    List Region → Except String Bool
  | [] => .ok true
  | region :: rest =>
    match regionUsedMask grid row col region.cells 0 with
    | .error e => .error e
    | .ok used =>
      if jsAnd used (valueToBitmask (value : Int)) ≠ 0 then .ok false
      else isValidMoveLoop grid row col value rest

/-- `isValidMoveBitmask(grid, row, col, value, regions)`: `value = 0` is
always valid; otherwise no region containing the cell may already use the
value (excluding the target cell itself). -/
def isValidMoveBitmask (grid : Grid) (row col : Nat) (value : Nat)
    (regions : List Region) : Except String Bool :=
  if value = 0 then .ok true
  else
    isValidMoveLoop grid row col value
      (regions.filter fun region => region.cells.any fun q => q.1 == row && q.2 == col)

/-- The per-region mask subtraction loop of `getCandidatesForCellBitmask`:
`candidatesBitmask &= ~usedValues` for each relevant region. -/
def candRegionsLoop (grid : Grid) (row col : Nat) : List Region → Int → Except String Int
  | [], mask => .ok mask
  | region :: rest, mask =>
    match regionUsedMask grid row col region.cells 0 with
    | .error e => .error e
    | .ok usedValues => candRegionsLoop grid row col rest (jsAnd mask (jsNot usedValues))

/-- The variant-rule exclusion pass of `getCandidatesForCellBitmask`:
`candidatesBitmask &= ~valueToBitmask(excludedValue)` for every value every
rule excludes (rules without a `getExcludedCandidates` method are skipped). -/
def applyExclusions (grid : Grid) (row col : Nat) (rules : List VariantRule)
    (mask : Int) : Int :=
  rules.foldl (fun m rule =>
    match rule.getExcludedCandidates with
    | some f => (f grid row col).foldl
        (fun (m2 : Int) (excludedValue : Nat) =>
          jsAnd m2 (jsNot (valueToBitmask (excludedValue : Int)))) m
    | none => m) mask

/-- `getCandidatesForCellBitmask(grid, row, col, config)`: the full-size
bitmask minus each containing region's used values minus every variant
rule's excluded candidates, converted to a value set (an already-filled
cell yields the empty set). -/
def getCandidatesForCellBitmask (grid : Grid) (row col : Nat)
    (config : SudokuConfig) : Except String (List Nat) :=
  match cellAt grid row col with
  | .error e => .error e
  | .ok cell =>
    if cell.value ≠ 0 then .ok []
    else
      match createFullBitmask (config.size : Int) with
      | .error e => .error e
      | .ok initialMask =>
        match candRegionsLoop grid row col
            (config.regions.filter fun region =>
              region.cells.any fun q => q.1 == row && q.2 == col) initialMask with
        | .error e => .error e
        | .ok regionMask =>
          .ok (valuesFromBitmask
            (applyExclusions grid row col config.variantRules regionMask))

/-! ### Characterization of `isValidMoveBitmask` and
`getCandidatesForCellBitmask` -/

theorem regionUsedMask_spec (grid : Grid) (row col : Nat) (cells : List (Nat × Nat))
    (hin : ∀ p ∈ cells, InRange grid p) :
    ∀ acc, ∃ u, regionUsedMask grid row col cells acc = .ok u ∧
      ∀ v : Nat, (bitOf u v = true ↔ (bitOf acc v = true ∨
        (1 ≤ v ∧ v ≤ 31 ∧ ∃ q ∈ cells, ¬(q.1 = row ∧ q.2 = col) ∧ valAtD grid q = v))) := by
  induction cells with
  | nil =>
    intro acc
    refine ⟨acc, rfl, ?_⟩
    intro v
    simp
  | cons q rest ih =>
    intro acc
    have hrest : ∀ p ∈ rest, InRange grid p := fun p hp => hin p (by simp [hp])
    obtain ⟨qr, qc⟩ := q
    by_cases hq : qr = row ∧ qc = col
    · obtain ⟨u, hrun, hbit⟩ := ih hrest acc
      refine ⟨u, ?_, ?_⟩
      · rw [regionUsedMask, if_pos hq]
        exact hrun
      · intro v
        rw [hbit v]
        constructor
        · rintro (h | ⟨h1, h2, p, hp, hpne, hpv⟩)
          · exact .inl h
          · exact .inr ⟨h1, h2, p, by simp [hp], hpne, hpv⟩
        · rintro (h | ⟨h1, h2, p, hp, hpne, hpv⟩)
          · exact .inl h
          · rcases List.mem_cons.mp hp with rfl | hp'
            · exact absurd hq hpne
            · exact .inr ⟨h1, h2, p, hp', hpne, hpv⟩
    · have hcell := cellAt_ok (hin (qr, qc) (by simp))
      by_cases hz : (cellAtD grid qr qc).value = 0
      · obtain ⟨u, hrun, hbit⟩ := ih hrest acc
        refine ⟨u, ?_, ?_⟩
        · rw [regionUsedMask, if_neg hq, hcell]
          dsimp only
          rw [if_neg (by simp [hz])]
          exact hrun
        · intro v
          rw [hbit v]
          constructor
          · rintro (h | ⟨h1, h2, p, hp, hpne, hpv⟩)
            · exact .inl h
            · exact .inr ⟨h1, h2, p, by simp [hp], hpne, hpv⟩
          · rintro (h | ⟨h1, h2, p, hp, hpne, hpv⟩)
            · exact .inl h
            · rcases List.mem_cons.mp hp with rfl | hp'
              · exfalso
                have hv0 : v = 0 := by
                  rw [← hpv]
                  simpa [valAtD] using hz
                omega
              · exact .inr ⟨h1, h2, p, hp', hpne, hpv⟩
      · obtain ⟨u, hrun, hbit⟩ :=
          ih hrest (jsOr acc (valueToBitmask ((cellAtD grid qr qc).value : Int)))
        refine ⟨u, ?_, ?_⟩
        · rw [regionUsedMask, if_neg hq, hcell]
          dsimp only
          rw [if_pos (by simp [hz])]
          exact hrun
        · intro v
          rw [hbit v]
          rw [bitOf_jsOr, Bool.or_eq_true, bitOf_valueToBitmask]
          constructor
          · rintro ((h | h) | ⟨h1, h2, p, hp, hpne, hpv⟩)
            · exact .inl h
            · simp only [Bool.and_eq_true, decide_eq_true_eq] at h
              exact .inr ⟨by omega, by omega, (qr, qc), by simp, hq, by simp [valAtD, h.2]⟩
            · exact .inr ⟨h1, h2, p, by simp [hp], hpne, hpv⟩
          · rintro (h | ⟨h1, h2, p, hp, hpne, hpv⟩)
            · exact .inl (.inl h)
            · rcases List.mem_cons.mp hp with rfl | hp'
              · refine .inl (.inr ?_)
                have : (cellAtD grid qr qc).value = v := by simpa [valAtD] using hpv
                simp only [Bool.and_eq_true, decide_eq_true_eq]
                omega
              · exact .inr ⟨h1, h2, p, hp', hpne, hpv⟩

theorem valueToBitmask_inRange {v : Nat} (h1 : 1 ≤ v) (h31 : v ≤ 31) :
    valueToBitmask (v : Int) = jsShl 1 (v : Int) := by
  rw [valueToBitmask, if_neg]
  push_neg
  constructor
  · exact_mod_cast h1
  · exact_mod_cast h31

theorem valueToBitmask_outOfRange {v : Nat} (h : 31 < v) :
    valueToBitmask (v : Int) = 0 := by
  rw [valueToBitmask, if_pos]
  right
  exact_mod_cast h

theorem jsAnd_zero (m : Int) : jsAnd m 0 = 0 := by
  have h0 : jsToUInt32 0 = 0 := by decide
  have hland : Nat.land (jsToUInt32 m) 0 = 0 := by
    have : (jsToUInt32 m) &&& 0 = 0 := by simp
    exact this
  simp [jsAnd, h0, hland, jsOfUInt32]

theorem isValidMoveLoop_spec (grid : Grid) (row col : Nat) (value : Nat)
    (hv1 : 1 ≤ value) (regions : List Region)
    (hin : ∀ reg ∈ regions, ∀ p ∈ reg.cells, InRange grid p) :
    ∃ b, isValidMoveLoop grid row col value regions = .ok b ∧
      (b = true ↔ ∀ reg ∈ regions, ¬(value ≤ 31 ∧
        ∃ q ∈ reg.cells, ¬(q.1 = row ∧ q.2 = col) ∧ valAtD grid q = value)) := by
  induction regions with
  | nil => exact ⟨true, rfl, by simp⟩
  | cons region rest ih =>
    have hreg : ∀ p ∈ region.cells, InRange grid p := hin region (by simp)
    have hrest : ∀ reg ∈ rest, ∀ p ∈ reg.cells, InRange grid p :=
      fun reg hr => hin reg (by simp [hr])
    obtain ⟨u, hurun, hubit⟩ := regionUsedMask_spec grid row col region.cells hreg 0
    rcases Nat.lt_or_ge 31 value with hbig | h31
    · -- value above 31: its mask is 0, no conflict is ever detected
      have hmask0 : jsAnd u (valueToBitmask (value : Int)) = 0 := by
        rw [valueToBitmask_outOfRange hbig, jsAnd_zero]
      obtain ⟨b, hbrun, hbiff⟩ := ih hrest
      refine ⟨b, ?_, ?_⟩
      · rw [isValidMoveLoop, hurun]
        dsimp only
        rw [if_neg (by simp [hmask0])]
        exact hbrun
      · rw [hbiff]
        constructor
        · intro h reg hregmem
          rcases List.mem_cons.mp hregmem with rfl | hmem
          · rintro ⟨h31', -⟩
            omega
          · exact h reg hmem
        · intro h reg hmem
          exact h reg (by simp [hmem])
    · -- value within 1..31: the conflict test is the bit test
      have hmaskne : (jsAnd u (valueToBitmask (value : Int)) ≠ 0) ↔ bitOf u value = true := by
        rw [valueToBitmask_inRange hv1 h31]
        exact jsAnd_jsShl_one_ne_zero u (by omega)
      by_cases hconf : bitOf u value = true
      · refine ⟨false, ?_, ?_⟩
        · rw [isValidMoveLoop, hurun]
          dsimp only
          rw [if_pos (hmaskne.mpr hconf)]
        · simp only [Bool.false_eq_true, false_iff]
          intro hall
          apply hall region (by simp)
          refine ⟨h31, ?_⟩
          have := (hubit value).mp hconf
          rcases this with h0 | ⟨-, -, q, hq, hqne, hqv⟩
          · rw [bitOf_zero] at h0
            cases h0
          · exact ⟨q, hq, hqne, hqv⟩
      · obtain ⟨b, hbrun, hbiff⟩ := ih hrest
        refine ⟨b, ?_, ?_⟩
        · rw [isValidMoveLoop, hurun]
          dsimp only
          rw [if_neg (by simpa [hmaskne] using hconf)]
          exact hbrun
        · rw [hbiff]
          constructor
          · intro h reg hregmem
            rcases List.mem_cons.mp hregmem with rfl | hmem
            · rintro ⟨-, q, hq, hqne, hqv⟩
              apply hconf
              apply (hubit value).mpr
              exact .inr ⟨hv1, h31, q, hq, hqne, hqv⟩
            · exact h reg hmem
          · intro h reg hmem
            exact h reg (by simp [hmem])

/-- Characterization of `isValidMoveBitmask`: with in-range regions it
never throws; the move is reported valid iff the value is a clear (0),
is above the bitmask range (> 31), or collides with no other cell of any
region containing the target cell. -/
theorem isValidMoveBitmask_spec (grid : Grid) (row col : Nat) (value : Nat)
    (regions : List Region)
    (hin : ∀ reg ∈ regions, ∀ p ∈ reg.cells, InRange grid p) :
    ∃ b, isValidMoveBitmask grid row col value regions = .ok b ∧
      (b = true ↔ (value = 0 ∨ 31 < value ∨
        ∀ reg ∈ regions, (row, col) ∈ reg.cells →
          ∀ q ∈ reg.cells, ¬(q.1 = row ∧ q.2 = col) → valAtD grid q ≠ value)) := by
  by_cases hz : value = 0
  · refine ⟨true, ?_, by simp [hz]⟩
    rw [isValidMoveBitmask, if_pos hz]
  · have hv1 : 1 ≤ value := by omega
    have hinf : ∀ reg ∈ (regions.filter fun region =>
        region.cells.any fun q => q.1 == row && q.2 == col),
        ∀ p ∈ reg.cells, InRange grid p := by
      intro reg hreg
      exact hin reg (List.mem_of_mem_filter hreg)
    obtain ⟨b, hbrun, hbiff⟩ := isValidMoveLoop_spec grid row col value hv1 _ hinf
    refine ⟨b, ?_, ?_⟩
    · rw [isValidMoveBitmask, if_neg hz]
      exact hbrun
    · rw [hbiff]
      constructor
      · intro h
        rcases Nat.lt_or_ge 31 value with hbig | h31
        · exact .inr (.inl hbig)
        · refine .inr (.inr ?_)
          intro reg hregmem hcontains q hq hqne
          have hfilter : reg ∈ regions.filter fun region =>
              region.cells.any fun r => r.1 == row && r.2 == col := by
            apply List.mem_filter.mpr
            refine ⟨hregmem, ?_⟩
            apply List.any_eq_true.mpr
            exact ⟨(row, col), hcontains, by simp⟩
          have := h reg hfilter
          intro hqv
          exact this ⟨h31, q, hq, hqne, hqv⟩
      · rintro (h0 | hbig | hok)
        · exact absurd h0 hz
        · intro reg hregmem
          rintro ⟨h31, -⟩
          omega
        · intro reg hregmem
          rintro ⟨h31, q, hq, hqne, hqv⟩
          obtain ⟨hmem, hany⟩ := List.mem_filter.mp hregmem
          obtain ⟨p, hp, hpeq⟩ := List.any_eq_true.mp hany
          have hpcell : (row, col) ∈ reg.cells := by
            have hpq := Bool.and_eq_true_iff.mp hpeq
            have hp1 : p.1 = row := by simpa using hpq.1
            have hp2 : p.2 = col := by simpa using hpq.2
            have hpp : p = (row, col) := Prod.ext hp1 hp2
            rw [← hpp]
            exact hp
          exact hok reg hmem hpcell q hq hqne hqv

theorem candRegionsLoop_spec (grid : Grid) (row col : Nat) (regions : List Region)
    (hin : ∀ reg ∈ regions, ∀ p ∈ reg.cells, InRange grid p) :
    ∀ mask, ∃ m, candRegionsLoop grid row col regions mask = .ok m ∧
      ∀ v : Nat, 1 ≤ v → v ≤ 31 →
        (bitOf m v = true ↔ (bitOf mask v = true ∧
          ∀ reg ∈ regions, ∀ q ∈ reg.cells, ¬(q.1 = row ∧ q.2 = col) →
            valAtD grid q ≠ v)) := by
  induction regions with
  | nil =>
    intro mask
    refine ⟨mask, rfl, ?_⟩
    intro v _ _
    simp
  | cons region rest ih =>
    intro mask
    have hreg : ∀ p ∈ region.cells, InRange grid p := hin region (by simp)
    have hrest : ∀ reg ∈ rest, ∀ p ∈ reg.cells, InRange grid p :=
      fun reg hr => hin reg (by simp [hr])
    obtain ⟨u, hurun, hubit⟩ := regionUsedMask_spec grid row col region.cells hreg 0
    obtain ⟨m, hmrun, hmbit⟩ := ih hrest (jsAnd mask (jsNot u))
    refine ⟨m, ?_, ?_⟩
    · rw [candRegionsLoop, hurun]
      exact hmrun
    · intro v hv1 hv31
      rw [hmbit v hv1 hv31, bitOf_jsAnd, bitOf_jsNot u (by omega), Bool.and_eq_true,
        Bool.not_eq_true']
      constructor
      · rintro ⟨⟨hmask, hused⟩, hrest'⟩
        refine ⟨hmask, ?_⟩
        intro reg hregmem q hq hqne hqv
        rcases List.mem_cons.mp hregmem with rfl | hmem
        · have : bitOf u v = true := (hubit v).mpr (.inr ⟨hv1, hv31, q, hq, hqne, hqv⟩)
          rw [this] at hused
          cases hused
        · exact hrest' reg hmem q hq hqne hqv
      · rintro ⟨hmask, hall⟩
        refine ⟨⟨hmask, ?_⟩, ?_⟩
        · rw [Bool.eq_false_iff]
          intro habs
          rcases (hubit v).mp habs with h0 | ⟨-, -, q, hq, hqne, hqv⟩
          · rw [bitOf_zero] at h0
            cases h0
          · exact hall region (by simp) q hq hqne hqv
        · intro reg hmem q hq hqne hqv
          exact hall reg (by simp [hmem]) q hq hqne hqv

theorem exclusionFold_spec (l : List Nat) :
    ∀ (m : Int) (v : Nat), 1 ≤ v → v ≤ 31 →
      (bitOf (l.foldl (fun (m2 : Int) (ev : Nat) =>
          jsAnd m2 (jsNot (valueToBitmask (ev : Int)))) m) v = true ↔
        (bitOf m v = true ∧ v ∉ l)) := by
  induction l with
  | nil =>
    intro m v _ _
    simp
  | cons ev rest ih =>
    intro m v hv1 hv31
    rw [List.foldl_cons, ih _ v hv1 hv31, bitOf_jsAnd, bitOf_jsNot _ (by omega),
      Bool.and_eq_true, Bool.not_eq_true', bitOf_valueToBitmask]
    constructor
    · rintro ⟨⟨hm, hex⟩, hrest⟩
      refine ⟨hm, ?_⟩
      intro hvmem
      rcases List.mem_cons.mp hvmem with rfl | hmem
      · simp [hv1, hv31] at hex
      · exact hrest hmem
    · rintro ⟨hm, hnot⟩
      have hne : v ≠ ev := fun h => hnot (h ▸ List.mem_cons_self ev rest)
      refine ⟨⟨hm, ?_⟩, fun hmem => hnot (by simp [hmem])⟩
      simp [hne]

theorem applyExclusions_spec (grid : Grid) (row col : Nat) (rules : List VariantRule) :
    ∀ (m : Int) (v : Nat), 1 ≤ v → v ≤ 31 →
      (bitOf (applyExclusions grid row col rules m) v = true ↔
        (bitOf m v = true ∧ ∀ rule ∈ rules, ∀ f, rule.getExcludedCandidates = some f →
          v ∉ f grid row col)) := by
  induction rules with
  | nil =>
    intro m v _ _
    simp [applyExclusions]
  | cons rule rest ih =>
    intro m v hv1 hv31
    match hf : rule.getExcludedCandidates with
    | some f =>
      have hstep : applyExclusions grid row col (rule :: rest) m
          = applyExclusions grid row col rest
            ((f grid row col).foldl
              (fun (m2 : Int) (ev : Nat) =>
                jsAnd m2 (jsNot (valueToBitmask (ev : Int)))) m) := by
        unfold applyExclusions
        rw [List.foldl_cons, hf]
      rw [hstep, ih _ v hv1 hv31, exclusionFold_spec _ m v hv1 hv31]
      constructor
      · rintro ⟨⟨hm, hnot⟩, hrest⟩
        refine ⟨hm, ?_⟩
        intro r hrmem g hg
        rcases List.mem_cons.mp hrmem with rfl | hmem
        · rw [hf] at hg
          injection hg with hg'
          rw [← hg']
          exact hnot
        · exact hrest r hmem g hg
      · rintro ⟨hm, hall⟩
        exact ⟨⟨hm, hall rule (by simp) f hf⟩,
          fun r hmem g hg => hall r (by simp [hmem]) g hg⟩
    | none =>
      have hstep : applyExclusions grid row col (rule :: rest) m
          = applyExclusions grid row col rest m := by
        unfold applyExclusions
        rw [List.foldl_cons, hf]
      rw [hstep, ih _ v hv1 hv31]
      constructor
      · rintro ⟨hm, hrest⟩
        refine ⟨hm, ?_⟩
        intro r hrmem g hg
        rcases List.mem_cons.mp hrmem with rfl | hmem
        · rw [hf] at hg
          cases hg
        · exact hrest r hmem g hg
      · rintro ⟨hm, hall⟩
        exact ⟨hm, fun r hmem g hg => hall r (by simp [hmem]) g hg⟩

/-- Characterization of `getCandidatesForCellBitmask` for an empty
in-range cell of a well-sized config: a value is a candidate iff it lies
in `1..size`, no region containing the cell already uses it elsewhere,
and no variant rule excludes it. -/
theorem getCandidatesForCellBitmask_spec (grid : Grid) (row col : Nat)
    (config : SudokuConfig) (hrc : InRange grid (row, col))
    (hempty : valAtD grid (row, col) = 0)
    (hsz1 : 1 ≤ config.size) (hsz31 : config.size ≤ 31)
    (hin : ∀ reg ∈ config.regions, ∀ p ∈ reg.cells, InRange grid p) :
    ∃ cands, getCandidatesForCellBitmask grid row col config = .ok cands ∧
      ∀ v : Nat, v ∈ cands ↔
        (1 ≤ v ∧ v ≤ config.size ∧
          (∀ reg ∈ config.regions, (row, col) ∈ reg.cells →
            ∀ q ∈ reg.cells, ¬(q.1 = row ∧ q.2 = col) → valAtD grid q ≠ v) ∧
          (∀ rule ∈ config.variantRules, ∀ f, rule.getExcludedCandidates = some f →
            v ∉ f grid row col)) := by
  have hcell := cellAt_ok hrc
  obtain ⟨full, hfull, hfullbit⟩ := bitOf_createFullBitmask hsz1 hsz31
  have hinf : ∀ reg ∈ (config.regions.filter fun region =>
      region.cells.any fun q => q.1 == row && q.2 == col),
      ∀ p ∈ reg.cells, InRange grid p :=
    fun reg hreg => hin reg (List.mem_of_mem_filter hreg)
  obtain ⟨rm, hrmrun, hrmbit⟩ := candRegionsLoop_spec grid row col _ hinf full
  refine ⟨valuesFromBitmask (applyExclusions grid row col config.variantRules rm), ?_, ?_⟩
  · rw [getCandidatesForCellBitmask, hcell]
    dsimp only
    rw [if_neg (by simpa [valAtD] using hempty), hfull]
    dsimp only
    rw [hrmrun]
  · intro v
    rw [mem_valuesFromBitmask]
    constructor
    · rintro ⟨hv1, hv31, hbit⟩
      obtain ⟨hrmv, hexcl⟩ := (applyExclusions_spec grid row col config.variantRules rm v
        hv1 hv31).mp hbit
      obtain ⟨hfullv, hreg⟩ := (hrmbit v hv1 hv31).mp hrmv
      have hvsize : v ≤ config.size := by
        have := hfullbit v hv1
        rw [this] at hfullv
        exact of_decide_eq_true hfullv
      refine ⟨hv1, hvsize, ?_, hexcl⟩
      intro reg hregmem hcontains q hq hqne hqv
      have hfilter : reg ∈ config.regions.filter fun region =>
          region.cells.any fun r => r.1 == row && r.2 == col := by
        apply List.mem_filter.mpr
        exact ⟨hregmem, List.any_eq_true.mpr ⟨(row, col), hcontains, by simp⟩⟩
      exact hreg reg hfilter q hq hqne hqv
    · rintro ⟨hv1, hvsize, hreg, hexcl⟩
      have hv31 : v ≤ 31 := le_trans hvsize hsz31
      refine ⟨hv1, hv31, ?_⟩
      apply (applyExclusions_spec grid row col config.variantRules rm v hv1 hv31).mpr
      refine ⟨?_, hexcl⟩
      apply (hrmbit v hv1 hv31).mpr
      refine ⟨?_, ?_⟩
      · rw [hfullbit v hv1]
        exact decide_eq_true hvsize
      · intro reg hregmem q hq hqne hqv
        obtain ⟨hmem, hany⟩ := List.mem_filter.mp hregmem
        obtain ⟨p, hp, hpeq⟩ := List.any_eq_true.mp hany
        have hpq := Bool.and_eq_true_iff.mp hpeq
        have hp1 : p.1 = row := by simpa using hpq.1
        have hp2 : p.2 = col := by simpa using hpq.2
        have hpp : p = (row, col) := Prod.ext hp1 hp2
        exact hreg reg hmem (hpp ▸ hp) q hq hqne hqv

/-! ### C2: candidate soundness versus `isValidMoveBitmask` -/

/-- Concrete counterexample data for C2: an empty 2×2 grid, no regions,
and a variant rule excluding the value 1 everywhere. -/
def c2Grid : Grid := createGridFromValues [[0, 0], [0, 0]]

/-- The config of the C2 counterexample. -/
def c2Config : SudokuConfig :=
  { size := 2
    regions := []
    variantRules := [{ id := "exclude-one", getExcludedCandidates := some fun _ _ _ => [1] }] }

/-- **C2, counterexample**: at the empty cell (0,0), value 1 is *not* in
the candidate set (a variant rule excludes it), yet `isValidMoveBitmask`
reports placing 1 there as valid — so "every value not in the returned
set makes `isValidMoveBitmask` return false" is false as stated. -/
theorem candidates_isValidMove_counterexample :
    getCandidatesForCellBitmask c2Grid 0 0 c2Config = .ok [2] ∧
    (1 : Nat) ∉ [2] ∧ (1 : Nat) ≤ c2Config.size ∧
    isValidMoveBitmask c2Grid 0 0 1 c2Config.regions = .ok true := by
  refine ⟨by rfl, by decide, by decide, by rfl⟩

/-- **C2 (amended)**: for an empty in-range cell, every value in the set
returned by `getCandidatesForCellBitmask` makes `isValidMoveBitmask`
return true; and every value in `1..size` *not* in the returned set that
is not excluded by any variant rule makes `isValidMoveBitmask` return
false.  (The original claim omitted the variant-exclusion proviso;
`isValidMoveBitmask` checks only region constraints, so a value removed
solely by a variant rule's `excluded_candidates` is still reported as a
valid move.) -/
theorem candidates_isValidMove_amended (grid : Grid) (row col : Nat)
    (config : SudokuConfig) (hrc : InRange grid (row, col))
    (hempty : valAtD grid (row, col) = 0)
    (hsz1 : 1 ≤ config.size) (hsz31 : config.size ≤ 31)
    (hin : ∀ reg ∈ config.regions, ∀ p ∈ reg.cells, InRange grid p) :
    ∃ cands, getCandidatesForCellBitmask grid row col config = .ok cands ∧
      ∀ v : Nat,
        (v ∈ cands → isValidMoveBitmask grid row col v config.regions = .ok true) ∧
        (1 ≤ v → v ≤ config.size → v ∉ cands →
          (∀ rule ∈ config.variantRules, ∀ f, rule.getExcludedCandidates = some f →
            v ∉ f grid row col) →
          isValidMoveBitmask grid row col v config.regions = .ok false) := by
  obtain ⟨cands, hcrun, hciff⟩ :=
    getCandidatesForCellBitmask_spec grid row col config hrc hempty hsz1 hsz31 hin
  refine ⟨cands, hcrun, ?_⟩
  intro v
  obtain ⟨b, hbrun, hbiff⟩ := isValidMoveBitmask_spec grid row col v config.regions hin
  constructor
  · intro hv
    obtain ⟨hv1, hvsize, hreg, hexcl⟩ := (hciff v).mp hv
    have hb : b = true := hbiff.mpr (.inr (.inr hreg))
    rw [hb] at hbrun
    exact hbrun
  · intro hv1 hvsize hnot hex
    have hb : b = false := by
      rcases hbool : b with _ | _
      · rfl
      · exfalso
        rcases hbiff.mp hbool with h0 | hbig | hreg
        · omega
        · omega
        · exact hnot ((hciff v).mpr ⟨hv1, hvsize, hreg, hex⟩)
    rw [hb] at hbrun
    exact hbrun

/-- Witness for the amended C2 on a concrete 2×2 rows/columns config. -/
theorem candidates_isValidMove_amended_witness :
    ∃ cands, getCandidatesForCellBitmask (createGridFromValues [[1, 0], [0, 0]]) 1 1
        { size := 2
          regions := [{ id := "row-1", type := "row", cells := [(1, 0), (1, 1)] },
                      { id := "column-1", type := "column", cells := [(0, 1), (1, 1)] }]
          variantRules := [] } = .ok cands ∧
      ∀ v : Nat,
        (v ∈ cands → isValidMoveBitmask (createGridFromValues [[1, 0], [0, 0]]) 1 1 v
          [{ id := "row-1", type := "row", cells := [(1, 0), (1, 1)] },
           { id := "column-1", type := "column", cells := [(0, 1), (1, 1)] }] = .ok true) ∧
        (1 ≤ v → v ≤ 2 → v ∉ cands →
          (∀ rule ∈ ([] : List VariantRule), ∀ f, rule.getExcludedCandidates = some f →
            v ∉ f (createGridFromValues [[1, 0], [0, 0]]) 1 1) →
          isValidMoveBitmask (createGridFromValues [[1, 0], [0, 0]]) 1 1 v
            [{ id := "row-1", type := "row", cells := [(1, 0), (1, 1)] },
             { id := "column-1", type := "column", cells := [(0, 1), (1, 1)] }] = .ok false) :=
  candidates_isValidMove_amended (createGridFromValues [[1, 0], [0, 0]]) 1 1
    { size := 2
      regions := [{ id := "row-1", type := "row", cells := [(1, 0), (1, 1)] },
                  { id := "column-1", type := "column", cells := [(0, 1), (1, 1)] }]
      variantRules := [] }
    (by decide) (by decide) (by decide) (by decide) (by decide)

/-! ## Solver heuristics (`src/core/solvers/heuristics.ts`) -/

/-- The empty-cell coordinates of one row, in column order. -/
def rowEmpties (r : Nat) : Nat → List CellState → List (Nat × Nat)
  | _, [] => []
  | c, cell :: rest =>
    if cell.value = 0 then (r, c) :: rowEmpties r (c + 1) rest
    else rowEmpties r (c + 1) rest

/-- All empty-cell coordinates of the grid in row-major order (the
iteration order shared by `getAllEmptyCellsCandidates` and the simple
solver's first-empty-cell scan). -/
def emptyCellCoords : Nat → Grid → List (Nat × Nat)
  | _, [] => []
  | r, row :: rest => rowEmpties r 0 row ++ emptyCellCoords (r + 1) rest

/-- `CellCandidateInfo` of `heuristics.ts`. -/
structure CellCandidateInfo where
  row : Nat
  col : Nat
  candidates : List Nat
  count : Nat
  constraintDegree : Option Nat := none
  deriving Repr, DecidableEq

/-- The collection loop of `getAllEmptyCellsCandidates`, iterating the
empty cells in row-major order and querying the candidate function. -/
def buildEmptyInfos (calcCandidates : Nat → Nat → Except String (List Nat)) :
    List (Nat × Nat) → Except String (List CellCandidateInfo)
  | [] => .ok []
  | (r, c) :: rest =>
    match calcCandidates r c with
    | .error e => .error e
    | .ok cands =>
      match buildEmptyInfos calcCandidates rest with
      | .error e => .error e
      | .ok infos =>
        .ok ({ row := r, col := c, candidates := cands, count := cands.length } :: infos)

/-- `getAllEmptyCellsCandidates(grid, config, calcCandidates)`. -/
def getAllEmptyCellsCandidates (grid : Grid)
    (calcCandidates : Nat → Nat → Except String (List Nat)) :
    Except String (List CellCandidateInfo) :=
  buildEmptyInfos calcCandidates (emptyCellCoords 0 grid)

/-- Stable insertion used to model `emptyCells.sort((a, b) => a.count - b.count)`
(JS `Array.prototype.sort` is stable). -/
def insertByCount (x : CellCandidateInfo) : List CellCandidateInfo → List CellCandidateInfo
  | [] => [x]
  | y :: rest => if y.count < x.count then y :: insertByCount x rest else x :: y :: rest

/-- Stable ascending sort by candidate count. -/
def sortByCount : List CellCandidateInfo → List CellCandidateInfo
  | [] => []
  | x :: rest => insertByCount x (sortByCount rest)

/-- Stable insertion for the descending constraint-degree sort
(`(b.constraintDegree ?? 0) - (a.constraintDegree ?? 0)`). -/
def insertByDegreeDesc (x : CellCandidateInfo) :
    List CellCandidateInfo → List CellCandidateInfo
  | [] => [x]
  | y :: rest =>
    if x.constraintDegree.getD 0 < y.constraintDegree.getD 0
    then y :: insertByDegreeDesc x rest
    else x :: y :: rest

/-- Stable descending sort by constraint degree. -/
def sortByDegreeDesc : List CellCandidateInfo → List CellCandidateInfo
  | [] => []
  | x :: rest => insertByDegreeDesc x (sortByDegreeDesc rest)

/-- The inner cell loop of `calculateConstraintDegree`: collects (into the
`affectedCells` set, kept in insertion order) the empty cells of one
region other than the target cell.  The JS `&&` short-circuit reads the
grid only for cells different from the target. -/
def degreeFold (grid : Grid) (row col : Nat) :
    List (Nat × Nat) → List (Nat × Nat) → Except String (List (Nat × Nat))
  | [], acc => .ok acc
  | q :: rest, acc =>
    if q.1 = row ∧ q.2 = col then degreeFold grid row col rest acc
    else
      match cellAt grid q.1 q.2 with
      | .error e => .error e
      | .ok cell =>
        degreeFold grid row col rest (if cell.value = 0 then insertDedup acc q else acc)

/-- The outer region loop of `calculateConstraintDegree`. -/
def degreeRegionsLoop (grid : Grid) (row col : Nat) :
    List Region → List (Nat × Nat) → Except String (List (Nat × Nat))
  | [], acc => .ok acc
  | region :: rest, acc =>
    match degreeFold grid row col region.cells acc with
    | .error e => .error e
    | .ok acc' => degreeRegionsLoop grid row col rest acc'

/-- `calculateConstraintDegree(grid, config, row, col)`: the number of
distinct other empty cells sharing at least one region with the target. -/
def calculateConstraintDegree (grid : Grid) (config : SudokuConfig) (row col : Nat) :
    Except String Nat :=
  if config.regions.length = 0 then .ok 0
  else
    match degreeRegionsLoop grid row col
        (config.regions.filter fun region =>
          region.cells.any fun q => q.1 == row && q.2 == col) [] with
    | .error e => .error e
    | .ok affectedCells => .ok affectedCells.length

/-- The degree-computation loop of `breakTiesByDegreeHeuristic`. -/
def attachDegrees (grid : Grid) (config : SudokuConfig) :
    List CellCandidateInfo → Except String (List CellCandidateInfo)
  | [] => .ok []
  | cell :: rest =>
    match calculateConstraintDegree grid config cell.row cell.col with
    | .error e => .error e
    | .ok d =>
      match attachDegrees grid config rest with
      | .error e => .error e
      | .ok done => .ok ({ cell with constraintDegree := some d } :: done)

/-- `breakTiesByDegreeHeuristic(grid, config, tiedCells)`. -/
def breakTiesByDegreeHeuristic (grid : Grid) (config : SudokuConfig)
    (tiedCells : List CellCandidateInfo) : Except String (Option CellCandidateInfo) :=
  match attachDegrees grid config tiedCells with
  | .error e => .error e
  | .ok withDegrees => .ok (sortByDegreeDesc withDegrees).head?

/-- `selectCellWithMRV(grid, config, calcCandidates)`: the MRV cell choice
with degree tie-breaking; `none` iff the grid has no empty cell. -/
def selectCellWithMRV (grid : Grid) (config : SudokuConfig)
    (calcCandidates : Nat → Nat → Except String (List Nat)) :
    Except String (Option CellCandidateInfo) :=
  match getAllEmptyCellsCandidates grid calcCandidates with
  | .error e => .error e
  | .ok emptyCells =>
    if emptyCells.isEmpty then .ok none
    else
      match sortByCount emptyCells with
      | [] => .ok none
      | first :: sortedRest =>
        if first.count = 0 then .ok (some first)
        else
          let mrvCells := (first :: sortedRest).filter fun cell => cell.count == first.count
          if mrvCells.length = 1 then .ok mrvCells.head?
          else breakTiesByDegreeHeuristic grid config mrvCells

/-! ## Backtracking solvers (`src/core/solvers/backtracking.ts`, `index.ts`) -/

/-- A solver progress event (the argument pair of `SolveCallback`). -/
inductive SolveEvent where
  | solution (grid : Grid)
  | step (row col value : Nat)

/-- `SolverStats` (the `candidateCalculations` counter lives inside the
memoized candidate closure of `solveSudoku` and is elided together with
the — semantically transparent — cache). -/
structure SolverStats where
  timeMs : Int := 0
  backtracks : Nat := 0
  assignments : Nat := 0
  candidateCalculations : Nat := 0
  steps : Nat := 0
  deriving Repr, DecidableEq

/-- `BacktrackingContext` (the immutable part; the mutable fields live in
`SolveState`). -/
structure BacktrackingContext where
  config : SudokuConfig
  onProgress : Option (SolveEvent → Option Bool) := none
  findAllSolutions : Bool := false
  maxSolutions : Nat := 1
  timeoutTimestamp : Option Int := none
  getCandidatesForCell : Nat → Nat → Except String (List Nat)

/-- The mutable fields of the backtracking context (`solutions`,
`interrupted`, `stats`, `recursionCounter`), plus the next index of the
`Date.now()` oracle. -/
structure SolveState where
  solutions : List Grid := []
  interrupted : Bool := false
  stats : SolverStats := {}
  recursionCounter : Nat := 0
  clockIndex : Nat := 0

/-- `TIMEOUT_CHECK_INTERVAL`. -/
def TIMEOUT_CHECK_INTERVAL : Nat := 100

/-- `stats.backtracks++`. -/
def bumpBacktracks (st : SolveState) : SolveState :=
  { st with stats := { st.stats with backtracks := st.stats.backtracks + 1 } }

/-- `stats.assignments++`. -/
def bumpAssignments (st : SolveState) : SolveState :=
  { st with stats := { st.stats with assignments := st.stats.assignments + 1 } }

/-- Whether the step callback returned `false` (requesting interruption). -/
def stepInterrupted (ctx : BacktrackingContext) (row col value : Nat) : Bool :=
  match ctx.onProgress with
  | some cb => cb (.step row col value) == some false
  | none => false

/-- The solver entry prologue shared by both solvers: increment the
recursion counter and check the deadline every `TIMEOUT_CHECK_INTERVAL`
calls (consuming one `Date.now()` tick when consulted).  Returns the
timed-out flag and the updated state. -/
def solverPrologue (clock : Nat → Int) (ctx : BacktrackingContext) (st : SolveState) :
    Bool × SolveState :=
  let rc := st.recursionCounter + 1
  match ctx.timeoutTimestamp with
  | some tt =>
    if rc % TIMEOUT_CHECK_INTERVAL = 0 then
      (clock st.clockIndex > tt,
        { st with recursionCounter := rc, clockIndex := st.clockIndex + 1 })
    else (false, { st with recursionCounter := rc })
  | none => (false, { st with recursionCounter := rc })

/-- The shared found-a-solution block: push the clone, fire the
`"solution"` callback, then apply the `maxSolutions` / `findAllSolutions`
return logic of `solveWithBacktracking`. -/
def recordSolutionMRV (ctx : BacktrackingContext) (grid : Grid) (st : SolveState) :
    Bool × SolveState :=
  let solution := cloneGrid grid
  let st1 := { st with solutions := st.solutions ++ [solution] }
  let interrupted :=
    match ctx.onProgress with
    | some cb => cb (.solution solution) == some false
    | none => false
  if interrupted then (false, { st1 with interrupted := true })
  else if st1.solutions.length ≥ ctx.maxSolutions then (true, st1)
  else (!ctx.findAllSolutions, st1)

/-- The value loop of `solveWithBacktracking` (`for (const value of
candidates)`), parametric in the recursive call. -/
def tryCandidatesLoop (solve : Grid → SolveState → Except String (Bool × SolveState))
    (ctx : BacktrackingContext) (grid : Grid) (row col : Nat) :
    List Nat → SolveState → Except String (Option Bool × SolveState)
  | [], st => .ok (none, st)
  | value :: rest, st =>
    let newGrid := setCellValue grid row col value
    let st1 := bumpAssignments st
    if stepInterrupted ctx row col value then
      .ok (some false, { st1 with interrupted := true })
    else
      match solve newGrid st1 with
      | .error e => .error e
      | .ok (solved, st2) =>
        if solved && !ctx.findAllSolutions then .ok (some true, st2)
        else if st2.interrupted || st2.solutions.length ≥ ctx.maxSolutions then
          .ok (some false, st2)
        else tryCandidatesLoop solve ctx grid row col rest st2

/-- `solveWithBacktracking(grid, context)`: MRV + degree-heuristic
depth-first search.  `fuel` is a modelling artifact for the unbounded JS
recursion; each recursive call fills one empty cell, so any fuel above
the number of empty cells behaves as the unbounded original. -/
def solveWithBacktracking (clock : Nat → Int) :
    Nat → Grid → BacktrackingContext → SolveState → Except String (Bool × SolveState)
  | 0, _, _, st => .ok (false, st)
  | fuel + 1, grid, ctx, st =>
    let (timedOut, st1) := solverPrologue clock ctx st
    if timedOut then .ok (false, st1)
    else if st1.interrupted then .ok (false, st1)
    else
      match selectCellWithMRV grid ctx.config ctx.getCandidatesForCell with
      | .error e => .error e
      | .ok none =>
        match validateAllRegions grid ctx.config.regions with
        | .error e => .error e
        | .ok validation =>
          if !validation.isValid then .ok (false, bumpBacktracks st1)
          else .ok (recordSolutionMRV ctx grid st1)
      | .ok (some nextCell) =>
        if nextCell.candidates.length = 0 then .ok (false, bumpBacktracks st1)
        else
          match tryCandidatesLoop (fun g s => solveWithBacktracking clock fuel g ctx s)
              ctx grid nextCell.row nextCell.col nextCell.candidates st1 with
          | .error e => .error e
          | .ok (some b, st2) => .ok (b, st2)
          | .ok (none, st2) => .ok (false, bumpBacktracks st2)

/-- `row`-major first empty cell (the scan loop of
`solveWithSimpleBacktracking`). -/
def findFirstEmpty (grid : Grid) : Option (Nat × Nat) :=
  (emptyCellCoords 0 grid).head?

/-- The found-a-solution block of the simple solver (no `maxSolutions`
check here, matching the source). -/
def recordSolutionSimple (ctx : BacktrackingContext) (grid : Grid) (st : SolveState) :
    Bool × SolveState :=
  let solution := cloneGrid grid
  let st1 := { st with solutions := st.solutions ++ [solution] }
  let interrupted :=
    match ctx.onProgress with
    | some cb => cb (.solution solution) == some false
    | none => false
  if interrupted then (false, { st1 with interrupted := true })
  else (!ctx.findAllSolutions, st1)

/-- The `for (num = 1..size)` loop of `solveWithSimpleBacktracking`,
parametric in the recursive call; numbers not in the (initial-grid)
candidate set are skipped. -/
def simpleTryNums (solve : Grid → SolveState → Except String (Bool × SolveState))
    (ctx : BacktrackingContext) (grid : Grid) (row col : Nat) :
    List Nat → SolveState → Except String (Option Bool × SolveState)
  | [], st => .ok (none, st)
  | num :: rest, st =>
    match ctx.getCandidatesForCell row col with
    | .error e => .error e
    | .ok candidates =>
      if num ∉ candidates then simpleTryNums solve ctx grid row col rest st
      else
        let newGrid := setCellValue grid row col num
        let st1 := bumpAssignments st
        if stepInterrupted ctx row col num then
          .ok (some false, { st1 with interrupted := true })
        else
          match solve newGrid st1 with
          | .error e => .error e
          | .ok (solved, st2) =>
            if solved then .ok (some true, st2)
            else if st2.interrupted || st2.solutions.length ≥ ctx.maxSolutions then
              .ok (some false, st2)
            else simpleTryNums solve ctx grid row col rest st2

/-- `solveWithSimpleBacktracking(grid, context)`: first-empty-cell,
ascending-value backtracking with per-node validity pruning. -/
def solveWithSimpleBacktracking (clock : Nat → Int) :
    Nat → Grid → BacktrackingContext → SolveState → Except String (Bool × SolveState)
  | 0, _, _, st => .ok (false, st)
  | fuel + 1, grid, ctx, st =>
    let (timedOut, st1) := solverPrologue clock ctx st
    if timedOut then .ok (false, st1)
    else if st1.interrupted then .ok (false, st1)
    else
      match validateAllRegions grid ctx.config.regions with
      | .error e => .error e
      | .ok validation =>
        if !validation.isValid then .ok (false, bumpBacktracks st1)
        else
          match findFirstEmpty grid with
          | none =>
            -- defensive re-validation of the complete grid
            match validateAllRegions grid ctx.config.regions with
            | .error e => .error e
            | .ok validation2 =>
              if !validation2.isValid then .ok (false, bumpBacktracks st1)
              else .ok (recordSolutionSimple ctx grid st1)
          | some (row, col) =>
            match simpleTryNums (fun g s => solveWithSimpleBacktracking clock fuel g ctx s)
                ctx grid row col (List.range' 1 ctx.config.size) st1 with
            | .error e => .error e
            | .ok (some b, st2) => .ok (b, st2)
            | .ok (none, st2) => .ok (false, bumpBacktracks st2)

/-! ## Solver entry point (`src/core/solvers/index.ts`) -/

/-- `SolverOptions` with the source's defaults (`timeoutMs = 0` is falsy
in `timeoutMs ? startTime + timeoutMs : undefined`, disabling the
deadline). -/
structure SolverOptions where
  findAllSolutions : Bool := false
  maxSolutions : Nat := 1
  timeoutMs : Int := 30000
  collectStats : Bool := true
  onProgress : Option (SolveEvent → Option Bool) := none
  strategy : String := "fastest"

/-- `SolverResult`. -/
structure SolverResult where
  success : Bool := false
  solutions : List Grid := []
  stats : Option SolverStats := none
  finishReason : String := "error"
  failReason : Option String := none

/-- The ascending-value filter loop inside `solveSudoku`'s candidate
closure: all `num ∈ 1..size` with `isValidMoveBitmask(grid, …)`. -/
def filterValidValues (grid : Grid) (config : SudokuConfig) (row col : Nat) :
    List Nat → Except String (List Nat)
  | [] => .ok []
  | num :: rest =>
    match isValidMoveBitmask grid row col num config.regions with
    | .error e => .error e
    | .ok valid =>
      match filterValidValues grid config row col rest with
      | .error e => .error e
      | .ok nums => .ok (if valid then num :: nums else nums)

/-- The candidate closure `context.getCandidatesForCell` built by
`solveSudoku`: it closes over the *initial* grid (so candidates are fixed
per position for the whole search) and memoizes per position — the cache
is semantically transparent and elided. -/
def initialCandidatesFn (grid : Grid) (config : SudokuConfig) (row col : Nat) :
    Except String (List Nat) :=
  match cellAt grid row col with
  | .error e => .error e
  | .ok cell =>
    if cell.value ≠ 0 then .ok []
    else filterValidValues grid config row col (List.range' 1 config.size)

/-- The fuel passed to the fuelled solver models the unbounded JS
recursion: one more than the number of empty cells (each recursion level
fills one empty cell). -/
def solverFuel (grid : Grid) : Nat := (emptyCellCoords 0 grid).length + 1

/-- The `try` block of `solveSudoku`: initial validation, context
construction, search, and result classification.  Returns the result and
the next `Date.now()` index. -/
def solveSudokuBody (clock : Nat → Int) (grid : Grid) (config : SudokuConfig)
    (options : SolverOptions) (timeoutTimestamp : Option Int) :
    Except String (SolverResult × Nat) :=
  match validateAllRegions grid config.regions with
  | .error e => .error e
  | .ok initialValidation =>
    if !initialValidation.isValid then
      .ok ({ success := false, solutions := [], finishReason := "no_solution",
             failReason := some "initial grid invalid" }, 1)
    else
      let ctx : BacktrackingContext :=
        { config := config
          onProgress := options.onProgress
          findAllSolutions := options.findAllSolutions
          maxSolutions := options.maxSolutions
          timeoutTimestamp := timeoutTimestamp
          getCandidatesForCell := initialCandidatesFn grid config }
      let st0 : SolveState := { clockIndex := 1 }
      match (if options.strategy = "fastest"
             then solveWithBacktracking clock (solverFuel grid) (cloneGrid grid) ctx st0
             else solveWithSimpleBacktracking clock (solverFuel grid) (cloneGrid grid) ctx st0) with
      | .error e => .error e
      | .ok (_solved, stF) =>
        if stF.interrupted then
          match stF.solutions.getLast? with
          | some lastSolution =>
            match validateAllRegions lastSolution config.regions with
            | .error e => .error e
            | .ok validation =>
              if validation.isValid then
                .ok ({ success := true, solutions := stF.solutions,
                       finishReason := "interrupted_with_solution" }, stF.clockIndex)
              else
                .ok ({ success := stF.solutions.dropLast.length > 0
                       solutions := stF.solutions.dropLast
                       finishReason := "interrupted" }, stF.clockIndex)
          | none =>
            .ok ({ success := false, solutions := [], finishReason := "interrupted" },
              stF.clockIndex)
        else
          match timeoutTimestamp with
          | some tt =>
            if clock stF.clockIndex > tt then
              match stF.solutions.getLast? with
              | some lastSolution =>
                match validateAllRegions lastSolution config.regions with
                | .error e => .error e
                | .ok validation =>
                  .ok ({ success := validation.isValid, solutions := stF.solutions,
                         finishReason := "timeout" }, stF.clockIndex + 1)
              | none =>
                .ok ({ success := false, solutions := stF.solutions,
                       finishReason := "timeout" }, stF.clockIndex + 1)
            else if stF.solutions.length > 0 then
              .ok ({ success := true, solutions := stF.solutions,
                     finishReason := "solved" }, stF.clockIndex + 1)
            else
              .ok ({ success := false, solutions := stF.solutions,
                     finishReason := "no_solution" }, stF.clockIndex + 1)
          | none =>
            if stF.solutions.length > 0 then
              .ok ({ success := true, solutions := stF.solutions,
                     finishReason := "solved" }, stF.clockIndex)
            else
              .ok ({ success := false, solutions := stF.solutions,
                     finishReason := "no_solution" }, stF.clockIndex)

/-- `solveSudoku(grid, config, options)`: total from the caller's
perspective — the surrounding `try`/`catch` converts any exception into a
`finishReason = "error"` result, and the `finally` block stamps
`stats.timeMs`.  (The mutable `stats` object is shared between the search
and the result; claims in this development do not depend on the numeric
stats, so the result's `stats` field carries the `collectStats` choice
and the final `timeMs` only.) -/
def solveSudoku (clock : Nat → Int) (grid : Grid) (config : SudokuConfig)
    (options : SolverOptions := {}) : SolverResult :=
  let startTime := clock 0
  let timeoutTimestamp : Option Int :=
    if options.timeoutMs ≠ 0 then some (startTime + options.timeoutMs) else none
  match solveSudokuBody clock grid config options timeoutTimestamp with
  | .ok (r, idx) =>
    { r with stats := if options.collectStats
        then some { timeMs := clock idx - startTime } else none }
  | .error e =>
    { success := false, solutions := []
      stats := if options.collectStats then some { timeMs := clock 1 - startTime } else none
      finishReason := "error", failReason := some e }

/-! ## Puzzle generator (`src/core/generators/generator.ts`) -/

/-- `GeneratorStats`. -/
structure GeneratorStats where
  timeMs : Int := 0
  attempts : Nat := 0
  fullGridsGenerated : Nat := 0
  digAttempts : Nat := 0
  refillAttempts : Nat := 0
  deriving Repr, DecidableEq

/-- A generator progress event (`GeneratorCallback`'s phase and grid). -/
inductive GenEvent where
  | grid (g : Grid)
  | puzzle (g : Grid)

/-- `GeneratorOptions` (difficulty is the `DifficultyLevel` string enum;
`minGivens`/`maxGivens` default to 25% / 50% of the cells). -/
structure GeneratorOptions where
  difficulty : String := "medium"
  uniqueSolution : Bool := true
  minGivens : Option Nat := none
  maxGivens : Option Nat := none
  symmetrical : Bool := false
  symmetryType : String := "rotational"
  timeoutMs : Int := 30000
  onProgress : Option (GenEvent → Option Bool) := none

/-- `GeneratorResult`. -/
structure GeneratorResult where
  success : Bool := false
  puzzle : Option Grid := none
  solution : Option Grid := none
  stats : GeneratorStats := {}
  finishReason : String := "error"
  errorMessage : Option String := none
  givensCount : Option Nat := none
  difficulty : Option String := none

/-- The generator's threaded mutable state: the stats object plus the
next indices of the `Math.random()` and `Date.now()` oracles. -/
structure GenState where
  stats : GeneratorStats := {}
  rngIndex : Nat := 0
  clockIndex : Nat := 0

/-- Swap two positions of a list (identity when an index is out of
range, which never happens for Fisher-Yates). -/
def listSwap {α : Type} (l : List α) (i j : Nat) : List α :=
  match l.get? i, l.get? j with
  | some a, some b => (l.set i b).set j a
  | _, _ => l

/-- The Fisher-Yates loop of `shuffleArray`: `j = Math.floor(Math.random()
* (i + 1))` is modelled as `rng k % (i + 1)`, consuming one oracle value
per step — every outcome of the original is a choice of `rng`. -/
def shuffleGo {α : Type} (rng : Nat → Nat) : Nat → Nat → List α → List α × Nat
  | k, 0, l => (l, k)
  | k, i + 1, l =>
    let j := rng k % (i + 2)
    shuffleGo rng (k + 1) i (listSwap l (i + 1) j)

/-- `shuffleArray(array)`: returns the shuffled copy and the next oracle
index. -/
def shuffleArray {α : Type} (rng : Nat → Nat) (k : Nat) (l : List α) : List α × Nat :=
  shuffleGo rng k (l.length - 1) l

/-- `countGivens(grid)`: the number of non-empty cells. -/
def countGivens (grid : Grid) : Nat :=
  grid.foldl (fun acc row =>
    row.foldl (fun acc2 cell => if cell.value ≠ 0 then acc2 + 1 else acc2) acc) 0

/-- `getSymmetricPosition(row, col, size, type)` (coordinates are within
`[0, size)` at every call site, so `Nat` subtraction is exact). -/
def getSymmetricPosition (row col size : Nat) (type : String) : Nat × Nat :=
  if type = "rotational" then (size - 1 - row, size - 1 - col)
  else if type = "mirror" then (size - 1 - row, col)
  else if type = "diagonal" then (col, row)
  else (row, col)

/-- The `while` scan of `fillGridWithBacktracking` for the next cell to
fill, in row-major order from `(row, col)`; the generator only scans
grids it created itself (square, `size × size`), so the total accessor is
exact.  The fuel bounds the at most `size² + size` loop steps. -/
def findNextCell (grid : Grid) (size : Nat) : Nat → Nat → Nat → Option (Nat × Nat)
  | 0, _, _ => none
  | fuel + 1, row, col =>
    if row < size ∧ (cellAtD grid row col).value ≠ 0 then
      (if col + 1 ≥ size then findNextCell grid size fuel (row + 1) 0
       else findNextCell grid size fuel row (col + 1))
    else if row ≥ size then none
    else some (row, col)

/-- The shuffled-numbers loop of `fillGridWithBacktracking`, parametric
in the recursive call.  A callback returning `false` exits the current
invocation with failure (`return false` in the source). -/
def fillTryNumbers (fill : Grid → Nat → Nat → Nat → Except String (Option Grid × Nat))
    (config : SudokuConfig) (solveCallback : Option (Grid → Option Bool))
    (grid : Grid) (row col : Nat) :
    List Nat → Nat → Except String (Option Grid × Nat)
  | [], k => .ok (none, k)
  | num :: rest, k =>
    let tempGrid := setCellValue grid row col num
    match validateAllRegions tempGrid config.regions with
    | .error e => .error e
    | .ok validation =>
      if validation.isValid then
        let aborted :=
          match solveCallback with
          | some cb => cb tempGrid == some false
          | none => false
        if aborted then .ok (none, k)
        else
          let size := grid.length
          let nextCol := (col + 1) % size
          let nextRow := if col + 1 ≥ size then row + 1 else row
          match fill tempGrid nextRow nextCol k with
          | .error e => .error e
          | .ok (some done, k') => .ok (some done, k')
          | .ok (none, k') =>
            fillTryNumbers fill config solveCallback grid row col rest k'
      else fillTryNumbers fill config solveCallback grid row col rest k

/-- `fillGridWithBacktracking(grid, startRow, startCol, config,
solveCallback)`: randomized row-major backtracking fill.  Functionally it
returns the completed grid (the source copies `tempGrid` back into the
caller's array on success) or `none` on failure, plus the next
`Math.random()` index.  `fuel` models the unbounded recursion: each level
fills one empty cell. -/
def fillGridWithBacktracking (config : SudokuConfig)
    (solveCallback : Option (Grid → Option Bool)) (rng : Nat → Nat) :
    Nat → Grid → Nat → Nat → Nat → Except String (Option Grid × Nat)
  | 0, _, _, _, k => .ok (none, k)
  | fuel + 1, grid, startRow, startCol, k =>
    let size := grid.length
    match findNextCell grid size (size * size + size + 1) startRow startCol with
    | none => .ok (some grid, k)
    | some (row, col) =>
      let (numbers, k1) := shuffleArray rng k (List.range' 1 size)
      fillTryNumbers (fun g r c k' => fillGridWithBacktracking config solveCallback rng fuel g r c k')
        config solveCallback grid row col numbers k1

/-- `generateFilledGrid(config, solveCallback)`. -/
def generateFilledGrid (config : SudokuConfig)
    (solveCallback : Option (Grid → Option Bool)) (rng : Nat → Nat) (k : Nat) :
    Except String (Option Grid × Nat) :=
  fillGridWithBacktracking config solveCallback rng (config.size * config.size + 1)
    (createEmptyGrid config.size) 0 0 k

/-- Direct cell-value mutation `testGrid[r][c].value = v` (used by
`hasUniqueSolution` on a fresh clone; unlike `setCellValue` it bypasses
the puzzle-cell guard and keeps all other fields). -/
def setCellValueRaw (grid : Grid) (row col : Nat) (value : Nat) : Grid :=
  grid.mapIdx fun r rowcells =>
    rowcells.mapIdx fun c cell =>
      if r = row ∧ c = col then { cell with value := value } else cell

/-- The dig's cell clearing `tempGrid[r][c].value = 0; tempGrid[r][c].isPuzzle
= false`. -/
def clearCell (grid : Grid) (row col : Nat) : Grid :=
  grid.mapIdx fun r rowcells =>
    rowcells.mapIdx fun c cell =>
      if r = row ∧ c = col then { cell with value := 0, isPuzzle := false } else cell

/-- The alternative-value loop of `hasUniqueSolution` at the first empty
cell. -/
def uniqueCheckLoop (grid : Grid) (config : SudokuConfig) (correctValue : Nat)
    (r c : Nat) : List Nat → Except String Bool
  | [] => .ok true
  | v :: rest =>
    if v ≠ correctValue then
      match validateAllRegions (setCellValueRaw grid r c v) config.regions with
      | .error e => .error e
      | .ok validation =>
        if validation.isValid then .ok false
        else uniqueCheckLoop grid config correctValue r c rest
    else uniqueCheckLoop grid config correctValue r c rest

/-- `hasUniqueSolution(grid, solution, config, stats)`: the simplified
placeholder check of the source (see its TODO comments): it scans for the
*first* empty cell only, and reports "unique" unless some value other
than the known solution's value passes the plain region validation there.
The `stats.refillAttempts++` is applied by the caller in this model.
(The source's separate has-empty-cell scan and find-first-empty loops
collapse to one first-empty lookup.) -/
def hasUniqueSolution (grid solution : Grid) (config : SudokuConfig) :
    Except String Bool :=
  match (emptyCellCoords 0 grid).head? with
  | none => .ok true
  | some (r, c) =>
    match cellAt solution r c with
    | .error e => .error e
    | .ok correctCell =>
      uniqueCheckLoop grid config correctCell.value r c (List.range' 1 grid.length)

/-- `DigOptions`. -/
structure DigOptions where
  difficulty : String
  uniqueSolution : Bool
  minGivens : Nat
  maxGivens : Nat
  symmetrical : Bool
  symmetryType : String
  timeoutTimestamp : Int
  onProgress : Option (GenEvent → Option Bool)

/-- The difficulty switch of `digHoles`: target givens as a fraction of
all cells (`Math.floor` of `0.45 / 0.35 / 0.3 / 0.25` times the cell
count; since the products stay far below 2⁵³, IEEE doubles compute the
same floors as exact rational arithmetic, which is how the fractions are
modelled). -/
def digTargetGivens (difficulty : String) (totalCells : Nat) : Nat :=
  if difficulty = "easy" then totalCells * 45 / 100
  else if difficulty = "medium" then totalCells * 35 / 100
  else if difficulty = "hard" then totalCells * 30 / 100
  else if difficulty = "expert" then totalCells * 25 / 100
  else totalCells * 35 / 100

/-- All cell positions in row-major order (the `positions` array of
`digHoles`). -/
def allPositions (size : Nat) : List (Nat × Nat) :=
  (List.range size).flatMap fun row => (List.range size).map fun col => (row, col)

/-- The main dig loop of `digHoles` over the shuffled positions. -/
def digPositionsLoop (solution : Grid) (config : SudokuConfig) (options : DigOptions)
    (clock : Nat → Int) (targetGivens size : Nat) :
    List (Nat × Nat) → Grid → List (Nat × Nat) → GenState →
    Except String (Grid × GenState)
  | [], workingGrid, _, st => .ok (workingGrid, st)
  | (row, col) :: rest, workingGrid, cannotRemove, st =>
    let now := clock st.clockIndex
    let st0 := { st with clockIndex := st.clockIndex + 1 }
    if now > options.timeoutTimestamp then .ok (workingGrid, st0)
    else if (cellAtD workingGrid row col).value = 0 then
      digPositionsLoop solution config options clock targetGivens size rest
        workingGrid cannotRemove st0
    else if (row, col) ∈ cannotRemove then
      digPositionsLoop solution config options clock targetGivens size rest
        workingGrid cannotRemove st0
    else
      let st1 := { st0 with stats :=
        { st0.stats with digAttempts := st0.stats.digAttempts + 1 } }
      if countGivens workingGrid ≤ targetGivens then .ok (workingGrid, st1)
      else
        let tempGrid1 := clearCell workingGrid row col
        let tempGrid :=
          if options.symmetrical then
            let sym := getSymmetricPosition row col size options.symmetryType
            if sym.1 < size ∧ sym.2 < size ∧ ¬(sym.1 = row ∧ sym.2 = col) ∧
                (cellAtD tempGrid1 sym.1 sym.2).value ≠ 0
            then clearCell tempGrid1 sym.1 sym.2
            else tempGrid1
          else tempGrid1
        match (if options.uniqueSolution then
            match hasUniqueSolution tempGrid solution config with
            | .error e => .error e
            | .ok b => .ok (b, { st1 with stats :=
                { st1.stats with refillAttempts := st1.stats.refillAttempts + 1 } })
          else .ok (true, st1) : Except String (Bool × GenState)) with
        | .error e => .error e
        | .ok (canRemove, st2) =>
          if canRemove then
            let abort :=
              match options.onProgress with
              | some cb => cb (.puzzle tempGrid) == some false
              | none => false
            if abort then .ok (tempGrid, st2)
            else
              digPositionsLoop solution config options clock targetGivens size rest
                tempGrid cannotRemove st2
          else
            let cannot1 := (row, col) :: cannotRemove
            let cannot2 :=
              if options.symmetrical
              then getSymmetricPosition row col size options.symmetryType :: cannot1
              else cannot1
            digPositionsLoop solution config options clock targetGivens size rest
              workingGrid cannot2 st2

/-- `digHoles(grid, solution, config, options, stats)`: shuffles the
positions, computes the clamped difficulty target, and runs the dig loop
on a working clone.  (The source's `Grid | null` return is never `null`:
every exit path returns `workingGrid`.) -/
def digHoles (grid solution : Grid) (config : SudokuConfig) (options : DigOptions)
    (clock : Nat → Int) (rng : Nat → Nat) (st : GenState) :
    Except String (Grid × GenState) :=
  let size := grid.length
  let totalCells := size * size
  let (shuffledPositions, k1) := shuffleArray rng st.rngIndex (allPositions size)
  let targetGivens :=
    max options.minGivens (min (digTargetGivens options.difficulty totalCells) options.maxGivens)
  digPositionsLoop solution config options clock targetGivens size shuffledPositions
    (cloneGrid grid) [] { st with rngIndex := k1 }

/-- The `isPuzzle = true` marking of all filled cells of the fresh
puzzle grid. -/
def markAllPuzzle (grid : Grid) : Grid :=
  grid.map fun row => row.map fun cell =>
    if cell.value ≠ 0 then { cell with isPuzzle := true } else cell

/-- The full-grid attempt loop of `generateSudoku` (up to 10 attempts,
with a `Date.now()` deadline check per attempt).  The third component is
`result.finishReason` as assigned so far — note that the `"timeout"`
assigned on deadline is later overwritten (see `generateSudokuBody`). -/
def genAttemptLoop (config : SudokuConfig) (options : GeneratorOptions)
    (clock : Nat → Int) (rng : Nat → Nat) (timeoutTimestamp : Int) :
    Nat → GenState → String → Except String (Option Grid × GenState × String)
  | 0, st, fr => .ok (none, st, fr)
  | tries + 1, st, fr =>
    let st1 := { st with stats := { st.stats with attempts := st.stats.attempts + 1 } }
    let now := clock st1.clockIndex
    let st2 := { st1 with clockIndex := st1.clockIndex + 1 }
    if now > timeoutTimestamp then .ok (none, st2, "timeout")
    else
      match generateFilledGrid config
          (some fun g =>
            match options.onProgress with
            | some f => f (.grid g)
            | none => none) rng st2.rngIndex with
      | .error e => .error e
      | .ok (some g, k') => .ok (some g, { st2 with rngIndex := k' }, fr)
      | .ok (none, k') =>
        genAttemptLoop config options clock rng timeoutTimestamp tries
          { st2 with rngIndex := k' } fr

/-- The `try` block of `generateSudoku`.  When the attempt loop ends with
no filled grid, `result.finishReason` is unconditionally reassigned by
`filledGrid === null ? "error" : "interrupted"` — and `filledGrid` *is*
`null` there, so even a deadline exit reports `"error"`, overwriting the
`"timeout"` assigned inside the loop. -/
def generateSudokuBody (config : SudokuConfig) (options : GeneratorOptions)
    (clock : Nat → Int) (rng : Nat → Nat) (minGivens maxGivens : Nat)
    (timeoutTimestamp : Int) : Except String (GeneratorResult × GenState) :=
  match genAttemptLoop config options clock rng timeoutTimestamp 10
      { clockIndex := 1 } "error" with
  | .error e => .error e
  | .ok (none, st, _timeoutWasSet) =>
    .ok ({ success := false, puzzle := none, solution := none,
           finishReason := "error" }, st)
  | .ok (some filledGrid, st, _) =>
    let st1 := { st with stats :=
      { st.stats with fullGridsGenerated := st.stats.fullGridsGenerated + 1 } }
    let solution := cloneGrid filledGrid
    let puzzleGrid := markAllPuzzle (cloneGrid solution)
    match digHoles puzzleGrid solution config
        { difficulty := options.difficulty
          uniqueSolution := options.uniqueSolution
          minGivens := minGivens
          maxGivens := maxGivens
          symmetrical := options.symmetrical
          symmetryType := options.symmetryType
          timeoutTimestamp := timeoutTimestamp
          onProgress := options.onProgress } clock rng st1 with
    | .error e => .error e
    | .ok (modifiedPuzzle, st2) =>
      .ok ({ success := true, puzzle := some modifiedPuzzle, solution := some solution,
             finishReason := "success", givensCount := some (countGivens modifiedPuzzle),
             difficulty := some options.difficulty }, st2)

/-- `generateSudoku(config, options)`: total from the caller's
perspective — the `try`/`catch` converts any exception into a
`finishReason = "error"` result with a message, and the `finally` block
stamps `stats.timeMs`.  (Fields of the shared `result` object assigned
before an exception are not reconstructed in the error case; no claim
depends on them.) -/
def generateSudoku (config : SudokuConfig) (options : GeneratorOptions)
    (clock : Nat → Int) (rng : Nat → Nat) : GeneratorResult :=
  let startTime := clock 0
  let minGivens := options.minGivens.getD (config.size * config.size * 25 / 100)
  let maxGivens := options.maxGivens.getD (config.size * config.size * 50 / 100)
  let timeoutTimestamp := startTime + options.timeoutMs
  match generateSudokuBody config options clock rng minGivens maxGivens timeoutTimestamp with
  | .ok (r, st) =>
    { r with stats := { st.stats with timeMs := clock st.clockIndex - startTime } }
  | .error e =>
    { success := false, puzzle := none, solution := none
      stats := {}
      finishReason := "error", errorMessage := some e }

/-! ### Concrete configurations used by the generator theorems -/

/-- The standard 4×4 configuration: 4 rows, 4 columns, 4 2×2 blocks. -/
def std4Config : SudokuConfig :=
  { size := 4
    regions :=
      [⟨"row-0", "row", [(0,0),(0,1),(0,2),(0,3)], none⟩,
       ⟨"row-1", "row", [(1,0),(1,1),(1,2),(1,3)], none⟩,
       ⟨"row-2", "row", [(2,0),(2,1),(2,2),(2,3)], none⟩,
       ⟨"row-3", "row", [(3,0),(3,1),(3,2),(3,3)], none⟩,
       ⟨"column-0", "column", [(0,0),(1,0),(2,0),(3,0)], none⟩,
       ⟨"column-1", "column", [(0,1),(1,1),(2,1),(3,1)], none⟩,
       ⟨"column-2", "column", [(0,2),(1,2),(2,2),(3,2)], none⟩,
       ⟨"column-3", "column", [(0,3),(1,3),(2,3),(3,3)], none⟩,
       ⟨"block-0", "block", [(0,0),(0,1),(1,0),(1,1)], none⟩,
       ⟨"block-1", "block", [(0,2),(0,3),(1,2),(1,3)], none⟩,
       ⟨"block-2", "block", [(2,0),(2,1),(3,0),(3,1)], none⟩,
       ⟨"block-3", "block", [(2,2),(2,3),(3,2),(3,3)], none⟩] }

/-- The standard 2×2 (Latin-square) configuration: 2 rows, 2 columns. -/
def std2Config : SudokuConfig :=
  { size := 2
    regions :=
      [⟨"row-0", "row", [(0,0),(0,1)], none⟩,
       ⟨"row-1", "row", [(1,0),(1,1)], none⟩,
       ⟨"column-0", "column", [(0,0),(1,0)], none⟩,
       ⟨"column-1", "column", [(0,1),(1,1)], none⟩] }

/-- A constant `Date.now()` oracle (no deadline is ever exceeded). -/
def clock0 : Nat → Int := fun _ => 0

/-- A constant `Math.random()` oracle. -/
def rng0 : Nat → Nat := fun _ => 0

/-- A `Math.random()` oracle under which the 4×4 generator's 16 fill
shuffles (3 draws each, indices 0–47) and the dig-position shuffle
(15 draws, indices 48–62) are fully determined. -/
def rngC1 : Nat → Nat := fun n => if n < 48 then 3 - n % 3 else 63 - n

/-! ### C1: the uniqueness guarantee of the generator -/

set_option maxRecDepth 10000 in
/-- **C1** (refuted — code bug): with default options (`uniqueSolution =
true`) the 4×4 generator run below reports `success` with
`finishReason = "success"`, yet re-solving the returned puzzle with
`findAllSolutions` capped at 2 finds **2** solutions — and
`hasUniqueSolution` still reports `true` for that very puzzle/solution
pair, because it only tests alternative values at the *first* empty cell
instead of invoking the solver (or an equivalent bounded search) capped
at 2. -/
theorem generator_uniqueness_violated :
    ({} : GeneratorOptions).uniqueSolution = true ∧
    (generateSudoku std4Config {} clock0 rngC1).success = true ∧
    (generateSudoku std4Config {} clock0 rngC1).finishReason = "success" ∧
    ((generateSudoku std4Config {} clock0 rngC1).puzzle.map fun p =>
      (solveSudoku clock0 p std4Config
        { findAllSolutions := true, maxSolutions := 2 }).solutions.length) = some 2 ∧
    ((generateSudoku std4Config {} clock0 rngC1).puzzle.bind fun p =>
      (generateSudoku std4Config {} clock0 rngC1).solution.map fun s =>
        hasUniqueSolution p s std4Config) = some (Except.ok true) := by
  refine ⟨rfl, by decide, by decide, by decide, by rfl⟩

/-! ### C5: timeout reporting of the generator -/

/-- A clock that is past every deadline from the first check on: the
full-grid phase observes `Date.now() > timeoutTimestamp` at its first
attempt. -/
def clockLateAfterStart : Nat → Int := fun n => if n = 0 then 0 else 1000000000

/-- A clock that first exceeds the deadline during the digging phase
(index 0 is `startTime`, index 1 the full-grid attempt check, index 2 the
first dig-loop check). -/
def clockLateAfterFill : Nat → Int := fun n => if n ≤ 1 then 0 else 1000000000

set_option maxRecDepth 10000 in
/-- **C5** (refuted — code bug): a generator run whose full-grid phase
runs past `timeoutTimestamp` returns `finishReason = "error"` (the
`"timeout"` assigned inside the attempt loop is unconditionally
overwritten by the `filledGrid === null ? "error" : "interrupted"`
reassignment), and a run whose digging loop runs past the deadline
returns `finishReason = "success"` (the dig loop silently stops digging,
here leaving all 4 cells as givens) — neither reports `"timeout"` as
claimed. -/
theorem generator_timeout_misreported :
    (generateSudoku std2Config {} clockLateAfterStart rng0).finishReason = "error" ∧
    (generateSudoku std2Config {} clockLateAfterStart rng0).success = false ∧
    (generateSudoku std2Config {} clockLateAfterFill rng0).finishReason = "success" ∧
    (generateSudoku std2Config {} clockLateAfterFill rng0).givensCount = some 4 := by
  refine ⟨by decide, by decide, by decide, by decide⟩

/-! ### C4: the solve/generate error boundary -/

/-- **C4**: `solveSudoku` and `generateSudoku` are total from the
caller's perspective (in this development they are functions into plain
result records, with any exception of the embedded `try` block surfacing
as an `Except.error` of the body): whenever the body of either entry
point throws, the caller still receives a result value, with
`finishReason = "error"` and the exception's message attached. -/
theorem solver_generator_error_boundary :
    (∀ (clock : Nat → Int) (grid : Grid) (config : SudokuConfig)
        (options : SolverOptions) (e : String),
      solveSudokuBody clock grid config options
          (if options.timeoutMs ≠ 0 then some (clock 0 + options.timeoutMs) else none) =
        .error e →
      (solveSudoku clock grid config options).finishReason = "error" ∧
      (solveSudoku clock grid config options).failReason = some e) ∧
    (∀ (config : SudokuConfig) (options : GeneratorOptions)
        (clock : Nat → Int) (rng : Nat → Nat) (e : String),
      generateSudokuBody config options clock rng
          (options.minGivens.getD (config.size * config.size * 25 / 100))
          (options.maxGivens.getD (config.size * config.size * 50 / 100))
          (clock 0 + options.timeoutMs) = .error e →
      (generateSudoku config options clock rng).finishReason = "error" ∧
      (generateSudoku config options clock rng).errorMessage = some e) := by
  constructor
  · intro clock grid config options e h
    unfold solveSudoku
    dsimp only
    rw [h]
    exact ⟨rfl, rfl⟩
  · intro config options clock rng e h
    unfold generateSudoku
    dsimp only
    rw [h]
    exact ⟨rfl, rfl⟩

/-- A configuration whose single region names the out-of-range cell
`(5,5)` of a 2×2 grid: every validation pass throws a `TypeError`. -/
def oobConfig : SudokuConfig :=
  { size := 2, regions := [⟨"row-0", "row", [(5,5)], none⟩] }

/-- Witness for C4: on `oobConfig` both bodies throw the `TypeError`, and
both entry points convert it into a `finishReason = "error"` result
carrying the message. -/
theorem solver_generator_error_boundary_witness :
    (solveSudoku clock0 (createEmptyGrid 2) oobConfig {}).finishReason = "error" ∧
    (solveSudoku clock0 (createEmptyGrid 2) oobConfig {}).failReason =
      some "TypeError: cannot read properties of undefined" ∧
    (generateSudoku oobConfig {} clock0 rng0).finishReason = "error" ∧
    (generateSudoku oobConfig {} clock0 rng0).errorMessage =
      some "TypeError: cannot read properties of undefined" := by
  have h1 := solver_generator_error_boundary.1 clock0 (createEmptyGrid 2) oobConfig {}
    "TypeError: cannot read properties of undefined" (by rfl)
  have h2 := solver_generator_error_boundary.2 oobConfig {} clock0 rng0
    "TypeError: cannot read properties of undefined" (by rfl)
  exact ⟨h1.1, h1.2, h2.1, h2.2⟩

/-! ### Basic C9 theorems: out-of-range guards of the bitmask primitives -/

/-- **C9**: every bitmask primitive except `createFullBitmask` silently
guards out-of-range values: for `v ≤ 0` or `v > 31`, `valueToBitmask`
returns `0`, `hasBit` returns `false`, `addBit` and `removeBit` return the
mask unchanged — for every mask; and `createFullBitmask` throws exactly
when `size ≤ 0` or `size > 31`. -/
theorem bitmask_out_of_range_guards :
    (∀ mask v : Int, v ≤ 0 ∨ 31 < v →
      valueToBitmask v = 0 ∧ hasBit mask v = false ∧
      addBit mask v = mask ∧ removeBit mask v = mask) ∧
    (∀ size : Int, (∃ e, createFullBitmask size = .error e) ↔ (size ≤ 0 ∨ 31 < size)) := by
  constructor
  · intro mask v h
    refine ⟨?_, ?_, ?_, ?_⟩ <;> simp [valueToBitmask, hasBit, addBit, removeBit, h]
  · intro size
    constructor
    · intro ⟨e, he⟩
      by_contra hcon
      simp [createFullBitmask, hcon] at he
    · intro h
      exact ⟨"unsupported grid size", by simp [createFullBitmask, h]⟩

/-- Witness for C9 at concrete inputs (`v = 32`, `v = 0`, `size = 32`, `size = 9`). -/
theorem bitmask_out_of_range_guards_witness :
    (valueToBitmask 32 = 0 ∧ hasBit 7 32 = false ∧ addBit 7 32 = 7 ∧ removeBit 7 32 = 7) ∧
    (∃ e, createFullBitmask 32 = .error e) ∧ ¬ (∃ e, createFullBitmask 9 = .error e) := by
  refine ⟨bitmask_out_of_range_guards.1 7 32 (by norm_num), ?_, ?_⟩
  · exact (bitmask_out_of_range_guards.2 32).2 (by norm_num)
  · intro h
    have := (bitmask_out_of_range_guards.2 9).1 h
    norm_num at this

/-! ### Pointwise description of the single-cell grid mutations -/

/-- The common single-cell update pattern of `setCellValue`, `clearCell`
and the raw `grid[r][c] = …` mutations: replace the cell at
`(row, col)`, keep every other cell. -/
def updateCell (grid : Grid) (row col : Nat) (f : CellState → CellState) : Grid :=
  grid.mapIdx fun ri rcs => rcs.mapIdx fun ci cell =>
    if ri = row ∧ ci = col then f cell else cell

theorem clearCell_eq_updateCell (grid : Grid) (row col : Nat) :
    clearCell grid row col =
      updateCell grid row col (fun c => { c with value := 0, isPuzzle := false }) := rfl

theorem setCellValueRaw_eq_updateCell (grid : Grid) (row col value : Nat) :
    setCellValueRaw grid row col value =
      updateCell grid row col (fun c => { c with value := value }) := rfl

theorem setCellValue_eq_updateCell (grid : Grid) (row col value : Nat) (ep : Bool)
    (h1 : isValidPosition grid row col = true)
    (h2 : ((cellAtD grid row col).isPuzzle && !ep) = false) :
    setCellValue grid row col value ep =
      updateCell grid row col (fun c => setCellFields c value ep) := by
  unfold setCellValue updateCell
  rw [h1, h2]
  simp

/-- `mapIdx` with a pointwise-identity function is the identity. -/
theorem mapIdx_eq_self {α : Type} (f : Nat → α → α) :
    ∀ l : List α, (∀ i a, f i a = a) → l.mapIdx f = l
  | [], _ => by simp
  | a :: t, h => by
    rw [List.mapIdx_cons, h 0 a,
      mapIdx_eq_self (fun i => f (i + 1)) t fun i a => h (i + 1) a]

theorem length_updateCell (grid : Grid) (row col : Nat) (f : CellState → CellState) :
    (updateCell grid row col f).length = grid.length := by
  simp [updateCell]

theorem getElem?_updateCell_ne (grid : Grid) (row col : Nat) (f : CellState → CellState)
    {i : Nat} (hi : i ≠ row) :
    (updateCell grid row col f)[i]? = grid[i]? := by
  unfold updateCell
  rw [List.getElem?_mapIdx]
  cases h : grid[i]? with
  | none => rfl
  | some rcs =>
    simp only [Option.map_some']
    rw [mapIdx_eq_self]
    intro ci cell
    exact if_neg fun hh => hi hh.1

theorem getElem?_updateCell_self (grid : Grid) (row col : Nat) (f : CellState → CellState) :
    (updateCell grid row col f)[row]? =
      (grid[row]?).map fun rcs =>
        rcs.mapIdx fun ci cell => if ci = col then f cell else cell := by
  unfold updateCell
  rw [List.getElem?_mapIdx]
  cases h : grid[row]? with
  | none => rfl
  | some rcs =>
    simp only [Option.map_some', Option.some.injEq]
    congr 1
    funext ci cell
    by_cases hc : ci = col
    · simp [hc]
    · simp [hc]

/-- `cellAtD` through the `getElem?` operations. -/
theorem cellAtD_eq (grid : Grid) (r c : Nat) :
    cellAtD grid r c = ((grid[r]?.getD [])[c]?).getD createEmptyCell := by
  unfold cellAtD
  rw [List.getD_eq_getElem?_getD (l := grid), List.getD_eq_getElem?_getD]

theorem getD_getD_length (grid : Grid) (r : Nat) :
    grid.getD r [] = grid[r]?.getD [] := List.getD_eq_getElem?_getD grid r []

/-- Master pointwise description of `updateCell`. -/
theorem cellAtD_updateCell (grid : Grid) (row col : Nat) (f : CellState → CellState)
    (r c : Nat) :
    cellAtD (updateCell grid row col f) r c =
      if r = row ∧ c = col ∧ row < grid.length ∧ col < (grid.getD row []).length
      then f (cellAtD grid r c) else cellAtD grid r c := by
  by_cases hr : r = row
  · subst hr
    rw [cellAtD_eq, cellAtD_eq, getElem?_updateCell_self, getD_getD_length]
    cases hrow : grid[r]? with
    | none =>
      have : ¬ r < grid.length := by
        intro hlt
        rw [List.getElem?_eq_getElem hlt] at hrow
        exact Option.noConfusion hrow
      simp [this]
    | some rcs =>
      have hlt : r < grid.length := by
        by_contra hlt
        rw [List.getElem?_eq_none (by omega)] at hrow
        exact Option.noConfusion hrow
      simp only [Option.map_some', Option.getD_some]
      rw [List.getElem?_mapIdx]
      by_cases hc : c = col
      · subst hc
        cases hcell : rcs[c]? with
        | none =>
          have : ¬ c < rcs.length := by
            intro h2
            rw [List.getElem?_eq_getElem h2] at hcell
            exact Option.noConfusion hcell
          simp [this, hlt]
        | some cell =>
          have hclt : c < rcs.length := by
            by_contra h2
            rw [List.getElem?_eq_none (by omega)] at hcell
            exact Option.noConfusion hcell
          simp [hlt, hclt]
      · cases hcell : rcs[c]? with
        | none => simp [hc]
        | some cell => simp [hc]
  · rw [cellAtD_eq, cellAtD_eq, getElem?_updateCell_ne grid row col f hr]
    have : ¬ (r = row ∧ c = col ∧ row < grid.length ∧ col < (grid.getD row []).length) :=
      fun hh => hr hh.1
    rw [if_neg this]

theorem cellAtD_updateCell_ne (grid : Grid) (row col : Nat) (f : CellState → CellState)
    {r c : Nat} (h : ¬ (r = row ∧ c = col)) :
    cellAtD (updateCell grid row col f) r c = cellAtD grid r c := by
  rw [cellAtD_updateCell]
  exact if_neg fun hh => h ⟨hh.1, hh.2.1⟩

/-- Pointwise description of `markAllPuzzle` (unconditional: the default
cell is empty and is left unchanged by the marking). -/
theorem cellAtD_markAllPuzzle (grid : Grid) (r c : Nat) :
    cellAtD (markAllPuzzle grid) r c =
      (if (cellAtD grid r c).value ≠ 0
       then { cellAtD grid r c with isPuzzle := true } else cellAtD grid r c) := by
  rw [cellAtD_eq, cellAtD_eq]
  unfold markAllPuzzle
  rw [List.getElem?_map]
  cases hrow : grid[r]? with
  | none => simp [createEmptyCell]
  | some rcs =>
    simp only [Option.map_some', Option.getD_some]
    rw [List.getElem?_map]
    cases hcell : rcs[c]? with
    | none => simp [createEmptyCell]
    | some cell => simp

theorem cellAtD_createEmptyGrid (size r c : Nat) :
    cellAtD (createEmptyGrid size) r c = createEmptyCell := by
  rw [cellAtD_eq]
  unfold createEmptyGrid
  rw [List.getElem?_replicate]
  by_cases hr : r < size
  · simp only [hr, if_true, Option.getD_some]
    rw [List.getElem?_replicate]
    by_cases hc : c < size <;> simp [hc]
  · simp [hr]

/-! ### Counting givens -/

/-- Weight of a cell in the givens count. -/
def cellWeight (cell : CellState) : Nat := if cell.value != 0 then 1 else 0

/-- Givens in one row. -/
def rowGivens (rcs : List CellState) : Nat := (rcs.map cellWeight).sum

theorem cellWeight_le_one (cell : CellState) : cellWeight cell ≤ 1 := by
  unfold cellWeight
  split <;> omega

theorem foldl_count_eq (rcs : List CellState) :
    ∀ acc : Nat,
      rcs.foldl (fun acc2 cell => if cell.value ≠ 0 then acc2 + 1 else acc2) acc =
        acc + rowGivens rcs := by
  induction rcs with
  | nil => intro acc; simp [rowGivens]
  | cons a t ih =>
    intro acc
    rw [List.foldl_cons, ih]
    have hcons : rowGivens (a :: t) = cellWeight a + rowGivens t := by
      simp [rowGivens]
    rw [hcons]
    unfold cellWeight
    by_cases h : a.value = 0
    · rw [if_neg (fun hh => hh h), if_neg (by simp [h])]
      omega
    · rw [if_pos h, if_pos (by simpa using h)]
      omega

theorem countGivens_eq (grid : Grid) : countGivens grid = (grid.map rowGivens).sum := by
  unfold countGivens
  suffices h : ∀ acc : Nat,
      grid.foldl (fun acc row =>
        row.foldl (fun acc2 cell => if cell.value ≠ 0 then acc2 + 1 else acc2) acc) acc =
        acc + (grid.map rowGivens).sum by
    simpa using h 0
  induction grid with
  | nil => intro acc; simp
  | cons a t ih =>
    intro acc
    rw [List.foldl_cons, ih, foldl_count_eq]
    simp only [List.map_cons, List.sum_cons]
    omega

/-- Changing a list at a single index changes the weighted sum by at most
the hypothesised amount at that index. -/
theorem sum_map_le_of_single_change {α : Type} (w : α → Nat) :
    ∀ (l l' : List α) (k : Nat),
      l.length = l'.length →
      (∀ i, i ≠ k → l[i]? = l'[i]?) →
      (∀ x y, l[k]? = some x → l'[k]? = some y → w x ≤ w y + 1) →
      (l.map w).sum ≤ (l'.map w).sum + 1
  | [], l', _, hlen, _, _ => by simp
  | a :: t, [], _, hlen, _, _ => by simp at hlen
  | a :: t, a' :: t', 0, hlen, hne, hk => by
    have ht : t = t' := by
      refine List.ext_getElem?_iff.mpr fun i => ?_
      have := hne (i + 1) (by omega)
      simpa using this
    have ha := hk a a' (by simp) (by simp)
    subst ht
    simp only [List.map_cons, List.sum_cons]
    omega
  | a :: t, a' :: t', k + 1, hlen, hne, hk => by
    have ha : a = a' := by
      have := hne 0 (by omega)
      simpa using this
    subst ha
    have hrec := sum_map_le_of_single_change w t t' k (by simpa using hlen)
      (fun i hi => by simpa using hne (i + 1) (by omega))
      (fun x y hx hy => hk x y (by simpa using hx) (by simpa using hy))
    simp only [List.map_cons, List.sum_cons]
    omega

/-- A single-cell update lowers the givens count by at most one. -/
theorem countGivens_le_updateCell (grid : Grid) (row col : Nat)
    (f : CellState → CellState) :
    countGivens grid ≤ countGivens (updateCell grid row col f) + 1 := by
  rw [countGivens_eq, countGivens_eq]
  refine sum_map_le_of_single_change rowGivens grid (updateCell grid row col f) row
    (length_updateCell grid row col f).symm
    (fun i hi => (getElem?_updateCell_ne grid row col f hi).symm) ?_
  intro x y hx hy
  rw [getElem?_updateCell_self, hx, Option.map_some', Option.some.injEq] at hy
  subst hy
  unfold rowGivens
  refine sum_map_le_of_single_change cellWeight x _ col (by simp)
    (fun i hi => ?_) (fun u v hu hv => ?_)
  · rw [List.getElem?_mapIdx]
    cases h : x[i]? with
    | none => rfl
    | some cell => simp [hi]
  · have := cellWeight_le_one u
    omega

/-! ### C6: given cells are never altered -/

/-- Agreement with `base` on all of `base`'s puzzle cells. -/
def AgreesOnGivens (base g : Grid) : Prop :=
  ∀ r c : Nat, (cellAtD base r c).isPuzzle = true → cellAtD g r c = cellAtD base r c

theorem agreesOnGivens_refl (g : Grid) : AgreesOnGivens g g := fun _ _ _ => rfl

theorem setCellValue_puzzle_unchanged (grid : Grid) (row col value : Nat)
    (h : (cellAtD grid row col).isPuzzle = true) :
    setCellValue grid row col value false = grid := by
  unfold setCellValue
  by_cases hv : isValidPosition grid row col = true
  · rw [if_neg (by simp [hv]), if_pos (by simp [h])]
  · rw [if_pos (by simpa using hv)]

theorem agreesOnGivens_setCellValue {base g : Grid} (row col value : Nat)
    (h : AgreesOnGivens base g) :
    AgreesOnGivens base (setCellValue g row col value false) := by
  intro r c hrc
  by_cases hpz : (cellAtD g row col).isPuzzle = true
  · rw [setCellValue_puzzle_unchanged g row col value hpz]
    exact h r c hrc
  · unfold setCellValue
    by_cases hv : isValidPosition g row col = true
    · rw [if_neg (by simp [hv]), if_neg (by simp [Bool.not_eq_true] at hpz ⊢; exact hpz)]
      rw [show (g.mapIdx fun rIndex rr => rr.mapIdx fun cIndex cc =>
            if rIndex = row ∧ cIndex = col then setCellFields cc value false else cc) =
          updateCell g row col (fun cc => setCellFields cc value false) from rfl,
        cellAtD_updateCell]
      by_cases hm : r = row ∧ c = col ∧ row < g.length ∧ col < (g.getD row []).length
      · exfalso
        obtain ⟨h1, h2, _⟩ := hm
        subst h1
        subst h2
        exact hpz (by rw [h r c hrc]; exact hrc)
      · rw [if_neg hm]
        exact h r c hrc
    · rw [if_pos (by simpa using hv)]
      exact h r c hrc

theorem solverPrologue_solutions (clock : Nat → Int) (ctx : BacktrackingContext)
    (st : SolveState) :
    (solverPrologue clock ctx st).2.solutions = st.solutions ∧
    (solverPrologue clock ctx st).2.interrupted = st.interrupted := by
  unfold solverPrologue
  cases ctx.timeoutTimestamp with
  | none => exact ⟨rfl, rfl⟩
  | some tt =>
    dsimp only
    split <;> exact ⟨rfl, rfl⟩

theorem recordSolutionMRV_solutions (ctx : BacktrackingContext) (grid : Grid)
    (st : SolveState) :
    (recordSolutionMRV ctx grid st).2.solutions = st.solutions ++ [cloneGrid grid] := by
  unfold recordSolutionMRV
  dsimp only
  split
  · rfl
  · split <;> rfl

theorem recordSolutionSimple_solutions (ctx : BacktrackingContext) (grid : Grid)
    (st : SolveState) :
    (recordSolutionSimple ctx grid st).2.solutions = st.solutions ++ [cloneGrid grid] := by
  unfold recordSolutionSimple
  dsimp only
  split <;> rfl

theorem tryCandidatesLoop_frame
    (solve : Grid → SolveState → Except String (Bool × SolveState))
    (ctx : BacktrackingContext) (grid : Grid) (row col : Nat) (base : Grid)
    (hsolve : ∀ g st b st', solve g st = .ok (b, st') →
      (∀ s ∈ st.solutions, AgreesOnGivens base s) → AgreesOnGivens base g →
      ∀ s ∈ st'.solutions, AgreesOnGivens base s) :
    ∀ (values : List Nat) (st : SolveState) (r : Option Bool) (st' : SolveState),
      tryCandidatesLoop solve ctx grid row col values st = .ok (r, st') →
      (∀ s ∈ st.solutions, AgreesOnGivens base s) → AgreesOnGivens base grid →
      ∀ s ∈ st'.solutions, AgreesOnGivens base s
  | [], st, r, st', h, hst, hg => by
    unfold tryCandidatesLoop at h
    cases h
    exact hst
  | value :: rest, st, r, st', h, hst, hg => by
    unfold tryCandidatesLoop at h
    dsimp only at h
    split at h
    · cases h
      exact hst
    · cases hsv : solve (setCellValue grid row col value) (bumpAssignments st) with
      | error e => rw [hsv] at h; exact absurd h (by simp)
      | ok p =>
        obtain ⟨solved, st2⟩ := p
        rw [hsv] at h
        dsimp only at h
        have hst2 : ∀ s ∈ st2.solutions, AgreesOnGivens base s :=
          hsolve _ _ _ _ hsv (by simpa [bumpAssignments] using hst)
            (agreesOnGivens_setCellValue row col value hg)
        split at h
        · cases h
          exact hst2
        · split at h
          · cases h
            exact hst2
          · exact tryCandidatesLoop_frame solve ctx grid row col base hsolve
              rest st2 r st' h hst2 hg

theorem solveBT_frame (clock : Nat → Int) (ctx : BacktrackingContext) (base : Grid) :
    ∀ (fuel : Nat) (grid : Grid) (st : SolveState) (b : Bool) (st' : SolveState),
      solveWithBacktracking clock fuel grid ctx st = .ok (b, st') →
      (∀ s ∈ st.solutions, AgreesOnGivens base s) → AgreesOnGivens base grid →
      ∀ s ∈ st'.solutions, AgreesOnGivens base s
  | 0, grid, st, b, st', h, hst, hg => by
    unfold solveWithBacktracking at h
    cases h
    exact hst
  | fuel + 1, grid, st, b, st', h, hst, hg => by
    unfold solveWithBacktracking at h
    dsimp only at h
    cases hsp : solverPrologue clock ctx st with
    | mk timedOut st1 =>
      rw [hsp] at h
      dsimp only at h
      have hps := solverPrologue_solutions clock ctx st
      rw [hsp] at hps
      have hst1sols : ∀ s ∈ st1.solutions, AgreesOnGivens base s := by
        rw [show st1.solutions = st.solutions from hps.1]; exact hst
      by_cases hto : timedOut = true
      · rw [if_pos hto] at h
        have hse : st1 = st' := congrArg Prod.snd (Except.ok.inj h)
        rw [← hse]; exact hst1sols
      · rw [if_neg hto] at h
        by_cases hin : st1.interrupted = true
        · rw [if_pos hin] at h
          have hse : st1 = st' := congrArg Prod.snd (Except.ok.inj h)
          rw [← hse]; exact hst1sols
        · rw [if_neg hin] at h
          cases hsel : selectCellWithMRV grid ctx.config ctx.getCandidatesForCell with
          | error e => rw [hsel] at h; exact absurd h (by simp)
          | ok osel =>
            rw [hsel] at h
            cases osel with
            | none =>
              dsimp only at h
              cases hval : validateAllRegions grid ctx.config.regions with
              | error e => rw [hval] at h; exact absurd h (by simp)
              | ok validation =>
                rw [hval] at h
                dsimp only at h
                by_cases hvb : (!validation.isValid) = true
                · rw [if_pos hvb] at h
                  have hse : bumpBacktracks st1 = st' :=
                    congrArg Prod.snd (Except.ok.inj h)
                  rw [← hse]
                  simpa [bumpBacktracks] using hst1sols
                · rw [if_neg hvb] at h
                  have hse : (recordSolutionMRV ctx grid st1).2 = st' :=
                    congrArg Prod.snd (Except.ok.inj h)
                  intro s hs
                  rw [← hse, recordSolutionMRV_solutions] at hs
                  rcases List.mem_append.mp hs with hs | hs
                  · exact hst1sols s hs
                  · rw [List.mem_singleton.mp hs, cloneGrid_eq]
                    exact hg
            | some nextCell =>
              dsimp only at h
              by_cases hcl : nextCell.candidates.length = 0
              · rw [if_pos hcl] at h
                have hse : bumpBacktracks st1 = st' :=
                  congrArg Prod.snd (Except.ok.inj h)
                rw [← hse]
                simpa [bumpBacktracks] using hst1sols
              · rw [if_neg hcl] at h
                cases hloop : tryCandidatesLoop
                    (fun g s => solveWithBacktracking clock fuel g ctx s)
                    ctx grid nextCell.row nextCell.col nextCell.candidates st1 with
                | error e => rw [hloop] at h; exact absurd h (by simp)
                | ok p =>
                  obtain ⟨ores, st2⟩ := p
                  rw [hloop] at h
                  have hst2 : ∀ s ∈ st2.solutions, AgreesOnGivens base s :=
                    tryCandidatesLoop_frame _ ctx grid nextCell.row nextCell.col base
                      (fun g stx bx stx' hx hstx hgx =>
                        solveBT_frame clock ctx base fuel g stx bx stx' hx hstx hgx)
                      nextCell.candidates st1 ores st2 hloop hst1sols hg
                  cases ores with
                  | some bb =>
                    have hse : st2 = st' := congrArg Prod.snd (Except.ok.inj h)
                    rw [← hse]; exact hst2
                  | none =>
                    have hse : bumpBacktracks st2 = st' :=
                      congrArg Prod.snd (Except.ok.inj h)
                    rw [← hse]
                    simpa [bumpBacktracks] using hst2

theorem simpleTryNums_frame
    (solve : Grid → SolveState → Except String (Bool × SolveState))
    (ctx : BacktrackingContext) (grid : Grid) (row col : Nat) (base : Grid)
    (hsolve : ∀ g st b st', solve g st = .ok (b, st') →
      (∀ s ∈ st.solutions, AgreesOnGivens base s) → AgreesOnGivens base g →
      ∀ s ∈ st'.solutions, AgreesOnGivens base s) :
    ∀ (nums : List Nat) (st : SolveState) (r : Option Bool) (st' : SolveState),
      simpleTryNums solve ctx grid row col nums st = .ok (r, st') →
      (∀ s ∈ st.solutions, AgreesOnGivens base s) → AgreesOnGivens base grid →
      ∀ s ∈ st'.solutions, AgreesOnGivens base s
  | [], st, r, st', h, hst, hg => by
    unfold simpleTryNums at h
    cases h
    exact hst
  | num :: rest, st, r, st', h, hst, hg => by
    unfold simpleTryNums at h
    dsimp only at h
    cases hcand : ctx.getCandidatesForCell row col with
    | error e => rw [hcand] at h; exact absurd h (by simp)
    | ok candidates =>
      rw [hcand] at h
      dsimp only at h
      split at h
      · exact simpleTryNums_frame solve ctx grid row col base hsolve rest st r st' h hst hg
      · split at h
        · cases h
          exact hst
        · cases hsv : solve (setCellValue grid row col num) (bumpAssignments st) with
          | error e => rw [hsv] at h; exact absurd h (by simp)
          | ok p =>
            obtain ⟨solved, st2⟩ := p
            rw [hsv] at h
            dsimp only at h
            have hst2 : ∀ s ∈ st2.solutions, AgreesOnGivens base s :=
              hsolve _ _ _ _ hsv (by simpa [bumpAssignments] using hst)
                (agreesOnGivens_setCellValue row col num hg)
            split at h
            · cases h
              exact hst2
            · split at h
              · cases h
                exact hst2
              · exact simpleTryNums_frame solve ctx grid row col base hsolve
                  rest st2 r st' h hst2 hg

theorem solveSimple_frame (clock : Nat → Int) (ctx : BacktrackingContext) (base : Grid) :
    ∀ (fuel : Nat) (grid : Grid) (st : SolveState) (b : Bool) (st' : SolveState),
      solveWithSimpleBacktracking clock fuel grid ctx st = .ok (b, st') →
      (∀ s ∈ st.solutions, AgreesOnGivens base s) → AgreesOnGivens base grid →
      ∀ s ∈ st'.solutions, AgreesOnGivens base s
  | 0, grid, st, b, st', h, hst, hg => by
    unfold solveWithSimpleBacktracking at h
    cases h
    exact hst
  | fuel + 1, grid, st, b, st', h, hst, hg => by
    unfold solveWithSimpleBacktracking at h
    dsimp only at h
    cases hsp : solverPrologue clock ctx st with
    | mk timedOut st1 =>
      rw [hsp] at h
      dsimp only at h
      have hps := solverPrologue_solutions clock ctx st
      rw [hsp] at hps
      have hst1sols : ∀ s ∈ st1.solutions, AgreesOnGivens base s := by
        rw [show st1.solutions = st.solutions from hps.1]; exact hst
      by_cases hto : timedOut = true
      · rw [if_pos hto] at h
        have hse : st1 = st' := congrArg Prod.snd (Except.ok.inj h)
        rw [← hse]; exact hst1sols
      · rw [if_neg hto] at h
        by_cases hin : st1.interrupted = true
        · rw [if_pos hin] at h
          have hse : st1 = st' := congrArg Prod.snd (Except.ok.inj h)
          rw [← hse]; exact hst1sols
        · rw [if_neg hin] at h
          cases hval : validateAllRegions grid ctx.config.regions with
          | error e => rw [hval] at h; exact absurd h (by simp)
          | ok validation =>
            rw [hval] at h
            dsimp only at h
            by_cases hvb : (!validation.isValid) = true
            · rw [if_pos hvb] at h
              have hse : bumpBacktracks st1 = st' := congrArg Prod.snd (Except.ok.inj h)
              rw [← hse]
              simpa [bumpBacktracks] using hst1sols
            · rw [if_neg hvb] at h
              cases hff : findFirstEmpty grid with
              | none =>
                rw [hff] at h
                dsimp only at h
                rw [if_neg hvb] at h
                have hse : (recordSolutionSimple ctx grid st1).2 = st' :=
                  congrArg Prod.snd (Except.ok.inj h)
                intro s hs
                rw [← hse, recordSolutionSimple_solutions] at hs
                rcases List.mem_append.mp hs with hs | hs
                · exact hst1sols s hs
                · rw [List.mem_singleton.mp hs, cloneGrid_eq]
                  exact hg
              | some rc =>
                obtain ⟨row, col⟩ := rc
                rw [hff] at h
                dsimp only at h
                cases hloop : simpleTryNums
                    (fun g s => solveWithSimpleBacktracking clock fuel g ctx s)
                    ctx grid row col (List.range' 1 ctx.config.size) st1 with
                | error e => rw [hloop] at h; exact absurd h (by simp)
                | ok p =>
                  obtain ⟨ores, st2⟩ := p
                  rw [hloop] at h
                  have hst2 : ∀ s ∈ st2.solutions, AgreesOnGivens base s :=
                    simpleTryNums_frame _ ctx grid row col base
                      (fun g stx bx stx' hx hstx hgx =>
                        solveSimple_frame clock ctx base fuel g stx bx stx' hx hstx hgx)
                      (List.range' 1 ctx.config.size) st1 ores st2 hloop hst1sols hg
                  cases ores with
                  | some bb =>
                    have hse : st2 = st' := congrArg Prod.snd (Except.ok.inj h)
                    rw [← hse]; exact hst2
                  | none =>
                    have hse : bumpBacktracks st2 = st' :=
                      congrArg Prod.snd (Except.ok.inj h)
                    rw [← hse]
                    simpa [bumpBacktracks] using hst2

theorem solveSudokuBody_frame (clock : Nat → Int) (grid : Grid) (config : SudokuConfig)
    (options : SolverOptions) (tt : Option Int) (res : SolverResult) (idx : Nat)
    (h : solveSudokuBody clock grid config options tt = .ok (res, idx)) :
    ∀ s ∈ res.solutions, AgreesOnGivens grid s := by
  unfold solveSudokuBody at h
  cases hval : validateAllRegions grid config.regions with
  | error e => rw [hval] at h; exact absurd h (by simp)
  | ok initialValidation =>
    rw [hval] at h
    dsimp only at h
    split at h
    · cases h
      intro s hs
      exact absurd hs (by simp)
    · cases hrun : (if options.strategy = "fastest"
          then solveWithBacktracking clock (solverFuel grid) (cloneGrid grid)
            { config := config, onProgress := options.onProgress,
              findAllSolutions := options.findAllSolutions,
              maxSolutions := options.maxSolutions, timeoutTimestamp := tt,
              getCandidatesForCell := initialCandidatesFn grid config } { clockIndex := 1 }
          else solveWithSimpleBacktracking clock (solverFuel grid) (cloneGrid grid)
            { config := config, onProgress := options.onProgress,
              findAllSolutions := options.findAllSolutions,
              maxSolutions := options.maxSolutions, timeoutTimestamp := tt,
              getCandidatesForCell := initialCandidatesFn grid config } { clockIndex := 1 }) with
      | error e => rw [hrun] at h; exact absurd h (by simp)
      | ok p =>
        obtain ⟨solvedF, stF⟩ := p
        rw [hrun] at h
        have hstF : ∀ s ∈ stF.solutions, AgreesOnGivens grid s := by
          rw [cloneGrid_eq] at hrun
          split at hrun
          · exact solveBT_frame clock _ grid (solverFuel grid) grid { clockIndex := 1 }
              solvedF stF hrun (by intro s hs; exact absurd hs (by simp))
              (agreesOnGivens_refl grid)
          · exact solveSimple_frame clock _ grid (solverFuel grid) grid { clockIndex := 1 }
              solvedF stF hrun (by intro s hs; exact absurd hs (by simp))
              (agreesOnGivens_refl grid)
        dsimp only at h
        split at h
        · cases hlast : stF.solutions.getLast? with
          | none =>
            rw [hlast] at h
            cases h
            intro s hs
            exact absurd hs (by simp)
          | some lastSolution =>
            rw [hlast] at h
            dsimp only at h
            cases hval2 : validateAllRegions lastSolution config.regions with
            | error e => rw [hval2] at h; exact absurd h (by simp)
            | ok validation =>
              rw [hval2] at h
              dsimp only at h
              split at h
              · cases h
                exact hstF
              · cases h
                intro s hs
                exact hstF s ((List.dropLast_sublist _).subset hs)
        · cases tt with
          | some ttv =>
            dsimp only at h
            split at h
            · cases hlast : stF.solutions.getLast? with
              | none =>
                rw [hlast] at h
                cases h
                exact hstF
              | some lastSolution =>
                rw [hlast] at h
                dsimp only at h
                cases hval2 : validateAllRegions lastSolution config.regions with
                | error e => rw [hval2] at h; exact absurd h (by simp)
                | ok validation =>
                  rw [hval2] at h
                  cases h
                  exact hstF
            · split at h
              · cases h
                exact hstF
              · cases h
                exact hstF
          | none =>
            dsimp only at h
            split at h
            · cases h
              exact hstF
            · cases h
              exact hstF

set_option maxRecDepth 10000 in
/-- **C6**: `setCellValue` outside puzzle-editing mode returns the grid
unchanged whenever the target cell is a given (`isPuzzle = true`); and
for every `solveSudoku` call — under either strategy — every returned
solution grid agrees with the input grid on every given cell (same full
cell state, in particular the same value). -/
theorem given_cells_unchanged :
    (∀ (grid : Grid) (row col value : Nat),
      (cellAtD grid row col).isPuzzle = true →
      setCellValue grid row col value false = grid) ∧
    (∀ (clock : Nat → Int) (grid : Grid) (config : SudokuConfig) (options : SolverOptions)
      (sol : Grid), sol ∈ (solveSudoku clock grid config options).solutions →
      ∀ r c : Nat, (cellAtD grid r c).isPuzzle = true →
        cellAtD sol r c = cellAtD grid r c) := by
  constructor
  · exact setCellValue_puzzle_unchanged
  · intro clock grid config options sol hsol r c hrc
    unfold solveSudoku at hsol
    dsimp only at hsol
    revert hsol
    cases hbody : solveSudokuBody clock grid config options
        (if options.timeoutMs ≠ 0 then some (clock 0 + options.timeoutMs) else none) with
    | error e =>
      intro hsol
      exact absurd hsol (by simp)
    | ok p =>
      obtain ⟨res, idx⟩ := p
      intro hsol
      exact solveSudokuBody_frame clock grid config options _ res idx hbody sol hsol r c hrc

/-- The input grid of the C6 witness: a 2×2 puzzle with the single given
`1` at `(0,0)`. -/
def c6Grid : Grid := createGridFromValues [[1, 0], [0, 0]]

/-- Find-all options capped at 2 solutions, used by the C6 witness. -/
def findAllTwoOpts : SolverOptions := { findAllSolutions := true, maxSolutions := 2 }

set_option maxRecDepth 10000 in
/-- Witness for C6 at concrete inputs: the given at `(0,0)` survives
`setCellValue`, and the first solution found for the puzzle keeps it. -/
theorem given_cells_unchanged_witness :
    ((cellAtD c6Grid 0 0).isPuzzle = true ∧
      setCellValue c6Grid 0 0 2 false = c6Grid) ∧
    (((solveSudoku clock0 c6Grid std2Config findAllTwoOpts).solutions.getD 0 []) ∈
        (solveSudoku clock0 c6Grid std2Config findAllTwoOpts).solutions ∧
      cellAtD ((solveSudoku clock0 c6Grid std2Config findAllTwoOpts).solutions.getD 0 [])
          0 0 =
        cellAtD c6Grid 0 0) := by
  refine ⟨⟨by decide, given_cells_unchanged.1 c6Grid 0 0 2 (by decide)⟩, ⟨by decide, ?_⟩⟩
  exact given_cells_unchanged.2 clock0 c6Grid std2Config findAllTwoOpts _
    (by decide) 0 0 (by decide)

/-! ### C8: dig target and stopping -/

theorem countGivens_le_clearCell (grid : Grid) (row col : Nat) :
    countGivens grid ≤ countGivens (clearCell grid row col) + 1 := by
  rw [clearCell_eq_updateCell]
  exact countGivens_le_updateCell grid row col _

theorem digPositionsLoop_count_ge (solution : Grid) (config : SudokuConfig)
    (options : DigOptions) (clock : Nat → Int) (target size : Nat)
    (hsym : options.symmetrical = false) :
    ∀ (positions : List (Nat × Nat)) (wg : Grid) (cannot : List (Nat × Nat))
      (st : GenState) (res : Grid) (st' : GenState),
      digPositionsLoop solution config options clock target size positions wg cannot st =
        .ok (res, st') →
      min (countGivens wg) target ≤ countGivens res
  | [], wg, cannot, st, res, st', h => by
    unfold digPositionsLoop at h
    have hse : wg = res := congrArg Prod.fst (Except.ok.inj h)
    rw [← hse]
    exact min_le_left _ _
  | (row, col) :: rest, wg, cannot, st, res, st', h => by
    unfold digPositionsLoop at h
    dsimp only at h
    by_cases h1 : clock st.clockIndex > options.timeoutTimestamp
    · rw [if_pos h1] at h
      have hse : wg = res := congrArg Prod.fst (Except.ok.inj h)
      rw [← hse]
      exact min_le_left _ _
    · rw [if_neg h1] at h
      by_cases h2 : (cellAtD wg row col).value = 0
      · rw [if_pos h2] at h
        exact digPositionsLoop_count_ge solution config options clock target size hsym
          rest wg cannot _ res st' h
      · rw [if_neg h2] at h
        by_cases h3 : (row, col) ∈ cannot
        · rw [if_pos h3] at h
          exact digPositionsLoop_count_ge solution config options clock target size hsym
            rest wg cannot _ res st' h
        · rw [if_neg h3] at h
          by_cases h4 : countGivens wg ≤ target
          · rw [if_pos h4] at h
            have hse : wg = res := congrArg Prod.fst (Except.ok.inj h)
            rw [← hse]
            exact min_le_left _ _
          · rw [if_neg h4] at h
            rw [if_neg (show ¬ options.symmetrical = true by simp [hsym])] at h
            have hclear : target ≤ countGivens (clearCell wg row col) := by
              have := countGivens_le_clearCell wg row col
              omega
            have hstep : min (countGivens wg) target ≤ countGivens res := by
              by_cases huq : options.uniqueSolution = true
              · rw [if_pos huq] at h
                cases hv : hasUniqueSolution (clearCell wg row col) solution config with
                | error e => rw [hv] at h; exact absurd h (by simp)
                | ok bv =>
                  rw [hv] at h
                  dsimp only at h
                  by_cases hcr : bv = true
                  · rw [if_pos hcr] at h
                    split at h
                    · have hse : clearCell wg row col = res :=
                        congrArg Prod.fst (Except.ok.inj h)
                      rw [← hse]
                      exact le_trans (min_le_right _ _) hclear
                    · have hrec := digPositionsLoop_count_ge solution config options clock
                        target size hsym rest (clearCell wg row col) cannot _ res st' h
                      calc min (countGivens wg) target ≤ target := min_le_right _ _
                        _ = min (countGivens (clearCell wg row col)) target :=
                            (min_eq_right hclear).symm
                        _ ≤ countGivens res := hrec
                  · rw [if_neg hcr] at h
                    exact digPositionsLoop_count_ge solution config options clock target
                      size hsym rest wg _ _ res st' h
              · rw [if_neg huq] at h
                dsimp only at h
                rw [if_pos rfl] at h
                split at h
                · have hse : clearCell wg row col = res :=
                    congrArg Prod.fst (Except.ok.inj h)
                  rw [← hse]
                  exact le_trans (min_le_right _ _) hclear
                · have hrec := digPositionsLoop_count_ge solution config options clock
                    target size hsym rest (clearCell wg row col) cannot _ res st' h
                  calc min (countGivens wg) target ≤ target := min_le_right _ _
                    _ = min (countGivens (clearCell wg row col)) target :=
                        (min_eq_right hclear).symm
                    _ ≤ countGivens res := hrec
            exact hstep

theorem digHoles_count_ge (grid solution : Grid) (config : SudokuConfig)
    (options : DigOptions) (clock : Nat → Int) (rng : Nat → Nat) (st : GenState)
    (res : Grid) (st' : GenState)
    (hsym : options.symmetrical = false)
    (h : digHoles grid solution config options clock rng st = .ok (res, st')) :
    min (countGivens grid)
      (max options.minGivens
        (min (digTargetGivens options.difficulty (grid.length * grid.length))
          options.maxGivens)) ≤ countGivens res := by
  unfold digHoles at h
  dsimp only at h
  have hrec := digPositionsLoop_count_ge solution config options clock _ grid.length hsym
    _ (cloneGrid grid) [] _ res st' h
  rwa [cloneGrid_eq] at hrec

/-- **C8**: the difficulty switch of `digHoles` computes
`⌊totalCells · f⌋` with `f = 0.45 / 0.35 / 0.30 / 0.25` for
easy/medium/hard/expert, and (for non-symmetric digging) the dig loop
never lowers the givens count below the target clamped into
`[minGivens, maxGivens]` — clues stop being removed once the count
reaches the clamped target — regardless of timeouts or callback
cancellations, which only stop digging earlier. -/
theorem dig_target_and_stop :
    (∀ n : Nat, digTargetGivens "easy" n = n * 45 / 100 ∧
      digTargetGivens "medium" n = n * 35 / 100 ∧
      digTargetGivens "hard" n = n * 30 / 100 ∧
      digTargetGivens "expert" n = n * 25 / 100) ∧
    (∀ (grid solution : Grid) (config : SudokuConfig) (options : DigOptions)
      (clock : Nat → Int) (rng : Nat → Nat) (st : GenState) (res : Grid)
      (st' : GenState),
      options.symmetrical = false →
      digHoles grid solution config options clock rng st = .ok (res, st') →
      min (countGivens grid)
        (max options.minGivens
          (min (digTargetGivens options.difficulty (grid.length * grid.length))
            options.maxGivens)) ≤ countGivens res) := by
  constructor
  · intro n
    exact ⟨rfl, rfl, rfl, rfl⟩
  · intro grid solution config options clock rng st res st' hsym h
    exact digHoles_count_ge grid solution config options clock rng st res st' hsym h

/-- The solved 2×2 grid used by the C8 and C10 witnesses. -/
def c8Sol : Grid := createGridFromValues [[1, 2], [2, 1]]

/-- Dig options of the C8 witness (medium difficulty, clamp `[1, 2]`,
no symmetry, generous deadline). -/
def c8Opts : DigOptions :=
  { difficulty := "medium", uniqueSolution := true, minGivens := 1, maxGivens := 2,
    symmetrical := false, symmetryType := "rotational", timeoutTimestamp := 30000,
    onProgress := none }

/-- The concrete dig run of the C8 witness. -/
def c8Run : Grid × GenState :=
  ((digHoles c8Sol c8Sol std2Config c8Opts clock0 rng0 {}).toOption).getD ([], {})

set_option maxRecDepth 10000 in
/-- Witness for C8: digging the solved 2×2 grid at medium difficulty
(target `⌊4 · 0.35⌋ = 1`, clamped to `max 1 (min 1 2) = 1`) stops at
exactly 1 given. -/
theorem dig_target_and_stop_witness :
    digTargetGivens "medium" 4 = 1 ∧
    c8Opts.symmetrical = false ∧
    digHoles c8Sol c8Sol std2Config c8Opts clock0 rng0 {} = .ok (c8Run.1, c8Run.2) ∧
    min (countGivens c8Sol)
      (max c8Opts.minGivens
        (min (digTargetGivens c8Opts.difficulty (c8Sol.length * c8Sol.length))
          c8Opts.maxGivens)) ≤ countGivens c8Run.1 ∧
    countGivens c8Run.1 = 1 := by
  refine ⟨by decide, rfl, by rfl, ?_, by decide⟩
  exact dig_target_and_stop.2 c8Sol c8Sol std2Config c8Opts clock0 rng0 {} c8Run.1 c8Run.2
    rfl (by rfl)

/-! ### C10: the puzzle is the solution with some cells cleared -/

/-- No cell is flagged as a given. -/
def AllCellsNotPuzzle (g : Grid) : Prop :=
  ∀ r c : Nat, (cellAtD g r c).isPuzzle = false

/-- `g` is `sol` with some cells cleared: non-empty cells carry the
solution's value and are flagged as givens, empty cells are not
flagged. -/
def PuzzleMatches (sol g : Grid) : Prop :=
  ∀ r c : Nat,
    ((cellAtD g r c).value ≠ 0 →
      (cellAtD g r c).value = (cellAtD sol r c).value ∧
      (cellAtD g r c).isPuzzle = true) ∧
    ((cellAtD g r c).value = 0 → (cellAtD g r c).isPuzzle = false)

theorem setCellValue_cases (grid : Grid) (row col value : Nat) (ep : Bool) :
    setCellValue grid row col value ep = grid ∨
    setCellValue grid row col value ep =
      updateCell grid row col (fun c => setCellFields c value ep) := by
  unfold setCellValue
  by_cases h1 : isValidPosition grid row col = true
  · rw [if_neg (by simp [h1])]
    by_cases h2 : ((cellAtD grid row col).isPuzzle && !ep) = true
    · rw [if_pos h2]
      exact .inl rfl
    · rw [if_neg h2]
      exact .inr rfl
  · rw [if_pos (by simpa using h1)]
    exact .inl rfl

theorem allCellsNotPuzzle_setCellValue {g : Grid} (row col value : Nat)
    (h : AllCellsNotPuzzle g) :
    AllCellsNotPuzzle (setCellValue g row col value false) := by
  rcases setCellValue_cases g row col value false with he | he
  · rw [he]
    exact h
  · rw [he]
    intro r c
    rw [cellAtD_updateCell]
    split
    · simp [setCellFields]
    · exact h r c

theorem allCellsNotPuzzle_empty (size : Nat) :
    AllCellsNotPuzzle (createEmptyGrid size) := by
  intro r c
  rw [cellAtD_createEmptyGrid]
  rfl

theorem fillTryNumbers_notPuzzle
    (fill : Grid → Nat → Nat → Nat → Except String (Option Grid × Nat))
    (config : SudokuConfig) (cb : Option (Grid → Option Bool))
    (hfill : ∀ g r c k g' k', fill g r c k = .ok (some g', k') →
      AllCellsNotPuzzle g → AllCellsNotPuzzle g') :
    ∀ (nums : List Nat) (grid : Grid) (row col k : Nat) (res : Option Grid) (k' : Nat),
      fillTryNumbers fill config cb grid row col nums k = .ok (res, k') →
      AllCellsNotPuzzle grid → ∀ g', res = some g' → AllCellsNotPuzzle g'
  | [], grid, row, col, k, res, k', h, hg, g', hres => by
    unfold fillTryNumbers at h
    have hres2 : (none : Option Grid) = res := congrArg Prod.fst (Except.ok.inj h)
    rw [← hres2] at hres
    exact absurd hres (by simp)
  | num :: rest, grid, row, col, k, res, k', h, hg, g', hres => by
    unfold fillTryNumbers at h
    dsimp only at h
    cases hval : validateAllRegions (setCellValue grid row col num) config.regions with
    | error e => rw [hval] at h; exact absurd h (by simp)
    | ok validation =>
      rw [hval] at h
      dsimp only at h
      by_cases hvb : validation.isValid = true
      · rw [if_pos hvb] at h
        split at h
        · have hres2 : (none : Option Grid) = res := congrArg Prod.fst (Except.ok.inj h)
          rw [← hres2] at hres
          exact absurd hres (by simp)
        · cases hrec : fill (setCellValue grid row col num)
              (if col + 1 ≥ grid.length then row + 1 else row)
              ((col + 1) % grid.length) k with
          | error e => rw [hrec] at h; exact absurd h (by simp)
          | ok p =>
            obtain ⟨og, k2⟩ := p
            rw [hrec] at h
            cases og with
            | some done =>
              dsimp only at h
              have hres2 : (some done : Option Grid) = res :=
                congrArg Prod.fst (Except.ok.inj h)
              rw [← hres2] at hres
              have hdg : done = g' := by
                injection hres
              rw [← hdg]
              exact hfill _ _ _ _ _ _ hrec
                (allCellsNotPuzzle_setCellValue row col num hg)
            | none =>
              dsimp only at h
              exact fillTryNumbers_notPuzzle fill config cb hfill rest grid row col k2
                res k' h hg g' hres
      · rw [if_neg hvb] at h
        exact fillTryNumbers_notPuzzle fill config cb hfill rest grid row col k
          res k' h hg g' hres

theorem fillGrid_notPuzzle (config : SudokuConfig) (cb : Option (Grid → Option Bool))
    (rng : Nat → Nat) :
    ∀ (fuel : Nat) (grid : Grid) (startRow startCol k : Nat) (res : Option Grid)
      (k' : Nat),
      fillGridWithBacktracking config cb rng fuel grid startRow startCol k =
        .ok (res, k') →
      AllCellsNotPuzzle grid → ∀ g', res = some g' → AllCellsNotPuzzle g'
  | 0, grid, startRow, startCol, k, res, k', h, hg, g', hres => by
    unfold fillGridWithBacktracking at h
    have hres2 : (none : Option Grid) = res := congrArg Prod.fst (Except.ok.inj h)
    rw [← hres2] at hres
    exact absurd hres (by simp)
  | fuel + 1, grid, startRow, startCol, k, res, k', h, hg, g', hres => by
    unfold fillGridWithBacktracking at h
    dsimp only at h
    cases hfc : findNextCell grid grid.length (grid.length * grid.length + grid.length + 1)
        startRow startCol with
    | none =>
      rw [hfc] at h
      have hres2 : (some grid : Option Grid) = res := congrArg Prod.fst (Except.ok.inj h)
      rw [← hres2] at hres
      have hdg : grid = g' := by injection hres
      rw [← hdg]
      exact hg
    | some rc =>
      obtain ⟨row, col⟩ := rc
      rw [hfc] at h
      dsimp only at h
      cases hsh : shuffleArray rng k (List.range' 1 grid.length) with
      | mk numbers k1 =>
        rw [hsh] at h
        dsimp only at h
        exact fillTryNumbers_notPuzzle _ config cb
          (fun g r c kx g2 kx' hx hgx =>
            fillGrid_notPuzzle config cb rng fuel g r c kx (some g2) kx' hx hgx g2 rfl)
          numbers grid row col k1 res k' h hg g' hres

theorem generateFilledGrid_notPuzzle (config : SudokuConfig)
    (cb : Option (Grid → Option Bool)) (rng : Nat → Nat) (k : Nat) (g' : Grid) (k' : Nat)
    (h : generateFilledGrid config cb rng k = .ok (some g', k')) :
    AllCellsNotPuzzle g' := by
  unfold generateFilledGrid at h
  exact fillGrid_notPuzzle config cb rng _ _ 0 0 k (some g') k' h
    (allCellsNotPuzzle_empty config.size) g' rfl

theorem genAttemptLoop_notPuzzle (config : SudokuConfig) (options : GeneratorOptions)
    (clock : Nat → Int) (rng : Nat → Nat) (tt : Int) :
    ∀ (tries : Nat) (st : GenState) (fr : String) (og : Option Grid) (st' : GenState)
      (fr' : String),
      genAttemptLoop config options clock rng tt tries st fr = .ok (og, st', fr') →
      ∀ g, og = some g → AllCellsNotPuzzle g
  | 0, st, fr, og, st', fr', h, g, hog => by
    unfold genAttemptLoop at h
    have h2 : (none : Option Grid) = og := congrArg Prod.fst (Except.ok.inj h)
    rw [← h2] at hog
    exact absurd hog (by simp)
  | tries + 1, st, fr, og, st', fr', h, g, hog => by
    unfold genAttemptLoop at h
    dsimp only at h
    split at h
    · have h2 : (none : Option Grid) = og := congrArg Prod.fst (Except.ok.inj h)
      rw [← h2] at hog
      exact absurd hog (by simp)
    · cases hgen : generateFilledGrid config
          (some fun gg =>
            match options.onProgress with
            | some f => f (.grid gg)
            | none => none) rng
          ({ st with
              stats := { st.stats with attempts := st.stats.attempts + 1 }
              clockIndex := st.clockIndex + 1 } : GenState).rngIndex with
      | error e => rw [hgen] at h; exact absurd h (by simp)
      | ok p =>
        obtain ⟨og2, k2⟩ := p
        rw [hgen] at h
        cases og2 with
        | some g2 =>
          dsimp only at h
          have h2 : (some g2 : Option Grid) = og := congrArg Prod.fst (Except.ok.inj h)
          rw [← h2] at hog
          have : g2 = g := by injection hog
          rw [← this]
          exact generateFilledGrid_notPuzzle config _ rng _ g2 k2 hgen
        | none =>
          dsimp only at h
          exact genAttemptLoop_notPuzzle config options clock rng tt tries _ fr
            og st' fr' h g hog

theorem pair_eq_fst {α β : Type} {a c : α} {b d : β} (h : (a, b) = (c, d)) : a = c := by
  injection h

theorem okGridFst {x res : Grid} {y st' : GenState}
    (h : (Except.ok (x, y) : Except String (Grid × GenState)) = .ok (res, st')) :
    x = res :=
  pair_eq_fst (Except.ok.inj h)

theorem puzzleMatches_clearCell {sol g : Grid} (row col : Nat)
    (h : PuzzleMatches sol g) : PuzzleMatches sol (clearCell g row col) := by
  intro r c
  rw [clearCell_eq_updateCell, cellAtD_updateCell]
  split
  · constructor
    · intro hv
      exact absurd rfl hv
    · intro _
      rfl
  · exact h r c

theorem puzzleMatches_mark {s : Grid} (hs : AllCellsNotPuzzle s) :
    PuzzleMatches s (markAllPuzzle s) := by
  intro r c
  rw [cellAtD_markAllPuzzle]
  by_cases hv : (cellAtD s r c).value ≠ 0
  · rw [if_pos hv]
    constructor
    · intro _
      exact ⟨rfl, rfl⟩
    · intro h0
      exact absurd h0 hv
  · rw [if_neg hv]
    constructor
    · intro hnz
      exact absurd hnz hv
    · intro _
      exact hs r c

theorem digPositionsLoop_matches (solution : Grid) (config : SudokuConfig)
    (options : DigOptions) (clock : Nat → Int) (target size : Nat) (sol : Grid) :
    ∀ (positions : List (Nat × Nat)) (wg : Grid) (cannot : List (Nat × Nat))
      (st : GenState) (res : Grid) (st' : GenState),
      digPositionsLoop solution config options clock target size positions wg cannot st =
        .ok (res, st') →
      PuzzleMatches sol wg → PuzzleMatches sol res
  | [], wg, cannot, st, res, st', h, hwg => by
    unfold digPositionsLoop at h
    exact (okGridFst h) ▸ hwg
  | (row, col) :: rest, wg, cannot, st, res, st', h, hwg => by
    unfold digPositionsLoop at h
    dsimp only at h
    by_cases h1 : clock st.clockIndex > options.timeoutTimestamp
    · rw [if_pos h1] at h
      exact (okGridFst h) ▸ hwg
    · rw [if_neg h1] at h
      by_cases h2 : (cellAtD wg row col).value = 0
      · rw [if_pos h2] at h
        exact digPositionsLoop_matches solution config options clock target size sol
          rest wg cannot _ res st' h hwg
      · rw [if_neg h2] at h
        by_cases h3 : (row, col) ∈ cannot
        · rw [if_pos h3] at h
          exact digPositionsLoop_matches solution config options clock target size sol
            rest wg cannot _ res st' h hwg
        · rw [if_neg h3] at h
          by_cases h4 : countGivens wg ≤ target
          · rw [if_pos h4] at h
            exact (okGridFst h) ▸ hwg
          · rw [if_neg h4] at h
            by_cases hsym2 : options.symmetrical = true
            · rw [if_pos hsym2] at h
              by_cases hc2 : (getSymmetricPosition row col size options.symmetryType).1 <
                    size ∧
                  (getSymmetricPosition row col size options.symmetryType).2 < size ∧
                  ¬((getSymmetricPosition row col size options.symmetryType).1 = row ∧
                    (getSymmetricPosition row col size options.symmetryType).2 = col) ∧
                  (cellAtD (clearCell wg row col)
                    (getSymmetricPosition row col size options.symmetryType).1
                    (getSymmetricPosition row col size options.symmetryType).2).value ≠ 0
              · rw [if_pos hc2] at h
                have hTG : PuzzleMatches sol (clearCell (clearCell wg row col)
                    (getSymmetricPosition row col size options.symmetryType).1
                    (getSymmetricPosition row col size options.symmetryType).2) :=
                  puzzleMatches_clearCell _ _ (puzzleMatches_clearCell row col hwg)
                by_cases huq : options.uniqueSolution = true
                · rw [if_pos huq] at h
                  cases hv : hasUniqueSolution (clearCell (clearCell wg row col)
                      (getSymmetricPosition row col size options.symmetryType).1
                      (getSymmetricPosition row col size options.symmetryType).2)
                      solution config with
                  | error e => rw [hv] at h; exact absurd h (by simp)
                  | ok bv =>
                    rw [hv] at h
                    dsimp only at h
                    by_cases hcr : bv = true
                    · rw [if_pos hcr] at h
                      split at h
                      · exact (okGridFst h) ▸ hTG
                      · exact digPositionsLoop_matches solution config options clock
                          target size sol rest _ cannot _ res st' h hTG
                    · rw [if_neg hcr] at h
                      exact digPositionsLoop_matches solution config options clock
                        target size sol rest wg _ _ res st' h hwg
                · rw [if_neg huq] at h
                  dsimp only at h
                  rw [if_pos rfl] at h
                  split at h
                  · exact (okGridFst h) ▸ hTG
                  · exact digPositionsLoop_matches solution config options clock
                      target size sol rest _ cannot _ res st' h hTG
              · rw [if_neg hc2] at h
                have hTG : PuzzleMatches sol (clearCell wg row col) :=
                  puzzleMatches_clearCell row col hwg
                by_cases huq : options.uniqueSolution = true
                · rw [if_pos huq] at h
                  cases hv : hasUniqueSolution (clearCell wg row col) solution config with
                  | error e => rw [hv] at h; exact absurd h (by simp)
                  | ok bv =>
                    rw [hv] at h
                    dsimp only at h
                    by_cases hcr : bv = true
                    · rw [if_pos hcr] at h
                      split at h
                      · exact (okGridFst h) ▸ hTG
                      · exact digPositionsLoop_matches solution config options clock
                          target size sol rest _ cannot _ res st' h hTG
                    · rw [if_neg hcr] at h
                      exact digPositionsLoop_matches solution config options clock
                        target size sol rest wg _ _ res st' h hwg
                · rw [if_neg huq] at h
                  dsimp only at h
                  rw [if_pos rfl] at h
                  split at h
                  · exact (okGridFst h) ▸ hTG
                  · exact digPositionsLoop_matches solution config options clock
                      target size sol rest _ cannot _ res st' h hTG
            · rw [if_neg hsym2] at h
              have hTG : PuzzleMatches sol (clearCell wg row col) :=
                puzzleMatches_clearCell row col hwg
              by_cases huq : options.uniqueSolution = true
              · rw [if_pos huq] at h
                cases hv : hasUniqueSolution (clearCell wg row col) solution config with
                | error e => rw [hv] at h; exact absurd h (by simp)
                | ok bv =>
                  rw [hv] at h
                  dsimp only at h
                  by_cases hcr : bv = true
                  · rw [if_pos hcr] at h
                    split at h
                    · exact (okGridFst h) ▸ hTG
                    · exact digPositionsLoop_matches solution config options clock
                        target size sol rest _ cannot _ res st' h hTG
                  · rw [if_neg hcr] at h
                    exact digPositionsLoop_matches solution config options clock
                      target size sol rest wg _ _ res st' h hwg
              · rw [if_neg huq] at h
                dsimp only at h
                rw [if_pos rfl] at h
                split at h
                · exact (okGridFst h) ▸ hTG
                · exact digPositionsLoop_matches solution config options clock
                    target size sol rest _ cannot _ res st' h hTG

theorem digHoles_matches (grid solution : Grid) (config : SudokuConfig)
    (options : DigOptions) (clock : Nat → Int) (rng : Nat → Nat) (st : GenState)
    (res : Grid) (st' : GenState) (sol : Grid)
    (h : digHoles grid solution config options clock rng st = .ok (res, st'))
    (hg : PuzzleMatches sol grid) : PuzzleMatches sol res := by
  unfold digHoles at h
  dsimp only at h
  refine digPositionsLoop_matches solution config options clock _ grid.length sol
    _ (cloneGrid grid) [] _ res st' h ?_
  rw [cloneGrid_eq]
  exact hg

theorem generateSudokuBody_matches (config : SudokuConfig) (options : GeneratorOptions)
    (clock : Nat → Int) (rng : Nat → Nat) (minG maxG : Nat) (tt : Int)
    (gr : GeneratorResult) (st : GenState) (p s : Grid)
    (h : generateSudokuBody config options clock rng minG maxG tt = .ok (gr, st))
    (hsucc : gr.success = true) (hp : gr.puzzle = some p) (hs : gr.solution = some s) :
    PuzzleMatches s p := by
  unfold generateSudokuBody at h
  cases hloop : genAttemptLoop config options clock rng tt 10 { clockIndex := 1 }
      "error" with
  | error e => rw [hloop] at h; exact absurd h (by simp)
  | ok t =>
    obtain ⟨og, stq, frq⟩ := t
    rw [hloop] at h
    cases og with
    | none =>
      dsimp only at h
      have hgr : _ = gr := congrArg Prod.fst (Except.ok.inj h)
      rw [← hgr] at hsucc
      exact absurd hsucc (by simp)
    | some filledGrid =>
      dsimp only at h
      cases hdig : digHoles (markAllPuzzle (cloneGrid (cloneGrid filledGrid)))
          (cloneGrid filledGrid) config
          { difficulty := options.difficulty
            uniqueSolution := options.uniqueSolution
            minGivens := minG
            maxGivens := maxG
            symmetrical := options.symmetrical
            symmetryType := options.symmetryType
            timeoutTimestamp := tt
            onProgress := options.onProgress } clock rng
          { stq with stats :=
              { stq.stats with fullGridsGenerated := stq.stats.fullGridsGenerated + 1 } } with
      | error e => rw [hdig] at h; exact absurd h (by simp)
      | ok q =>
        obtain ⟨modifiedPuzzle, st2⟩ := q
        rw [hdig] at h
        dsimp only at h
        have hgr : _ = gr := congrArg Prod.fst (Except.ok.inj h)
        rw [← hgr] at hp hs
        have hpz : modifiedPuzzle = p := by
          simpa using hp
        have hsz : cloneGrid filledGrid = s := by
          simpa using hs
        have hnp : AllCellsNotPuzzle filledGrid :=
          genAttemptLoop_notPuzzle config options clock rng tt 10 _ "error"
            (some filledGrid) stq frq hloop filledGrid rfl
        have hmatch : PuzzleMatches (cloneGrid filledGrid)
            (markAllPuzzle (cloneGrid (cloneGrid filledGrid))) := by
          rw [cloneGrid_eq, cloneGrid_eq]
          exact puzzleMatches_mark hnp
        have := digHoles_matches _ _ config _ clock rng _ modifiedPuzzle st2
          (cloneGrid filledGrid) hdig hmatch
        rw [hpz, hsz] at this
        exact this

/-- **C10**: every successful `generateSudoku` result returns a puzzle
that is the solution with some cells cleared and nothing else changed:
non-empty puzzle cells carry the solution's value at that position and
are flagged `isPuzzle = true`, empty puzzle cells are flagged
`isPuzzle = false`. -/
theorem generated_puzzle_matches_solution :
    ∀ (config : SudokuConfig) (options : GeneratorOptions) (clock : Nat → Int)
      (rng : Nat → Nat) (p s : Grid),
      (generateSudoku config options clock rng).success = true →
      (generateSudoku config options clock rng).puzzle = some p →
      (generateSudoku config options clock rng).solution = some s →
      ∀ r c : Nat,
        ((cellAtD p r c).value ≠ 0 →
          (cellAtD p r c).value = (cellAtD s r c).value ∧
          (cellAtD p r c).isPuzzle = true) ∧
        ((cellAtD p r c).value = 0 → (cellAtD p r c).isPuzzle = false) := by
  intro config options clock rng p s hsucc hp hs
  unfold generateSudoku at hsucc hp hs
  dsimp only at hsucc hp hs
  revert hsucc hp hs
  cases hbody : generateSudokuBody config options clock rng
      (options.minGivens.getD (config.size * config.size * 25 / 100))
      (options.maxGivens.getD (config.size * config.size * 50 / 100))
      (clock 0 + options.timeoutMs) with
  | error e =>
    intro hsucc hp hs
    exact absurd hsucc (by simp)
  | ok q =>
    obtain ⟨gr, st⟩ := q
    intro hsucc hp hs
    exact generateSudokuBody_matches config options clock rng _ _ _ gr st p s hbody
      hsucc hp hs

/-- The concrete generator run of the C10 witness (2×2, all defaults,
constant oracles). -/
def c10Res : GeneratorResult := generateSudoku std2Config {} clock0 rng0

set_option maxRecDepth 10000 in
/-- Witness for C10: the 2×2 run succeeds; its puzzle keeps the
solution's `2` at `(0,0)` as a flagged given, and its cleared cell
`(0,1)` is not flagged. -/
theorem generated_puzzle_matches_solution_witness :
    c10Res.success = true ∧
    c10Res.puzzle = some (c10Res.puzzle.getD []) ∧
    c10Res.solution = some (c10Res.solution.getD []) ∧
    (cellAtD (c10Res.puzzle.getD []) 0 0).value = 2 ∧
    ((cellAtD (c10Res.puzzle.getD []) 0 0).value ≠ 0 →
      (cellAtD (c10Res.puzzle.getD []) 0 0).value =
        (cellAtD (c10Res.solution.getD []) 0 0).value ∧
      (cellAtD (c10Res.puzzle.getD []) 0 0).isPuzzle = true) ∧
    ((cellAtD (c10Res.puzzle.getD []) 0 1).value = 0 →
      (cellAtD (c10Res.puzzle.getD []) 0 1).isPuzzle = false) := by
  refine ⟨by decide, by rfl, by rfl, by decide, ?_, ?_⟩
  · exact (generated_puzzle_matches_solution std2Config {} clock0 rng0
      (c10Res.puzzle.getD []) (c10Res.solution.getD []) (by decide) (by rfl) (by rfl)
      0 0).1
  · exact (generated_puzzle_matches_solution std2Config {} clock0 rng0
      (c10Res.puzzle.getD []) (c10Res.solution.getD []) (by decide) (by rfl) (by rfl)
      0 1).2

/-! ### C3: shape, cell-count and empty-coordinate toolkit -/

/-- Equal outline: same number of rows, and rows of equal length. -/
def SameShape (t g : Grid) : Prop :=
  t.length = g.length ∧ ∀ r : Nat, (t.getD r []).length = (g.getD r []).length

theorem sameShape_refl (g : Grid) : SameShape g g := ⟨rfl, fun _ => rfl⟩

theorem sameShape_trans {a b c : Grid} (h1 : SameShape a b) (h2 : SameShape b c) :
    SameShape a c :=
  ⟨h1.1.trans h2.1, fun r => (h1.2 r).trans (h2.2 r)⟩

/-- Two grids of the same shape with equal cells everywhere are equal. -/
theorem grid_eq_of_sameShape {t g : Grid} (hs : SameShape t g)
    (hc : ∀ r c : Nat, cellAtD t r c = cellAtD g r c) : t = g := by
  refine List.ext_getElem?_iff.mpr fun r => ?_
  by_cases hr : r < g.length
  · have hrt : r < t.length := by rw [hs.1]; exact hr
    rw [List.getElem?_eq_getElem hr, List.getElem?_eq_getElem hrt]
    have hrowt : t.getD r [] = t[r] := by
      rw [List.getD_eq_getElem?_getD, List.getElem?_eq_getElem hrt]
      rfl
    have hrowg : g.getD r [] = g[r] := by
      rw [List.getD_eq_getElem?_getD, List.getElem?_eq_getElem hr]
      rfl
    congr 1
    refine List.ext_getElem?_iff.mpr fun c => ?_
    by_cases hcg : c < (g.getD r []).length
    · have hct : c < (t.getD r []).length := by rw [hs.2 r]; exact hcg
      rw [hrowg] at hcg
      rw [hrowt] at hct
      rw [List.getElem?_eq_getElem hcg, List.getElem?_eq_getElem hct]
      have h1 : cellAtD t r c = t[r][c] := by
        rw [cellAtD_eq, List.getElem?_eq_getElem hrt]
        simp only [Option.getD_some]
        rw [List.getElem?_eq_getElem hct]
        rfl
      have h2 : cellAtD g r c = g[r][c] := by
        rw [cellAtD_eq, List.getElem?_eq_getElem hr]
        simp only [Option.getD_some]
        rw [List.getElem?_eq_getElem hcg]
        rfl
      rw [← h1, ← h2, hc r c]
    · have hct : ¬ c < (t.getD r []).length := by rw [hs.2 r]; exact hcg
      rw [hrowg] at hcg
      rw [hrowt] at hct
      rw [List.getElem?_eq_none (by omega), List.getElem?_eq_none (by omega)]
  · have hrt : ¬ r < t.length := by rw [hs.1]; exact hr
    rw [List.getElem?_eq_none (by omega), List.getElem?_eq_none (by omega)]

theorem getD_updateCell_row (grid : Grid) (row col : Nat) (f : CellState → CellState)
    (r : Nat) :
    ((updateCell grid row col f).getD r []).length = (grid.getD r []).length := by
  rw [List.getD_eq_getElem?_getD, List.getD_eq_getElem?_getD (l := grid)]
  by_cases hr : r = row
  · subst hr
    rw [getElem?_updateCell_self]
    cases h : grid[r]? with
    | none => rfl
    | some rcs => simp
  · rw [getElem?_updateCell_ne grid row col f hr]

theorem sameShape_updateCell (grid : Grid) (row col : Nat) (f : CellState → CellState) :
    SameShape (updateCell grid row col f) grid :=
  ⟨length_updateCell grid row col f, getD_updateCell_row grid row col f⟩

/-- Total number of cells. -/
def totalCells (g : Grid) : Nat := (g.map List.length).sum

theorem totalCells_updateCell (grid : Grid) (row col : Nat) (f : CellState → CellState) :
    totalCells (updateCell grid row col f) = totalCells grid := by
  unfold totalCells
  congr 1
  refine List.ext_getElem?_iff.mpr fun i => ?_
  rw [List.getElem?_map, List.getElem?_map]
  by_cases hi : i = row
  · subst hi
    rw [getElem?_updateCell_self]
    cases h : grid[i]? with
    | none => rfl
    | some rcs => simp
  · rw [getElem?_updateCell_ne grid row col f hi]

theorem sum_map_eq_of_single_change {α : Type} (w : α → Nat) (d : Nat) :
    ∀ (l l' : List α) (k : Nat),
      l.length = l'.length →
      (∀ i, i ≠ k → l[i]? = l'[i]?) →
      (∀ x y, l[k]? = some x → l'[k]? = some y → w y = w x + d) →
      k < l.length →
      (l'.map w).sum = (l.map w).sum + d
  | [], l', k, hlen, _, _, hk => by simp at hk
  | a :: t, [], k, hlen, _, _, hk => by simp at hlen
  | a :: t, a' :: t', 0, hlen, hne, hk, hklen => by
    have ht : t = t' := by
      refine List.ext_getElem?_iff.mpr fun i => ?_
      have := hne (i + 1) (by omega)
      simpa using this
    have ha := hk a a' (by simp) (by simp)
    subst ht
    simp only [List.map_cons, List.sum_cons]
    omega
  | a :: t, a' :: t', k + 1, hlen, hne, hk, hklen => by
    have ha : a = a' := by
      have := hne 0 (by omega)
      simpa using this
    subst ha
    have hrec := sum_map_eq_of_single_change w d t t' k (by simpa using hlen)
      (fun i hi => by simpa using hne (i + 1) (by omega))
      (fun x y hx hy => hk x y (by simpa using hx) (by simpa using hy))
      (by simpa using hklen)
    simp only [List.map_cons, List.sum_cons]
    omega

theorem cellAtD_in_range (grid : Grid) {row col : Nat} (hrow : row < grid.length)
    (hcol : col < (grid.getD row []).length) {rcs : List CellState}
    (hr : grid[row]? = some rcs) {x : CellState} (hx : rcs[col]? = some x) :
    cellAtD grid row col = x := by
  rw [cellAtD_eq, hr]
  simp only [Option.getD_some]
  rw [hx]
  rfl

theorem countGivens_updateCell_exact (grid : Grid) (row col : Nat)
    (f : CellState → CellState) (hrow : row < grid.length)
    (hcol : col < (grid.getD row []).length)
    (h0 : (cellAtD grid row col).value = 0)
    (hf : ∀ cell, (f cell).value ≠ 0) :
    countGivens (updateCell grid row col f) = countGivens grid + 1 := by
  rw [countGivens_eq, countGivens_eq]
  refine sum_map_eq_of_single_change rowGivens 1 grid (updateCell grid row col f) row
    (length_updateCell grid row col f).symm
    (fun i hi => (getElem?_updateCell_ne grid row col f hi).symm) ?_ hrow
  intro x y hx hy
  rw [getElem?_updateCell_self, hx, Option.map_some', Option.some.injEq] at hy
  subst hy
  have hxrow : grid.getD row [] = x := by
    rw [List.getD_eq_getElem?_getD, hx]
    rfl
  have hcolx : col < x.length := by rw [← hxrow]; exact hcol
  unfold rowGivens
  refine sum_map_eq_of_single_change cellWeight 1 x _ col (by simp)
    (fun i hi => ?_) (fun u v hu hv => ?_) hcolx
  · rw [List.getElem?_mapIdx]
    cases h : x[i]? with
    | none => rfl
    | some cell => simp [hi]
  · rw [List.getElem?_mapIdx, hu, Option.map_some', Option.some.injEq] at hv
    subst hv
    have hucell : cellAtD grid row col = u := cellAtD_in_range grid hrow hcol hx hu
    have hu0 : u.value = 0 := by rw [← hucell]; exact h0
    simp only [if_pos rfl]
    unfold cellWeight
    rw [if_pos (by simpa using hf u), if_neg (by simp [hu0])]

theorem rowEmpties_length_add (r : Nat) :
    ∀ (l : List CellState) (c0 : Nat),
      (rowEmpties r c0 l).length + rowGivens l = l.length
  | [], _ => by simp [rowEmpties, rowGivens]
  | cell :: rest, c0 => by
    have hrec := rowEmpties_length_add r rest (c0 + 1)
    have hcons : rowGivens (cell :: rest) = cellWeight cell + rowGivens rest := by
      simp [rowGivens]
    unfold rowEmpties
    by_cases h : cell.value = 0
    · rw [if_pos h, hcons]
      unfold cellWeight
      rw [if_neg (by simp [h])]
      simp only [List.length_cons]
      omega
    · rw [if_neg h, hcons]
      unfold cellWeight
      rw [if_pos (by simpa using h)]
      simp only [List.length_cons]
      omega

theorem emptyCellCoords_length_add :
    ∀ (g : Grid) (r0 : Nat),
      (emptyCellCoords r0 g).length + countGivens g = totalCells g
  | [], _ => by simp [emptyCellCoords, countGivens, totalCells]
  | rcs :: rest, r0 => by
    have hrec := emptyCellCoords_length_add rest (r0 + 1)
    have hrow := rowEmpties_length_add r0 rcs 0
    unfold emptyCellCoords
    rw [countGivens_eq] at hrec ⊢
    unfold totalCells at hrec ⊢
    simp only [List.map_cons, List.sum_cons, List.length_append]
    omega

theorem mem_rowEmpties (r : Nat) :
    ∀ (l : List CellState) (c0 : Nat) (p : Nat × Nat),
      p ∈ rowEmpties r c0 l ↔
        p.1 = r ∧ ∃ j, j < l.length ∧ p.2 = c0 + j ∧
          (l.getD j createEmptyCell).value = 0
  | [], c0, p => by simp [rowEmpties]
  | cell :: rest, c0, p => by
    have hrec := mem_rowEmpties r rest (c0 + 1) p
    unfold rowEmpties
    by_cases h : cell.value = 0
    · rw [if_pos h]
      simp only [List.mem_cons, hrec]
      constructor
      · rintro (hp | ⟨h1, j, hj, hp2, hv⟩)
        · subst hp
          exact ⟨rfl, 0, by simpa using h⟩
        · exact ⟨h1, j + 1, by simp; omega, by omega, by simpa using hv⟩
      · rintro ⟨h1, j, hj, hp2, hv⟩
        cases j with
        | zero =>
          left
          have : p.2 = c0 := by omega
          obtain ⟨p1, p2⟩ := p
          simp_all
        | succ j =>
          right
          exact ⟨h1, j, by simp at hj; omega, by omega, by simpa using hv⟩
    · rw [if_neg h]
      rw [hrec]
      constructor
      · rintro ⟨h1, j, hj, hp2, hv⟩
        exact ⟨h1, j + 1, by simp; omega, by omega, by simpa using hv⟩
      · rintro ⟨h1, j, hj, hp2, hv⟩
        cases j with
        | zero =>
          exfalso
          simp only [List.getD_cons_zero] at hv
          exact h hv
        | succ j =>
          exact ⟨h1, j, by simp at hj; omega, by omega, by simpa using hv⟩

theorem mem_emptyCellCoords_gen :
    ∀ (g : Grid) (r0 : Nat) (p : Nat × Nat),
      p ∈ emptyCellCoords r0 g ↔
        ∃ i, i < g.length ∧ p.1 = r0 + i ∧ p.2 < (g.getD i []).length ∧
          (cellAtD g i p.2).value = 0
  | [], r0, p => by simp [emptyCellCoords]
  | rcs :: rest, r0, p => by
    have hrec := mem_emptyCellCoords_gen rest (r0 + 1) p
    unfold emptyCellCoords
    rw [List.mem_append, hrec, mem_rowEmpties]
    constructor
    · rintro (⟨h1, j, hj, hp2, hv⟩ | ⟨i, hi, hp1, hp2, hv⟩)
      · refine ⟨0, by simp, by omega, ?_, ?_⟩
        · simpa using by omega
        · have hp2j : p.2 = j := by omega
          rw [hp2j]
          rw [cellAtD_eq]
          simpa using hv
      · refine ⟨i + 1, by simp; omega, by omega, by simpa using hp2, ?_⟩
        rw [cellAtD_eq] at hv ⊢
        simpa using hv
    · rintro ⟨i, hi, hp1, hp2, hv⟩
      cases i with
      | zero =>
        left
        refine ⟨by omega, p.2, by simpa using hp2, by omega, ?_⟩
        rw [cellAtD_eq] at hv
        simpa using hv
      | succ i =>
        right
        refine ⟨i, by simp at hi; omega, by omega, by simpa using hp2, ?_⟩
        rw [cellAtD_eq] at hv ⊢
        simpa using hv

theorem mem_emptyCellCoords (g : Grid) (p : Nat × Nat) :
    p ∈ emptyCellCoords 0 g ↔
      p.1 < g.length ∧ p.2 < (g.getD p.1 []).length ∧ (cellAtD g p.1 p.2).value = 0 := by
  rw [mem_emptyCellCoords_gen]
  constructor
  · rintro ⟨i, hi, hp1, hp2, hv⟩
    have : p.1 = i := by omega
    subst this
    exact ⟨hi, hp2, hv⟩
  · rintro ⟨h1, h2, h3⟩
    exact ⟨p.1, h1, by omega, h2, h3⟩

/-! ### C3: well-formedness predicates and the completion relation -/

/-- A square `size × size` grid. -/
def GridSquare (g : Grid) (size : Nat) : Prop :=
  g.length = size ∧ ∀ r : Nat, r < size → (g.getD r []).length = size

/-- All region coordinates within `[0, size)`. -/
def RegionsInRange (config : SudokuConfig) : Prop :=
  ∀ reg ∈ config.regions, ∀ p ∈ reg.cells, p.1 < config.size ∧ p.2 < config.size

/-- Empty cells are not flagged as givens (so `setCellValue` accepts
writing into them). -/
def EmptyNotPuzzle (g : Grid) : Prop :=
  ∀ r c : Nat, (cellAtD g r c).value = 0 → (cellAtD g r c).isPuzzle = false

theorem sameShape_symm {a b : Grid} (h : SameShape a b) : SameShape b a :=
  ⟨h.1.symm, fun r => (h.2 r).symm⟩

theorem inRange_of_wf {g : Grid} {size : Nat} (hsq : GridSquare g size)
    {p : Nat × Nat} (h1 : p.1 < size) (h2 : p.2 < size) : InRange g p := by
  refine ⟨by rw [hsq.1]; exact h1, ?_⟩
  rw [hsq.2 p.1 h1]
  exact h2

theorem cellAtD_oob {g : Grid} {r c : Nat}
    (h : ¬ (r < g.length ∧ c < (g.getD r []).length)) :
    cellAtD g r c = createEmptyCell := by
  rw [cellAtD_eq]
  by_cases hr : r < g.length
  · have hc : ¬ c < (g.getD r []).length := fun hc => h ⟨hr, hc⟩
    have hrow : g[r]?.getD [] = g.getD r [] := (List.getD_eq_getElem?_getD g r []).symm
    rw [hrow, List.getElem?_eq_none (by omega)]
    rfl
  · have hnone : g[r]? = none := List.getElem?_eq_none (by omega)
    rw [hnone]
    rfl

theorem setCellValue_write {g : Grid} {size : Nat} (hsq : GridSquare g size)
    (hnp : EmptyNotPuzzle g) {row col : Nat} (hrow : row < size) (hcol : col < size)
    (hempty : (cellAtD g row col).value = 0) (value : Nat) :
    setCellValue g row col value false =
      updateCell g row col (fun c => setCellFields c value false) := by
  apply setCellValue_eq_updateCell
  · unfold isValidPosition
    have h1 : row < g.length := by rw [hsq.1]; exact hrow
    have h2 : col < (g.getD 0 []).length := by
      have hz : 0 < size := by omega
      rw [hsq.2 0 hz]
      exact hcol
    rw [List.getD_eq_getElem?_getD] at h2
    simp [h1, h2]
  · rw [hnp row col hempty]
    simp

theorem gridSquare_updateCell {g : Grid} {size : Nat} (hsq : GridSquare g size)
    (row col : Nat) (f : CellState → CellState) :
    GridSquare (updateCell g row col f) size :=
  ⟨by rw [length_updateCell]; exact hsq.1,
   fun r hr => by rw [getD_updateCell_row]; exact hsq.2 r hr⟩

theorem emptyNotPuzzle_updateCell {g : Grid} (hnp : EmptyNotPuzzle g)
    (row col value : Nat) :
    EmptyNotPuzzle (updateCell g row col (fun c => setCellFields c value false)) := by
  intro r c
  rw [cellAtD_updateCell]
  split
  · intro _
    simp [setCellFields]
  · exact hnp r c

/-- `t` completes `g`: same shape, filled cells kept verbatim, every
in-range empty cell written (through `setCellValue`'s field assignment)
with a non-zero value from that cell's menu. -/
def FillsTo (menu : Nat → Nat → List Nat) (g t : Grid) : Prop :=
  SameShape t g ∧
  ∀ r c : Nat, r < g.length → c < (g.getD r []).length →
    ((cellAtD g r c).value ≠ 0 → cellAtD t r c = cellAtD g r c) ∧
    ((cellAtD g r c).value = 0 →
      ∃ v ∈ menu r c, v ≠ 0 ∧ cellAtD t r c = setCellFields (cellAtD g r c) v false)

theorem fillsTo_of_no_empty {menu : Nat → Nat → List Nat} {g t : Grid}
    (hne : emptyCellCoords 0 g = []) :
    FillsTo menu g t ↔ t = g := by
  constructor
  · rintro ⟨hs, hc⟩
    apply grid_eq_of_sameShape hs
    intro r c
    by_cases hir : r < g.length ∧ c < (g.getD r []).length
    · have hnz : (cellAtD g r c).value ≠ 0 := by
        intro h0
        have hmem : (r, c) ∈ emptyCellCoords 0 g :=
          (mem_emptyCellCoords g (r, c)).mpr ⟨hir.1, hir.2, h0⟩
        rw [hne] at hmem
        exact absurd hmem (by simp)
      exact (hc r c hir.1 hir.2).1 hnz
    · have ht : cellAtD t r c = createEmptyCell := by
        apply cellAtD_oob
        intro ⟨h1, h2⟩
        apply hir
        constructor
        · rw [← hs.1]; exact h1
        · rw [← hs.2 r]; exact h2
      rw [ht, cellAtD_oob hir]
  · intro heq
    rw [heq]
    refine ⟨sameShape_refl g, fun r c hr hcc => ⟨fun _ => rfl, fun h0 => ?_⟩⟩
    exfalso
    have hmem : (r, c) ∈ emptyCellCoords 0 g :=
      (mem_emptyCellCoords g (r, c)).mpr ⟨hr, hcc, h0⟩
    rw [hne] at hmem
    exact absurd hmem (by simp)

theorem fillsTo_step_forward {menu : Nat → Nat → List Nat} {g t : Grid} {size : Nat}
    (hsq : GridSquare g size) (hnp : EmptyNotPuzzle g) {row col v : Nat}
    (hrow : row < size) (hcol : col < size)
    (hempty : (cellAtD g row col).value = 0) (hv : v ≠ 0) (hvmenu : v ∈ menu row col)
    (hft : FillsTo menu (setCellValue g row col v) t) :
    FillsTo menu g t := by
  rw [setCellValue_write hsq hnp hrow hcol hempty] at hft
  obtain ⟨hs, hc⟩ := hft
  have hrg : row < g.length := by rw [hsq.1]; exact hrow
  have hcg : col < (g.getD row []).length := by rw [hsq.2 row hrow]; exact hcol
  constructor
  · exact sameShape_trans hs (sameShape_updateCell g row col _)
  · intro r c hr hcc
    have hr' : r < (updateCell g row col (fun c => setCellFields c v false)).length := by
      rw [length_updateCell]; exact hr
    have hcc' : c < ((updateCell g row col
        (fun c => setCellFields c v false)).getD r []).length := by
      rw [getD_updateCell_row]; exact hcc
    by_cases hrc : r = row ∧ c = col
    · obtain ⟨h1, h2⟩ := hrc
      subst h1
      subst h2
      have hcell : cellAtD (updateCell g r c (fun cc => setCellFields cc v false)) r c =
          setCellFields (cellAtD g r c) v false := by
        rw [cellAtD_updateCell, if_pos ⟨rfl, rfl, hrg, hcg⟩]
      constructor
      · intro hnz
        exact absurd hempty hnz
      · intro _
        refine ⟨v, hvmenu, hv, ?_⟩
        have hval : (cellAtD (updateCell g r c
            (fun cc => setCellFields cc v false)) r c).value ≠ 0 := by
          rw [hcell]
          simpa [setCellFields] using hv
        have := (hc r c hr' hcc').1 hval
        rw [this, hcell]
    · have hcell : cellAtD (updateCell g row col
          (fun cc => setCellFields cc v false)) r c = cellAtD g r c :=
        cellAtD_updateCell_ne g row col _ hrc
      have := hc r c hr' hcc'
      rw [hcell] at this
      exact this

theorem fillsTo_step_backward {menu : Nat → Nat → List Nat} {g t : Grid} {size : Nat}
    (hsq : GridSquare g size) (hnp : EmptyNotPuzzle g) {row col : Nat}
    (hrow : row < size) (hcol : col < size)
    (hempty : (cellAtD g row col).value = 0) (hft : FillsTo menu g t) :
    ∃ v ∈ menu row col, v ≠ 0 ∧ FillsTo menu (setCellValue g row col v) t ∧
      (cellAtD t row col).value = v := by
  obtain ⟨hs, hc⟩ := hft
  have hrg : row < g.length := by rw [hsq.1]; exact hrow
  have hcg : col < (g.getD row []).length := by rw [hsq.2 row hrow]; exact hcol
  obtain ⟨v, hvmenu, hv, hcell⟩ := (hc row col hrg hcg).2 hempty
  refine ⟨v, hvmenu, hv, ?_, by rw [hcell]; simp [setCellFields]⟩
  rw [setCellValue_write hsq hnp hrow hcol hempty]
  constructor
  · exact sameShape_trans hs (sameShape_symm (sameShape_updateCell g row col _))
  · intro r c hr' hcc'
    have hr : r < g.length := by rw [length_updateCell] at hr'; exact hr'
    have hcc : c < (g.getD r []).length := by rw [getD_updateCell_row] at hcc'; exact hcc'
    by_cases hrc : r = row ∧ c = col
    · obtain ⟨h1, h2⟩ := hrc
      subst h1
      subst h2
      have hcellU : cellAtD (updateCell g r c (fun cc => setCellFields cc v false)) r c =
          setCellFields (cellAtD g r c) v false := by
        rw [cellAtD_updateCell, if_pos ⟨rfl, rfl, hrg, hcg⟩]
      constructor
      · intro _
        rw [hcellU, hcell]
      · intro h0
        exfalso
        rw [hcellU] at h0
        simp [setCellFields] at h0
        exact hv h0
    · have hcellU : cellAtD (updateCell g row col
          (fun cc => setCellFields cc v false)) r c = cellAtD g r c :=
        cellAtD_updateCell_ne g row col _ hrc
      rw [hcellU]
      exact hc r c hr hcc

theorem fillsTo_value_pin {menu : Nat → Nat → List Nat} {g t : Grid} {size : Nat}
    (hsq : GridSquare g size) (hnp : EmptyNotPuzzle g) {row col v : Nat}
    (hrow : row < size) (hcol : col < size)
    (hempty : (cellAtD g row col).value = 0) (hv : v ≠ 0)
    (hft : FillsTo menu (setCellValue g row col v) t) :
    (cellAtD t row col).value = v := by
  rw [setCellValue_write hsq hnp hrow hcol hempty] at hft
  have hrg : row < g.length := by rw [hsq.1]; exact hrow
  have hcg : col < (g.getD row []).length := by rw [hsq.2 row hrow]; exact hcol
  have hcellU : cellAtD (updateCell g row col (fun cc => setCellFields cc v false))
      row col = setCellFields (cellAtD g row col) v false := by
    rw [cellAtD_updateCell, if_pos ⟨rfl, rfl, hrg, hcg⟩]
  have hr' : row < (updateCell g row col (fun c => setCellFields c v false)).length := by
    rw [length_updateCell]; exact hrg
  have hcc' : col < ((updateCell g row col
      (fun c => setCellFields c v false)).getD row []).length := by
    rw [getD_updateCell_row]; exact hcg
  have := (hft.2 row col hr' hcc').1 (by rw [hcellU]; simpa [setCellFields] using hv)
  rw [this, hcellU]
  simp [setCellFields]

theorem valAtD_carried {menu : Nat → Nat → List Nat} {g t : Grid}
    (hft : FillsTo menu g t) {p : Nat × Nat} (hnz : valAtD g p ≠ 0) :
    valAtD t p = valAtD g p := by
  have hir : p.1 < g.length ∧ p.2 < (g.getD p.1 []).length := by
    by_contra hoob
    exact hnz (by unfold valAtD; rw [cellAtD_oob hoob]; rfl)
  unfold valAtD
  rw [(hft.2 p.1 p.2 hir.1 hir.2).1 hnz]

theorem gridValid_of_fillsTo {menu : Nat → Nat → List Nat} {g t : Grid}
    {regions : List Region} (hft : FillsTo menu g t)
    (hv : GridValid t regions) : GridValid g regions := by
  intro reg hreg
  obtain ⟨hnd, hsum⟩ := hv reg hreg
  constructor
  · intro p hp hpz
    have hpv : valAtD t p = valAtD g p := valAtD_carried hft hpz
    have hmono : (reg.cells.filter fun q => decide (valAtD g q = valAtD g p)).length ≤
        (reg.cells.filter fun q => decide (valAtD t q = valAtD t p)).length := by
      rw [← List.countP_eq_length_filter, ← List.countP_eq_length_filter]
      apply List.countP_mono_left
      intro q hq hdq
      have hqv : valAtD g q = valAtD g p := of_decide_eq_true hdq
      have hqz : valAtD g q ≠ 0 := by rw [hqv]; exact hpz
      have hqc : valAtD t q = valAtD g q := valAtD_carried hft hqz
      simp [hqc, hqv, hpv]
    refine le_trans hmono (hnd p hp ?_)
    rw [hpv]
    exact hpz
  · unfold SumOk
    cases hso : reg.sum? with
    | none => trivial
    | some s =>
      intro hall
      have hcarry : ∀ p ∈ reg.cells, valAtD t p = valAtD g p := fun p hp =>
        valAtD_carried hft (hall p hp)
      have hmap : reg.cells.map (valAtD g) = reg.cells.map (valAtD t) :=
        List.map_congr_left fun p hp => (hcarry p hp).symm
      rw [hmap]
      unfold SumOk at hsum
      rw [hso] at hsum
      apply hsum
      intro p hp
      rw [hcarry p hp]
      exact hall p hp

/-! ### C3: characterization of the MRV cell selection -/

theorem buildEmptyInfos_ok (candFn : Nat → Nat → Except String (List Nat)) :
    ∀ coords : List (Nat × Nat),
      (∀ p ∈ coords, ∃ l, candFn p.1 p.2 = .ok l) →
      ∃ infos, buildEmptyInfos candFn coords = .ok infos ∧
        infos.length = coords.length ∧
        ∀ info ∈ infos, (info.row, info.col) ∈ coords ∧
          candFn info.row info.col = .ok info.candidates
  | [], _ => ⟨[], rfl, rfl, by simp⟩
  | (r, c) :: rest, h => by
    obtain ⟨l, hl⟩ := h (r, c) (by simp)
    obtain ⟨infos, hrun, hlen, hmem⟩ :=
      buildEmptyInfos_ok candFn rest fun p hp => h p (by simp [hp])
    refine ⟨{ row := r, col := c, candidates := l, count := l.length } :: infos, ?_, ?_, ?_⟩
    · unfold buildEmptyInfos
      rw [hl, hrun]
    · simpa using hlen
    · intro info hinfo
      rcases List.mem_cons.mp hinfo with hinfo | hinfo
      · subst hinfo
        exact ⟨by simp, hl⟩
      · obtain ⟨h1, h2⟩ := hmem info hinfo
        exact ⟨by simp [h1], h2⟩

theorem insertByCount_perm (x : CellCandidateInfo) :
    ∀ l : List CellCandidateInfo, (insertByCount x l).Perm (x :: l)
  | [] => List.Perm.refl _
  | y :: rest => by
    unfold insertByCount
    split
    · exact ((insertByCount_perm x rest).cons y).trans (List.Perm.swap x y rest)
    · exact List.Perm.refl _

theorem sortByCount_perm : ∀ l : List CellCandidateInfo, (sortByCount l).Perm l
  | [] => List.Perm.refl _
  | x :: rest => by
    unfold sortByCount
    exact (insertByCount_perm x (sortByCount rest)).trans
      ((sortByCount_perm rest).cons x)

theorem insertByDegreeDesc_perm (x : CellCandidateInfo) :
    ∀ l : List CellCandidateInfo, (insertByDegreeDesc x l).Perm (x :: l)
  | [] => List.Perm.refl _
  | y :: rest => by
    unfold insertByDegreeDesc
    split
    · exact ((insertByDegreeDesc_perm x rest).cons y).trans (List.Perm.swap x y rest)
    · exact List.Perm.refl _

theorem sortByDegreeDesc_perm :
    ∀ l : List CellCandidateInfo, (sortByDegreeDesc l).Perm l
  | [] => List.Perm.refl _
  | x :: rest => by
    unfold sortByDegreeDesc
    exact (insertByDegreeDesc_perm x (sortByDegreeDesc rest)).trans
      ((sortByDegreeDesc_perm rest).cons x)

theorem degreeFold_ok (g : Grid) (row col : Nat) :
    ∀ cells : List (Nat × Nat), (∀ p ∈ cells, InRange g p) →
      ∀ acc, ∃ acc', degreeFold g row col cells acc = .ok acc'
  | [], _, acc => ⟨acc, rfl⟩
  | q :: rest, h, acc => by
    unfold degreeFold
    by_cases hq : q.1 = row ∧ q.2 = col
    · rw [if_pos hq]
      exact degreeFold_ok g row col rest (fun p hp => h p (by simp [hp])) acc
    · rw [if_neg hq, cellAt_ok (h q (by simp))]
      exact degreeFold_ok g row col rest (fun p hp => h p (by simp [hp])) _

theorem degreeRegionsLoop_ok (g : Grid) (row col : Nat) :
    ∀ regions : List Region, (∀ reg ∈ regions, ∀ p ∈ reg.cells, InRange g p) →
      ∀ acc, ∃ acc', degreeRegionsLoop g row col regions acc = .ok acc'
  | [], _, acc => ⟨acc, rfl⟩
  | region :: rest, h, acc => by
    unfold degreeRegionsLoop
    obtain ⟨acc1, h1⟩ := degreeFold_ok g row col region.cells (h region (by simp)) acc
    rw [h1]
    exact degreeRegionsLoop_ok g row col rest
      (fun reg hreg p hp => h reg (by simp [hreg]) p hp) acc1

theorem calculateConstraintDegree_ok (g : Grid) (config : SudokuConfig) (row col : Nat)
    (hreg : RegionsInRange config) (hsq : GridSquare g config.size) :
    ∃ d, calculateConstraintDegree g config row col = .ok d := by
  unfold calculateConstraintDegree
  by_cases hz : config.regions.length = 0
  · rw [if_pos hz]
    exact ⟨0, rfl⟩
  · rw [if_neg hz]
    have hin : ∀ reg ∈ config.regions.filter fun region =>
        region.cells.any fun q => q.1 == row && q.2 == col,
        ∀ p ∈ reg.cells, InRange g p := by
      intro reg hregf p hp
      obtain ⟨h1, h2⟩ := hreg reg (List.mem_of_mem_filter hregf) p hp
      exact inRange_of_wf hsq h1 h2
    obtain ⟨acc', hrun⟩ := degreeRegionsLoop_ok g row col _ hin []
    rw [hrun]
    exact ⟨acc'.length, rfl⟩

theorem attachDegrees_ok (g : Grid) (config : SudokuConfig)
    (hreg : RegionsInRange config) (hsq : GridSquare g config.size) :
    ∀ l : List CellCandidateInfo, ∃ out, attachDegrees g config l = .ok out ∧
      out.length = l.length ∧
      ∀ info ∈ out, ∃ cell ∈ l, info.row = cell.row ∧ info.col = cell.col ∧
        info.candidates = cell.candidates
  | [] => ⟨[], rfl, rfl, by simp⟩
  | cell :: rest => by
    obtain ⟨d, hd⟩ := calculateConstraintDegree_ok g config cell.row cell.col hreg hsq
    obtain ⟨out, hout, hlen, hmem⟩ := attachDegrees_ok g config hreg hsq rest
    refine ⟨{ cell with constraintDegree := some d } :: out, ?_, by simpa using hlen, ?_⟩
    · unfold attachDegrees
      rw [hd, hout]
    · intro info hinfo
      rcases List.mem_cons.mp hinfo with h | h
      · exact ⟨cell, by simp, by simp [h]⟩
      · obtain ⟨c2, hc2, he⟩ := hmem info h
        exact ⟨c2, by simp [hc2], he⟩

/-- Characterization of `selectCellWithMRV`: under well-formedness it
never throws; it returns `none` exactly on grids without empty cells, and
otherwise some empty in-range cell together with its candidate list as
computed by the candidate function. -/
theorem selectCellWithMRV_spec (g : Grid) (config : SudokuConfig)
    (candFn : Nat → Nat → Except String (List Nat))
    (hreg : RegionsInRange config) (hsq : GridSquare g config.size)
    (hcand : ∀ p ∈ emptyCellCoords 0 g, ∃ l, candFn p.1 p.2 = .ok l) :
    (emptyCellCoords 0 g = [] ∧ selectCellWithMRV g config candFn = .ok none) ∨
    (∃ info, selectCellWithMRV g config candFn = .ok (some info) ∧
      (info.row, info.col) ∈ emptyCellCoords 0 g ∧
      candFn info.row info.col = .ok info.candidates) := by
  obtain ⟨infos, hrun, hlen, hmem⟩ := buildEmptyInfos_ok candFn (emptyCellCoords 0 g) hcand
  have hsel : selectCellWithMRV g config candFn =
      (if infos.isEmpty then .ok none
       else
        match sortByCount infos with
        | [] => .ok none
        | first :: sortedRest =>
          if first.count = 0 then .ok (some first)
          else
            let mrvCells := (first :: sortedRest).filter fun cell =>
              cell.count == first.count
            if mrvCells.length = 1 then .ok mrvCells.head?
            else breakTiesByDegreeHeuristic g config mrvCells) := by
    unfold selectCellWithMRV getAllEmptyCellsCandidates
    rw [hrun]
  cases hco : emptyCellCoords 0 g with
  | nil =>
    left
    refine ⟨rfl, ?_⟩
    rw [hsel]
    have : infos = [] := by
      rw [hco] at hlen
      exact List.length_eq_zero.mp (by simpa using hlen)
    rw [this]
    rfl
  | cons p0 prest =>
    right
    rw [hco] at hlen hmem
    have hne : infos ≠ [] := by
      intro h0
      rw [h0] at hlen
      simp at hlen
    rw [hsel, if_neg (by simpa using hne)]
    have hperm := sortByCount_perm infos
    cases hsort : sortByCount infos with
    | nil =>
      exfalso
      rw [hsort] at hperm
      exact hne (hperm.symm.eq_nil ▸ rfl)
    | cons first sortedRest =>
      dsimp only
      have hfirstmem : first ∈ infos := by
        have : first ∈ sortByCount infos := by rw [hsort]; simp
        exact (hperm.mem_iff).mp this
      by_cases hc0 : first.count = 0
      · rw [if_pos hc0]
        obtain ⟨h1, h2⟩ := hmem first hfirstmem
        exact ⟨first, rfl, h1, h2⟩
      · rw [if_neg hc0]
        set mrvCells := (first :: sortedRest).filter fun cell =>
          cell.count == first.count with hmrv
        have hmrvne : mrvCells ≠ [] := by
          have : first ∈ mrvCells := by
            rw [hmrv]
            apply List.mem_filter.mpr
            exact ⟨by simp, by simp⟩
          intro h0
          rw [h0] at this
          exact absurd this (by simp)
        have hmrvsub : ∀ info ∈ mrvCells, info ∈ infos := by
          intro info hinfo
          have h1 : info ∈ first :: sortedRest := List.mem_of_mem_filter hinfo
          rw [← hsort] at h1
          exact hperm.mem_iff.mp h1
        by_cases hone : mrvCells.length = 1
        · rw [if_pos hone]
          cases hh : mrvCells.head? with
          | none => exact absurd (List.head?_eq_none_iff.mp hh) hmrvne
          | some m =>
            have hmmem : m ∈ infos := hmrvsub m (List.mem_of_mem_head? (by rw [hh]; rfl))
            obtain ⟨h1, h2⟩ := hmem m hmmem
            exact ⟨m, rfl, h1, h2⟩
        · rw [if_neg hone]
          unfold breakTiesByDegreeHeuristic
          obtain ⟨out, hout, holen, homem⟩ := attachDegrees_ok g config hreg hsq mrvCells
          rw [hout]
          dsimp only
          have houtne : out ≠ [] := by
            intro h0
            rw [h0] at holen
            exact hmrvne (List.length_eq_zero.mp holen.symm)
          have hperm2 := sortByDegreeDesc_perm out
          cases hsd : sortByDegreeDesc out with
          | nil =>
            exfalso
            rw [hsd] at hperm2
            exact houtne (hperm2.symm.eq_nil ▸ rfl)
          | cons info irest =>
            have hinfomem : info ∈ out := by
              have : info ∈ sortByDegreeDesc out := by rw [hsd]; simp
              exact hperm2.mem_iff.mp this
            obtain ⟨cell, hcellmem, he1, he2, he3⟩ := homem info hinfomem
            obtain ⟨h1, h2⟩ := hmem cell (hmrvsub cell hcellmem)
            refine ⟨info, rfl, ?_, ?_⟩
            · rw [he1, he2]
              exact h1
            · rw [he1, he2, he3]
              exact h2

/-! ### C3: the search trees of the two solver strategies -/

/-- The candidate list an `Except`-valued candidate function yields
(empty on a throw; only consulted where the function is proven to
succeed). -/
def menuOf (candFn : Nat → Nat → Except String (List Nat)) (r c : Nat) : List Nat :=
  match candFn r c with
  | .ok l => l
  | .error _ => []

/-- The complete-solution list the MRV solver's search tree enumerates
(in discovery order). -/
def compsMRV (config : SudokuConfig)
    (candFn : Nat → Nat → Except String (List Nat)) : Nat → Grid → List Grid
  | 0, _ => []
  | fuel + 1, g =>
    match selectCellWithMRV g config candFn with
    | .error _ => []
    | .ok none => if GridValid g config.regions then [g] else []
    | .ok (some info) =>
      info.candidates.flatMap fun v =>
        compsMRV config candFn fuel (setCellValue g info.row info.col v)

/-- The complete-solution list the simple solver's search tree
enumerates (first-empty cell, ascending values, per-node validity
pruning). -/
def compsSimple (config : SudokuConfig)
    (candFn : Nat → Nat → Except String (List Nat)) : Nat → Grid → List Grid
  | 0, _ => []
  | fuel + 1, g =>
    if GridValid g config.regions then
      match findFirstEmpty g with
      | none => [g]
      | some (r, c) =>
        match candFn r c with
        | .error _ => []
        | .ok cands =>
          ((List.range' 1 config.size).filter fun v => decide (v ∈ cands)).flatMap
            fun v => compsSimple config candFn fuel (setCellValue g r c v)
    else []

/-- Reference enumeration of the valid completions of a puzzle, following
the specification's reference mode: first empty cell in row-major order,
ascending values `1..size`, validity at complete grids. -/
def refCompletions (config : SudokuConfig) : Nat → Grid → List Grid
  | 0, _ => []
  | fuel + 1, g =>
    match findFirstEmpty g with
    | none => if GridValid g config.regions then [g] else []
    | some (r, c) =>
      (List.range' 1 config.size).flatMap fun v =>
        refCompletions config fuel (setCellValue g r c v)

theorem gridSquare_setCellValue {g : Grid} {size : Nat} (hsq : GridSquare g size)
    (row col v : Nat) (ep : Bool) :
    GridSquare (setCellValue g row col v ep) size := by
  rcases setCellValue_cases g row col v ep with he | he
  · rw [he]
    exact hsq
  · rw [he]
    exact gridSquare_updateCell hsq row col _

theorem emptyNotPuzzle_setCellValue {g : Grid} (hnp : EmptyNotPuzzle g)
    (row col v : Nat) :
    EmptyNotPuzzle (setCellValue g row col v false) := by
  rcases setCellValue_cases g row col v false with he | he
  · rw [he]
    exact hnp
  · rw [he]
    exact emptyNotPuzzle_updateCell hnp row col v

theorem empties_decrement {g : Grid} {size : Nat} (hsq : GridSquare g size)
    (hnp : EmptyNotPuzzle g) {row col v : Nat} (hrow : row < size) (hcol : col < size)
    (hempty : (cellAtD g row col).value = 0) (hv : v ≠ 0) :
    (emptyCellCoords 0 (setCellValue g row col v)).length + 1 =
      (emptyCellCoords 0 g).length := by
  rw [setCellValue_write hsq hnp hrow hcol hempty]
  have h1 := emptyCellCoords_length_add
    (updateCell g row col fun c => setCellFields c v false) 0
  have h2 := emptyCellCoords_length_add g 0
  have h3 := countGivens_updateCell_exact g row col (fun c => setCellFields c v false)
    (by rw [hsq.1]; exact hrow)
    (by rw [hsq.2 row hrow]; exact hcol) hempty
    (fun cell => by simpa [setCellFields] using hv)
  have h4 := totalCells_updateCell g row col (fun c => setCellFields c v false)
  omega

theorem solverPrologue_of_none (clock : Nat → Int) (ctx : BacktrackingContext)
    (htt : ctx.timeoutTimestamp = none) (st : SolveState) :
    solverPrologue clock ctx st =
      (false, { st with recursionCounter := st.recursionCounter + 1 }) := by
  unfold solverPrologue
  rw [htt]

theorem stepInterrupted_of_none (ctx : BacktrackingContext)
    (hop : ctx.onProgress = none) (row col v : Nat) :
    stepInterrupted ctx row col v = false := by
  unfold stepInterrupted
  rw [hop]

theorem recordSolutionMRV_of_none (ctx : BacktrackingContext)
    (hop : ctx.onProgress = none) (g : Grid) (st : SolveState) :
    recordSolutionMRV ctx g st =
      if (st.solutions ++ [cloneGrid g]).length ≥ ctx.maxSolutions
      then (true, { st with solutions := st.solutions ++ [cloneGrid g] })
      else (!ctx.findAllSolutions,
        { st with solutions := st.solutions ++ [cloneGrid g] }) := by
  unfold recordSolutionMRV
  rw [hop]
  dsimp only
  rw [if_neg (by simp)]

theorem recordSolutionSimple_of_none (ctx : BacktrackingContext)
    (hop : ctx.onProgress = none) (g : Grid) (st : SolveState) :
    recordSolutionSimple ctx g st =
      (!ctx.findAllSolutions, { st with solutions := st.solutions ++ [cloneGrid g] }) := by
  unfold recordSolutionSimple
  rw [hop]
  dsimp only
  rw [if_neg (by simp)]

theorem tryCandidatesLoop_run (clock : Nat → Int) (ctx : BacktrackingContext)
    (hfa : ctx.findAllSolutions = true) (hop : ctx.onProgress = none)
    (solve : Grid → SolveState → Except String (Bool × SolveState))
    (comps : Grid → List Grid) (g : Grid) (row col : Nat)
    (hsolve : ∀ g2 st2, GridSquare g2 ctx.config.size → EmptyNotPuzzle g2 →
      st2.interrupted = false →
      st2.solutions.length + (comps g2).length ≤ ctx.maxSolutions →
      ∃ b st2', solve g2 st2 = .ok (b, st2') ∧
        st2'.solutions = st2.solutions ++ comps g2 ∧ st2'.interrupted = false)
    (hsq : GridSquare g ctx.config.size) (hnp : EmptyNotPuzzle g) :
    ∀ (values : List Nat) (st : SolveState),
      st.interrupted = false →
      st.solutions.length +
        ((values.flatMap fun v => comps (setCellValue g row col v)).length) ≤
        ctx.maxSolutions →
      ∃ r st', tryCandidatesLoop solve ctx g row col values st = .ok (r, st') ∧
        st'.solutions = st.solutions ++
          (values.flatMap fun v => comps (setCellValue g row col v)) ∧
        st'.interrupted = false
  | [], st, hint, hcap => ⟨none, st, rfl, by simp, hint⟩
  | v :: rest, st, hint, hcap => by
    unfold tryCandidatesLoop
    dsimp only
    rw [stepInterrupted_of_none ctx hop row col v, if_neg (by simp)]
    have hflat : (v :: rest).flatMap (fun w => comps (setCellValue g row col w)) =
        comps (setCellValue g row col v) ++
          rest.flatMap fun w => comps (setCellValue g row col w) := by
      simp
    obtain ⟨b2, st2, hrun2, hsols2, hint2⟩ :=
      hsolve (setCellValue g row col v) (bumpAssignments st)
        (gridSquare_setCellValue hsq row col v false)
        (emptyNotPuzzle_setCellValue hnp row col v)
        (by simpa [bumpAssignments] using hint)
        (by
          rw [hflat] at hcap
          simp only [List.length_append] at hcap
          simp [bumpAssignments]
          omega)
    rw [hrun2]
    dsimp only
    rw [if_neg (by simp [hfa])]
    have hsols2' : st2.solutions = st.solutions ++ comps (setCellValue g row col v) := by
      rw [hsols2]
      simp [bumpAssignments]
    by_cases hge : st2.solutions.length ≥ ctx.maxSolutions
    · rw [if_pos (by simp [hint2, hge])]
      refine ⟨some false, st2, rfl, ?_, hint2⟩
      have hrest0 : (rest.flatMap fun w => comps (setCellValue g row col w)).length = 0 := by
        rw [hflat] at hcap
        rw [hsols2'] at hge
        simp only [List.length_append] at hcap hge
        omega
      rw [hflat, hsols2', List.length_eq_zero.mp hrest0]
      simp
    · rw [if_neg (by simp [hint2, hge])]
      obtain ⟨r, st', hrun', hsols', hint'⟩ :=
        tryCandidatesLoop_run clock ctx hfa hop solve comps g row col hsolve hsq hnp
          rest st2 hint2
          (by
            rw [hflat] at hcap
            rw [hsols2']
            simp only [List.length_append] at hcap ⊢
            omega)
      refine ⟨r, st', hrun', ?_, hint'⟩
      rw [hsols', hsols2', hflat, List.append_assoc]

/-- The MRV solver, run with `findAllSolutions`, no callback and no
deadline, and a `maxSolutions` cap of at least the number of completions
its tree enumerates, returns exactly its tree's solution list appended to
the incoming one. -/
theorem solveBT_run (clock : Nat → Int) (ctx : BacktrackingContext)
    (hfa : ctx.findAllSolutions = true) (hop : ctx.onProgress = none)
    (htt : ctx.timeoutTimestamp = none)
    (hreg : RegionsInRange ctx.config)
    (hcensym : ∀ r c, r < ctx.config.size → c < ctx.config.size →
      ∃ l, ctx.getCandidatesForCell r c = .ok l) :
    ∀ (fuel : Nat) (g : Grid) (st : SolveState),
      GridSquare g ctx.config.size → EmptyNotPuzzle g →
      st.interrupted = false →
      st.solutions.length +
        (compsMRV ctx.config ctx.getCandidatesForCell fuel g).length ≤
        ctx.maxSolutions →
      ∃ b st', solveWithBacktracking clock fuel g ctx st = .ok (b, st') ∧
        st'.solutions = st.solutions ++
          compsMRV ctx.config ctx.getCandidatesForCell fuel g ∧
        st'.interrupted = false
  | 0, g, st, hsq, hnp, hint, hcap => ⟨false, st, rfl, by simp [compsMRV], hint⟩
  | fuel + 1, g, st, hsq, hnp, hint, hcap => by
    unfold solveWithBacktracking
    rw [solverPrologue_of_none clock ctx htt st]
    dsimp only
    rw [if_neg (by simp), if_neg (by simp [hint])]
    have hcand : ∀ p ∈ emptyCellCoords 0 g, ∃ l, ctx.getCandidatesForCell p.1 p.2 = .ok l := by
      intro p hp
      obtain ⟨h1, h2, _⟩ := (mem_emptyCellCoords g p).mp hp
      refine hcensym p.1 p.2 (by rw [← hsq.1]; exact h1) ?_
      rw [← hsq.2 p.1 (by rw [← hsq.1]; exact h1)]
      exact h2
    have hvin : ∀ reg ∈ ctx.config.regions, ∀ p ∈ reg.cells, InRange g p := by
      intro reg hr p hp
      obtain ⟨h1, h2⟩ := hreg reg hr p hp
      exact inRange_of_wf hsq h1 h2
    obtain ⟨res, hvrun, hviff⟩ := validateAllRegions_ok g ctx.config.regions hvin
    rcases selectCellWithMRV_spec g ctx.config ctx.getCandidatesForCell hreg hsq hcand with
      ⟨hco, hrunsel⟩ | ⟨info, hrunsel, hmemco, hcandinfo⟩
    · rw [hrunsel]
      dsimp only
      have hcomps : compsMRV ctx.config ctx.getCandidatesForCell (fuel + 1) g =
          if GridValid g ctx.config.regions then [g] else [] := by
        unfold compsMRV
        rw [hrunsel]
      rw [hvrun]
      dsimp only
      by_cases hvalid : GridValid g ctx.config.regions
      · have hresv : res.isValid = true := hviff.mpr hvalid
        rw [if_neg (by simp [hresv])]
        rw [recordSolutionMRV_of_none ctx hop g _]
        rw [hcomps, if_pos hvalid]
        rw [cloneGrid_eq]
        by_cases hgecap : (st.solutions ++ [g]).length ≥ ctx.maxSolutions
        · rw [if_pos hgecap]
          exact ⟨true, _, rfl, by simp [hint], by simp [hint]⟩
        · rw [if_neg hgecap]
          exact ⟨!ctx.findAllSolutions, _, rfl, by simp [hint], by simp [hint]⟩
      · have hresv : res.isValid = false := by
          cases h : res.isValid with
          | false => rfl
          | true => exact absurd (hviff.mp h) hvalid
        rw [if_pos (by simp [hresv])]
        rw [hcomps, if_neg hvalid]
        exact ⟨false, _, rfl, by simp [bumpBacktracks, hint], by simp [bumpBacktracks, hint]⟩
    · rw [hrunsel]
      dsimp only
      have hcomps : compsMRV ctx.config ctx.getCandidatesForCell (fuel + 1) g =
          info.candidates.flatMap fun v =>
            compsMRV ctx.config ctx.getCandidatesForCell fuel
              (setCellValue g info.row info.col v) := by
        conv_lhs => rw [compsMRV]
        rw [hrunsel]
      by_cases hl0 : info.candidates.length = 0
      · rw [if_pos hl0]
        have : info.candidates = [] := List.length_eq_zero.mp hl0
        rw [hcomps, this]
        exact ⟨false, _, rfl, by simp [bumpBacktracks, hint], by simp [bumpBacktracks, hint]⟩
      · rw [if_neg hl0]
        obtain ⟨r, st2, hlooprun, hsols, hint2⟩ :=
          tryCandidatesLoop_run clock ctx hfa hop
            (fun g2 s => solveWithBacktracking clock fuel g2 ctx s)
            (compsMRV ctx.config ctx.getCandidatesForCell fuel) g info.row info.col
            (fun g2 st2 hsq2 hnp2 hint2 hcap2 =>
              solveBT_run clock ctx hfa hop htt hreg hcensym fuel g2 st2 hsq2 hnp2
                hint2 hcap2)
            hsq hnp info.candidates
            { st with recursionCounter := st.recursionCounter + 1 }
            (by simpa using hint)
            (by
              rw [hcomps] at hcap
              simpa using hcap)
        rw [hlooprun]
        cases r with
        | some b =>
          refine ⟨b, st2, rfl, ?_, hint2⟩
          rw [hsols, hcomps]
        | none =>
          refine ⟨false, bumpBacktracks st2, rfl, ?_, by simp [bumpBacktracks, hint2]⟩
          rw [show (bumpBacktracks st2).solutions = st2.solutions from rfl, hsols, hcomps]

theorem simpleTryNums_run (ctx : BacktrackingContext)
    (hop : ctx.onProgress = none)
    (solve : Grid → SolveState → Except String (Bool × SolveState))
    (comps : Grid → List Grid) (g : Grid) (row col : Nat)
    {cands : List Nat} (hcands : ctx.getCandidatesForCell row col = .ok cands)
    (hsolve : ∀ g2 st2, GridSquare g2 ctx.config.size → EmptyNotPuzzle g2 →
      st2.interrupted = false →
      st2.solutions.length + (comps g2).length ≤ ctx.maxSolutions →
      ∃ st2', solve g2 st2 = .ok (false, st2') ∧
        st2'.solutions = st2.solutions ++ comps g2 ∧ st2'.interrupted = false)
    (hsq : GridSquare g ctx.config.size) (hnp : EmptyNotPuzzle g) :
    ∀ (nums : List Nat) (st : SolveState),
      st.interrupted = false →
      st.solutions.length +
        (((nums.filter fun v => decide (v ∈ cands)).flatMap
          fun v => comps (setCellValue g row col v)).length) ≤ ctx.maxSolutions →
      ∃ r st', simpleTryNums solve ctx g row col nums st = .ok (r, st') ∧
        (r = none ∨ r = some false) ∧
        st'.solutions = st.solutions ++
          ((nums.filter fun v => decide (v ∈ cands)).flatMap
            fun v => comps (setCellValue g row col v)) ∧
        st'.interrupted = false
  | [], st, hint, hcap => ⟨none, st, rfl, .inl rfl, by simp, hint⟩
  | num :: rest, st, hint, hcap => by
    unfold simpleTryNums
    rw [hcands]
    dsimp only
    by_cases hm : num ∈ cands
    · rw [if_neg (by simpa using hm)]
      rw [stepInterrupted_of_none ctx hop row col num, if_neg (by simp)]
      have hfilter : (num :: rest).filter (fun v => decide (v ∈ cands)) =
          num :: rest.filter fun v => decide (v ∈ cands) := by
        rw [List.filter_cons, if_pos (by simpa using hm)]
      have hflat : ((num :: rest).filter fun v => decide (v ∈ cands)).flatMap
          (fun w => comps (setCellValue g row col w)) =
          comps (setCellValue g row col num) ++
            (rest.filter fun v => decide (v ∈ cands)).flatMap
              fun w => comps (setCellValue g row col w) := by
        rw [hfilter]
        simp
      obtain ⟨st2, hrun2, hsols2, hint2⟩ :=
        hsolve (setCellValue g row col num) (bumpAssignments st)
          (gridSquare_setCellValue hsq row col num false)
          (emptyNotPuzzle_setCellValue hnp row col num)
          (by simpa [bumpAssignments] using hint)
          (by
            rw [hflat] at hcap
            simp only [List.length_append] at hcap
            simp [bumpAssignments]
            omega)
      rw [hrun2]
      dsimp only
      rw [if_neg (by simp)]
      have hsols2' : st2.solutions = st.solutions ++ comps (setCellValue g row col num) := by
        rw [hsols2]
        simp [bumpAssignments]
      by_cases hge : st2.solutions.length ≥ ctx.maxSolutions
      · rw [if_pos (by simp [hint2, hge])]
        refine ⟨some false, st2, rfl, .inr rfl, ?_, hint2⟩
        have hrest0 : ((rest.filter fun v => decide (v ∈ cands)).flatMap
            fun w => comps (setCellValue g row col w)).length = 0 := by
          rw [hflat] at hcap
          rw [hsols2'] at hge
          simp only [List.length_append] at hcap hge
          omega
        rw [hflat, hsols2', List.length_eq_zero.mp hrest0]
        simp
      · rw [if_neg (by simp [hint2, hge])]
        obtain ⟨r, st', hrun', hr, hsols', hint'⟩ :=
          simpleTryNums_run ctx hop solve comps g row col hcands hsolve hsq hnp
            rest st2 hint2
            (by
              rw [hflat] at hcap
              rw [hsols2']
              simp only [List.length_append] at hcap ⊢
              omega)
        refine ⟨r, st', hrun', hr, ?_, hint'⟩
        rw [hsols', hsols2', hflat, List.append_assoc]
    · rw [if_pos (by simpa using hm)]
      have hfilter : (num :: rest).filter (fun v => decide (v ∈ cands)) =
          rest.filter fun v => decide (v ∈ cands) := by
        rw [List.filter_cons, if_neg (by simpa using hm)]
      obtain ⟨r, st', hrun', hr, hsols', hint'⟩ :=
        simpleTryNums_run ctx hop solve comps g row col hcands hsolve hsq hnp
          rest st hint (by rw [hfilter] at hcap; exact hcap)
      refine ⟨r, st', hrun', hr, ?_, hint'⟩
      rw [hsols', hfilter]

/-- The simple solver, run with `findAllSolutions`, no callback and no
deadline, and a sufficient `maxSolutions` cap, returns `false` and
exactly its tree's solution list appended to the incoming one. -/
theorem solveSimple_run (clock : Nat → Int) (ctx : BacktrackingContext)
    (hfa : ctx.findAllSolutions = true) (hop : ctx.onProgress = none)
    (htt : ctx.timeoutTimestamp = none)
    (hreg : RegionsInRange ctx.config)
    (hcensym : ∀ r c, r < ctx.config.size → c < ctx.config.size →
      ∃ l, ctx.getCandidatesForCell r c = .ok l) :
    ∀ (fuel : Nat) (g : Grid) (st : SolveState),
      GridSquare g ctx.config.size → EmptyNotPuzzle g →
      st.interrupted = false →
      st.solutions.length +
        (compsSimple ctx.config ctx.getCandidatesForCell fuel g).length ≤
        ctx.maxSolutions →
      ∃ st', solveWithSimpleBacktracking clock fuel g ctx st = .ok (false, st') ∧
        st'.solutions = st.solutions ++
          compsSimple ctx.config ctx.getCandidatesForCell fuel g ∧
        st'.interrupted = false
  | 0, g, st, hsq, hnp, hint, hcap => ⟨st, rfl, by simp [compsSimple], hint⟩
  | fuel + 1, g, st, hsq, hnp, hint, hcap => by
    unfold solveWithSimpleBacktracking
    rw [solverPrologue_of_none clock ctx htt st]
    dsimp only
    rw [if_neg (by simp), if_neg (by simp [hint])]
    have hvin : ∀ reg ∈ ctx.config.regions, ∀ p ∈ reg.cells, InRange g p := by
      intro reg hr p hp
      obtain ⟨h1, h2⟩ := hreg reg hr p hp
      exact inRange_of_wf hsq h1 h2
    obtain ⟨res, hvrun, hviff⟩ := validateAllRegions_ok g ctx.config.regions hvin
    rw [hvrun]
    dsimp only
    by_cases hvalid : GridValid g ctx.config.regions
    · have hresv : res.isValid = true := hviff.mpr hvalid
      rw [if_neg (by simp [hresv])]
      cases hff : findFirstEmpty g with
      | none =>
        dsimp only
        rw [if_neg (by simp [hresv])]
        rw [recordSolutionSimple_of_none ctx hop g _]
        have hcomps : compsSimple ctx.config ctx.getCandidatesForCell (fuel + 1) g =
            [g] := by
          conv_lhs => rw [compsSimple]
          rw [if_pos hvalid, hff]
        refine ⟨_, by rw [hfa]; exact rfl, ?_, by simp [hint]⟩
        rw [hcomps]
        simp [cloneGrid_eq, hint]
      | some rc =>
        obtain ⟨row, col⟩ := rc
        dsimp only
        have hmemco : (row, col) ∈ emptyCellCoords 0 g := by
          have hh : (emptyCellCoords 0 g).head? = some (row, col) := hff
          exact List.mem_of_mem_head? (by rw [hh]; rfl)
        obtain ⟨h1, h2, _⟩ := (mem_emptyCellCoords g (row, col)).mp hmemco
        have hrlt : row < ctx.config.size := by rw [← hsq.1]; exact h1
        have hclt : col < ctx.config.size := by
          rw [← hsq.2 row hrlt]
          exact h2
        obtain ⟨cands, hcands⟩ := hcensym row col hrlt hclt
        have hcomps : compsSimple ctx.config ctx.getCandidatesForCell (fuel + 1) g =
            ((List.range' 1 ctx.config.size).filter fun v => decide (v ∈ cands)).flatMap
              fun v => compsSimple ctx.config ctx.getCandidatesForCell fuel
                (setCellValue g row col v) := by
          conv_lhs => rw [compsSimple]
          rw [if_pos hvalid, hff]
          dsimp only
          rw [hcands]
        obtain ⟨r, st2, hlooprun, hr, hsols, hint2⟩ :=
          simpleTryNums_run ctx hop
            (fun g2 s => solveWithSimpleBacktracking clock fuel g2 ctx s)
            (compsSimple ctx.config ctx.getCandidatesForCell fuel) g row col hcands
            (fun g2 st2 hsq2 hnp2 hint2 hcap2 =>
              solveSimple_run clock ctx hfa hop htt hreg hcensym fuel g2 st2 hsq2 hnp2
                hint2 hcap2)
            hsq hnp (List.range' 1 ctx.config.size)
            { st with recursionCounter := st.recursionCounter + 1 }
            (by simpa using hint)
            (by
              rw [hcomps] at hcap
              simpa using hcap)
        rw [hlooprun]
        rcases hr with hr | hr
        · subst hr
          refine ⟨bumpBacktracks st2, rfl, ?_, by simp [bumpBacktracks, hint2]⟩
          rw [show (bumpBacktracks st2).solutions = st2.solutions from rfl, hsols, hcomps]
        · subst hr
          refine ⟨st2, rfl, ?_, hint2⟩
          rw [hsols, hcomps]
    · have hresv : res.isValid = false := by
        cases h : res.isValid with
        | false => rfl
        | true => exact absurd (hviff.mp h) hvalid
      rw [if_pos (by simp [hresv])]
      have hcomps : compsSimple ctx.config ctx.getCandidatesForCell (fuel + 1) g = [] := by
        conv_lhs => rw [compsSimple]
        rw [if_neg hvalid]
      refine ⟨_, rfl, ?_, by simp [bumpBacktracks, hint]⟩
      rw [hcomps]
      simp [bumpBacktracks]

/-! ### C3: membership characterizations of the three search trees -/

theorem menuOf_eq {candFn : Nat → Nat → Except String (List Nat)} {r c : Nat}
    {l : List Nat} (h : candFn r c = .ok l) : menuOf candFn r c = l := by
  unfold menuOf
  rw [h]

/-- Membership in the MRV solver's tree is completion plus validity. -/
theorem mem_compsMRV (config : SudokuConfig)
    (candFn : Nat → Nat → Except String (List Nat))
    (hreg : RegionsInRange config)
    (hmenu : ∀ r c, r < config.size → c < config.size →
      ∃ l, candFn r c = .ok l ∧ l.Sublist (List.range' 1 config.size)) :
    ∀ (fuel : Nat) (g : Grid), GridSquare g config.size → EmptyNotPuzzle g →
      (emptyCellCoords 0 g).length + 1 ≤ fuel →
      ∀ t, t ∈ compsMRV config candFn fuel g ↔
        (FillsTo (menuOf candFn) g t ∧ GridValid t config.regions)
  | 0, g, hsq, hnp, hfuel => absurd hfuel (by omega)
  | fuel + 1, g, hsq, hnp, hfuel => by
    intro t
    have hcand : ∀ p ∈ emptyCellCoords 0 g, ∃ l, candFn p.1 p.2 = .ok l := by
      intro p hp
      obtain ⟨h1, h2, _⟩ := (mem_emptyCellCoords g p).mp hp
      have hr : p.1 < config.size := by rw [← hsq.1]; exact h1
      have hc : p.2 < config.size := by rw [← hsq.2 p.1 hr]; exact h2
      obtain ⟨l, hl, _⟩ := hmenu p.1 p.2 hr hc
      exact ⟨l, hl⟩
    rcases selectCellWithMRV_spec g config candFn hreg hsq hcand with
      ⟨hco, hrunsel⟩ | ⟨info, hrunsel, hmemco, hcandinfo⟩
    · have hcomps : compsMRV config candFn (fuel + 1) g =
          if GridValid g config.regions then [g] else [] := by
        conv_lhs => rw [compsMRV]
        rw [hrunsel]
      rw [hcomps]
      by_cases hvalid : GridValid g config.regions
      · rw [if_pos hvalid]
        constructor
        · intro ht
          have : t = g := by simpa using ht
          subst this
          exact ⟨(fillsTo_of_no_empty hco).mpr rfl, hvalid⟩
        · rintro ⟨hft, _⟩
          simp [(fillsTo_of_no_empty hco).mp hft]
      · rw [if_neg hvalid]
        constructor
        · intro ht
          exact absurd ht (by simp)
        · rintro ⟨hft, hvt⟩
          have : t = g := (fillsTo_of_no_empty hco).mp hft
          subst this
          exact absurd hvt hvalid
    · have hcomps : compsMRV config candFn (fuel + 1) g =
          info.candidates.flatMap fun v =>
            compsMRV config candFn fuel (setCellValue g info.row info.col v) := by
        conv_lhs => rw [compsMRV]
        rw [hrunsel]
      obtain ⟨h1, h2, hempty⟩ := (mem_emptyCellCoords g (info.row, info.col)).mp hmemco
      have hrlt : info.row < config.size := by rw [← hsq.1]; exact h1
      have hclt : info.col < config.size := by rw [← hsq.2 info.row hrlt]; exact h2
      obtain ⟨l, hl, hsub⟩ := hmenu info.row info.col hrlt hclt
      have hle : l = info.candidates := by
        rw [hl] at hcandinfo
        exact Except.ok.inj hcandinfo
      subst hle
      have hmenuEq : menuOf candFn info.row info.col = info.candidates := menuOf_eq hl
      have hvfacts : ∀ v ∈ info.candidates, v ≠ 0 ∧ v ≤ config.size := by
        intro v hv
        have := List.mem_range'_1.mp (hsub.subset hv)
        omega
      rw [hcomps, List.mem_flatMap]
      constructor
      · rintro ⟨v, hvmem, hmem⟩
        obtain ⟨hv0, hvsz⟩ := hvfacts v hvmem
        have hih := mem_compsMRV config candFn hreg hmenu fuel
          (setCellValue g info.row info.col v)
          (gridSquare_setCellValue hsq info.row info.col v false)
          (emptyNotPuzzle_setCellValue hnp info.row info.col v)
          (by
            have := empties_decrement hsq hnp hrlt hclt hempty hv0
            omega) t
        obtain ⟨hft, hvt⟩ := hih.mp hmem
        refine ⟨?_, hvt⟩
        exact fillsTo_step_forward hsq hnp hrlt hclt hempty hv0
          (by rw [hmenuEq]; exact hvmem) hft
      · rintro ⟨hft, hvt⟩
        obtain ⟨v, hvmenu, hv0, hft', _⟩ :=
          fillsTo_step_backward hsq hnp hrlt hclt hempty hft
        rw [hmenuEq] at hvmenu
        refine ⟨v, hvmenu, ?_⟩
        have hih := mem_compsMRV config candFn hreg hmenu fuel
          (setCellValue g info.row info.col v)
          (gridSquare_setCellValue hsq info.row info.col v false)
          (emptyNotPuzzle_setCellValue hnp info.row info.col v)
          (by
            have := empties_decrement hsq hnp hrlt hclt hempty hv0
            omega) t
        exact hih.mpr ⟨hft', hvt⟩

/-- Membership in the simple solver's tree is the same completion plus
validity (per-node pruning only removes branches without valid
completions, and the value filter matches the menus). -/
theorem mem_compsSimple (config : SudokuConfig)
    (candFn : Nat → Nat → Except String (List Nat))
    (hreg : RegionsInRange config)
    (hmenu : ∀ r c, r < config.size → c < config.size →
      ∃ l, candFn r c = .ok l ∧ l.Sublist (List.range' 1 config.size)) :
    ∀ (fuel : Nat) (g : Grid), GridSquare g config.size → EmptyNotPuzzle g →
      (emptyCellCoords 0 g).length + 1 ≤ fuel →
      ∀ t, t ∈ compsSimple config candFn fuel g ↔
        (FillsTo (menuOf candFn) g t ∧ GridValid t config.regions)
  | 0, g, hsq, hnp, hfuel => absurd hfuel (by omega)
  | fuel + 1, g, hsq, hnp, hfuel => by
    intro t
    by_cases hvalid : GridValid g config.regions
    · cases hff : findFirstEmpty g with
      | none =>
        have hco : emptyCellCoords 0 g = [] := List.head?_eq_none_iff.mp hff
        have hcomps : compsSimple config candFn (fuel + 1) g = [g] := by
          conv_lhs => rw [compsSimple]
          rw [if_pos hvalid, hff]
        rw [hcomps]
        constructor
        · intro ht
          have : t = g := by simpa using ht
          subst this
          exact ⟨(fillsTo_of_no_empty hco).mpr rfl, hvalid⟩
        · rintro ⟨hft, _⟩
          simp [(fillsTo_of_no_empty hco).mp hft]
      | some rc =>
        obtain ⟨row, col⟩ := rc
        have hmemco : (row, col) ∈ emptyCellCoords 0 g := by
          have hh : (emptyCellCoords 0 g).head? = some (row, col) := hff
          exact List.mem_of_mem_head? (by rw [hh]; rfl)
        obtain ⟨h1, h2, hempty⟩ := (mem_emptyCellCoords g (row, col)).mp hmemco
        have hrlt : row < config.size := by rw [← hsq.1]; exact h1
        have hclt : col < config.size := by rw [← hsq.2 row hrlt]; exact h2
        obtain ⟨l, hl, hsub⟩ := hmenu row col hrlt hclt
        have hmenuEq : menuOf candFn row col = l := menuOf_eq hl
        have hvfacts : ∀ v ∈ l, v ≠ 0 ∧ v ≤ config.size := by
          intro v hv
          have := List.mem_range'_1.mp (hsub.subset hv)
          omega
        have hcomps : compsSimple config candFn (fuel + 1) g =
            ((List.range' 1 config.size).filter fun v => decide (v ∈ l)).flatMap
              fun v => compsSimple config candFn fuel (setCellValue g row col v) := by
          conv_lhs => rw [compsSimple]
          rw [if_pos hvalid, hff]
          dsimp only
          rw [hl]
        have hlst : ∀ v, (v ∈ (List.range' 1 config.size).filter
            fun v => decide (v ∈ l)) ↔ v ∈ l := by
          intro v
          rw [List.mem_filter]
          constructor
          · rintro ⟨_, hd⟩
            simpa using hd
          · intro hv
            exact ⟨hsub.subset hv, by simpa using hv⟩
        rw [hcomps, List.mem_flatMap]
        constructor
        · rintro ⟨v, hvmem, hmem⟩
          rw [hlst v] at hvmem
          obtain ⟨hv0, hvsz⟩ := hvfacts v hvmem
          have hih := mem_compsSimple config candFn hreg hmenu fuel
            (setCellValue g row col v)
            (gridSquare_setCellValue hsq row col v false)
            (emptyNotPuzzle_setCellValue hnp row col v)
            (by
              have := empties_decrement hsq hnp hrlt hclt hempty hv0
              omega) t
          obtain ⟨hft, hvt⟩ := hih.mp hmem
          refine ⟨?_, hvt⟩
          exact fillsTo_step_forward hsq hnp hrlt hclt hempty hv0
            (by rw [hmenuEq]; exact hvmem) hft
        · rintro ⟨hft, hvt⟩
          obtain ⟨v, hvmenu, hv0, hft', _⟩ :=
            fillsTo_step_backward hsq hnp hrlt hclt hempty hft
          rw [hmenuEq] at hvmenu
          refine ⟨v, (hlst v).mpr hvmenu, ?_⟩
          have hih := mem_compsSimple config candFn hreg hmenu fuel
            (setCellValue g row col v)
            (gridSquare_setCellValue hsq row col v false)
            (emptyNotPuzzle_setCellValue hnp row col v)
            (by
              have := empties_decrement hsq hnp hrlt hclt hempty hv0
              omega) t
          exact hih.mpr ⟨hft', hvt⟩
    · have hcomps : compsSimple config candFn (fuel + 1) g = [] := by
        conv_lhs => rw [compsSimple]
        rw [if_neg hvalid]
      rw [hcomps]
      constructor
      · intro ht
        exact absurd ht (by simp)
      · rintro ⟨hft, hvt⟩
        exact absurd (gridValid_of_fillsTo hft hvt) hvalid

/-- Membership in the reference enumeration is completion (over the full
`1..size` menus) plus validity. -/
theorem mem_refCompletions (config : SudokuConfig) :
    ∀ (fuel : Nat) (g : Grid), GridSquare g config.size → EmptyNotPuzzle g →
      (emptyCellCoords 0 g).length + 1 ≤ fuel →
      ∀ t, t ∈ refCompletions config fuel g ↔
        (FillsTo (fun _ _ => List.range' 1 config.size) g t ∧
          GridValid t config.regions)
  | 0, g, hsq, hnp, hfuel => absurd hfuel (by omega)
  | fuel + 1, g, hsq, hnp, hfuel => by
    intro t
    cases hff : findFirstEmpty g with
    | none =>
      have hco : emptyCellCoords 0 g = [] := List.head?_eq_none_iff.mp hff
      have hcomps : refCompletions config (fuel + 1) g =
          if GridValid g config.regions then [g] else [] := by
        conv_lhs => rw [refCompletions]
        rw [hff]
      rw [hcomps]
      by_cases hvalid : GridValid g config.regions
      · rw [if_pos hvalid]
        constructor
        · intro ht
          have : t = g := by simpa using ht
          subst this
          exact ⟨(fillsTo_of_no_empty hco).mpr rfl, hvalid⟩
        · rintro ⟨hft, _⟩
          simp [(fillsTo_of_no_empty hco).mp hft]
      · rw [if_neg hvalid]
        constructor
        · intro ht
          exact absurd ht (by simp)
        · rintro ⟨hft, hvt⟩
          have : t = g := (fillsTo_of_no_empty hco).mp hft
          subst this
          exact absurd hvt hvalid
    | some rc =>
      obtain ⟨row, col⟩ := rc
      have hmemco : (row, col) ∈ emptyCellCoords 0 g := by
        have hh : (emptyCellCoords 0 g).head? = some (row, col) := hff
        exact List.mem_of_mem_head? (by rw [hh]; rfl)
      obtain ⟨h1, h2, hempty⟩ := (mem_emptyCellCoords g (row, col)).mp hmemco
      have hrlt : row < config.size := by rw [← hsq.1]; exact h1
      have hclt : col < config.size := by rw [← hsq.2 row hrlt]; exact h2
      have hcomps : refCompletions config (fuel + 1) g =
          (List.range' 1 config.size).flatMap fun v =>
            refCompletions config fuel (setCellValue g row col v) := by
        conv_lhs => rw [refCompletions]
        rw [hff]
      rw [hcomps, List.mem_flatMap]
      constructor
      · rintro ⟨v, hvmem, hmem⟩
        have hvr := List.mem_range'_1.mp hvmem
        have hv0 : v ≠ 0 := by omega
        have hih := mem_refCompletions config fuel (setCellValue g row col v)
          (gridSquare_setCellValue hsq row col v false)
          (emptyNotPuzzle_setCellValue hnp row col v)
          (by
            have := empties_decrement hsq hnp hrlt hclt hempty hv0
            omega) t
        obtain ⟨hft, hvt⟩ := hih.mp hmem
        exact ⟨fillsTo_step_forward hsq hnp hrlt hclt hempty hv0 hvmem hft, hvt⟩
      · rintro ⟨hft, hvt⟩
        obtain ⟨v, hvmenu, hv0, hft', _⟩ :=
          fillsTo_step_backward hsq hnp hrlt hclt hempty hft
        refine ⟨v, hvmenu, ?_⟩
        have hih := mem_refCompletions config fuel (setCellValue g row col v)
          (gridSquare_setCellValue hsq row col v false)
          (emptyNotPuzzle_setCellValue hnp row col v)
          (by
            have := empties_decrement hsq hnp hrlt hclt hempty hv0
            omega) t
        exact hih.mpr ⟨hft', hvt⟩

/-! ### C3: the search trees enumerate each completion at most once -/

theorem nodup_compsMRV (config : SudokuConfig)
    (candFn : Nat → Nat → Except String (List Nat))
    (hreg : RegionsInRange config)
    (hmenu : ∀ r c, r < config.size → c < config.size →
      ∃ l, candFn r c = .ok l ∧ l.Sublist (List.range' 1 config.size)) :
    ∀ (fuel : Nat) (g : Grid), GridSquare g config.size → EmptyNotPuzzle g →
      (emptyCellCoords 0 g).length + 1 ≤ fuel →
      (compsMRV config candFn fuel g).Nodup
  | 0, g, hsq, hnp, hfuel => absurd hfuel (by omega)
  | fuel + 1, g, hsq, hnp, hfuel => by
    have hcand : ∀ p ∈ emptyCellCoords 0 g, ∃ l, candFn p.1 p.2 = .ok l := by
      intro p hp
      obtain ⟨h1, h2, _⟩ := (mem_emptyCellCoords g p).mp hp
      have hr : p.1 < config.size := by rw [← hsq.1]; exact h1
      have hc : p.2 < config.size := by rw [← hsq.2 p.1 hr]; exact h2
      obtain ⟨l, hl, _⟩ := hmenu p.1 p.2 hr hc
      exact ⟨l, hl⟩
    rcases selectCellWithMRV_spec g config candFn hreg hsq hcand with
      ⟨hco, hrunsel⟩ | ⟨info, hrunsel, hmemco, hcandinfo⟩
    · have hcomps : compsMRV config candFn (fuel + 1) g =
          if GridValid g config.regions then [g] else [] := by
        conv_lhs => rw [compsMRV]
        rw [hrunsel]
      rw [hcomps]
      split
      · simp
      · simp
    · have hcomps : compsMRV config candFn (fuel + 1) g =
          info.candidates.flatMap fun v =>
            compsMRV config candFn fuel (setCellValue g info.row info.col v) := by
        conv_lhs => rw [compsMRV]
        rw [hrunsel]
      obtain ⟨h1, h2, hempty⟩ := (mem_emptyCellCoords g (info.row, info.col)).mp hmemco
      have hrlt : info.row < config.size := by rw [← hsq.1]; exact h1
      have hclt : info.col < config.size := by rw [← hsq.2 info.row hrlt]; exact h2
      obtain ⟨l, hl, hsub⟩ := hmenu info.row info.col hrlt hclt
      have hle : l = info.candidates := by
        rw [hl] at hcandinfo
        exact Except.ok.inj hcandinfo
      subst hle
      have hvfacts : ∀ v ∈ info.candidates, v ≠ 0 ∧ v ≤ config.size := by
        intro v hv
        have := List.mem_range'_1.mp (hsub.subset hv)
        omega
      have hcnd : info.candidates.Nodup :=
        List.Sublist.nodup hsub (List.nodup_range' 1 config.size 1 Nat.one_pos)
      rw [hcomps]
      refine List.nodup_flatMap.mpr ⟨?_, ?_⟩
      · intro v hv
        obtain ⟨hv0, _⟩ := hvfacts v hv
        exact nodup_compsMRV config candFn hreg hmenu fuel
          (setCellValue g info.row info.col v)
          (gridSquare_setCellValue hsq info.row info.col v false)
          (emptyNotPuzzle_setCellValue hnp info.row info.col v)
          (by
            have := empties_decrement hsq hnp hrlt hclt hempty hv0
            omega)
      · refine List.Pairwise.imp_of_mem ?_ hcnd
        intro a b ha hb hab t hta htb
        obtain ⟨ha0, _⟩ := hvfacts a ha
        obtain ⟨hb0, _⟩ := hvfacts b hb
        have hihA := mem_compsMRV config candFn hreg hmenu fuel
          (setCellValue g info.row info.col a)
          (gridSquare_setCellValue hsq info.row info.col a false)
          (emptyNotPuzzle_setCellValue hnp info.row info.col a)
          (by
            have := empties_decrement hsq hnp hrlt hclt hempty ha0
            omega) t
        have hihB := mem_compsMRV config candFn hreg hmenu fuel
          (setCellValue g info.row info.col b)
          (gridSquare_setCellValue hsq info.row info.col b false)
          (emptyNotPuzzle_setCellValue hnp info.row info.col b)
          (by
            have := empties_decrement hsq hnp hrlt hclt hempty hb0
            omega) t
        have hpa := fillsTo_value_pin hsq hnp hrlt hclt hempty ha0 (hihA.mp hta).1
        have hpb := fillsTo_value_pin hsq hnp hrlt hclt hempty hb0 (hihB.mp htb).1
        exact hab (hpa ▸ hpb ▸ rfl)

theorem nodup_compsSimple (config : SudokuConfig)
    (candFn : Nat → Nat → Except String (List Nat))
    (hreg : RegionsInRange config)
    (hmenu : ∀ r c, r < config.size → c < config.size →
      ∃ l, candFn r c = .ok l ∧ l.Sublist (List.range' 1 config.size)) :
    ∀ (fuel : Nat) (g : Grid), GridSquare g config.size → EmptyNotPuzzle g →
      (emptyCellCoords 0 g).length + 1 ≤ fuel →
      (compsSimple config candFn fuel g).Nodup
  | 0, g, hsq, hnp, hfuel => absurd hfuel (by omega)
  | fuel + 1, g, hsq, hnp, hfuel => by
    by_cases hvalid : GridValid g config.regions
    · cases hff : findFirstEmpty g with
      | none =>
        have hcomps : compsSimple config candFn (fuel + 1) g = [g] := by
          conv_lhs => rw [compsSimple]
          rw [if_pos hvalid, hff]
        rw [hcomps]
        simp
      | some rc =>
        obtain ⟨row, col⟩ := rc
        have hmemco : (row, col) ∈ emptyCellCoords 0 g := by
          have hh : (emptyCellCoords 0 g).head? = some (row, col) := hff
          exact List.mem_of_mem_head? (by rw [hh]; rfl)
        obtain ⟨h1, h2, hempty⟩ := (mem_emptyCellCoords g (row, col)).mp hmemco
        have hrlt : row < config.size := by rw [← hsq.1]; exact h1
        have hclt : col < config.size := by rw [← hsq.2 row hrlt]; exact h2
        obtain ⟨l, hl, hsub⟩ := hmenu row col hrlt hclt
        have hcomps : compsSimple config candFn (fuel + 1) g =
            ((List.range' 1 config.size).filter fun v => decide (v ∈ l)).flatMap
              fun v => compsSimple config candFn fuel (setCellValue g row col v) := by
          conv_lhs => rw [compsSimple]
          rw [if_pos hvalid, hff]
          dsimp only
          rw [hl]
        have hvfacts : ∀ v ∈ (List.range' 1 config.size).filter
            fun v => decide (v ∈ l), v ≠ 0 ∧ v ≤ config.size := by
          intro v hv
          have := List.mem_range'_1.mp (List.mem_of_mem_filter hv)
          omega
        have hcnd : ((List.range' 1 config.size).filter
            fun v => decide (v ∈ l)).Nodup :=
          List.Nodup.filter _ (List.nodup_range' 1 config.size 1 Nat.one_pos)
        rw [hcomps]
        refine List.nodup_flatMap.mpr ⟨?_, ?_⟩
        · intro v hv
          obtain ⟨hv0, _⟩ := hvfacts v hv
          exact nodup_compsSimple config candFn hreg hmenu fuel
            (setCellValue g row col v)
            (gridSquare_setCellValue hsq row col v false)
            (emptyNotPuzzle_setCellValue hnp row col v)
            (by
              have := empties_decrement hsq hnp hrlt hclt hempty hv0
              omega)
        · refine List.Pairwise.imp_of_mem ?_ hcnd
          intro a b ha hb hab t hta htb
          obtain ⟨ha0, _⟩ := hvfacts a ha
          obtain ⟨hb0, _⟩ := hvfacts b hb
          have hihA := mem_compsSimple config candFn hreg hmenu fuel
            (setCellValue g row col a)
            (gridSquare_setCellValue hsq row col a false)
            (emptyNotPuzzle_setCellValue hnp row col a)
            (by
              have := empties_decrement hsq hnp hrlt hclt hempty ha0
              omega) t
          have hihB := mem_compsSimple config candFn hreg hmenu fuel
            (setCellValue g row col b)
            (gridSquare_setCellValue hsq row col b false)
            (emptyNotPuzzle_setCellValue hnp row col b)
            (by
              have := empties_decrement hsq hnp hrlt hclt hempty hb0
              omega) t
          have hpa := fillsTo_value_pin hsq hnp hrlt hclt hempty ha0 (hihA.mp hta).1
          have hpb := fillsTo_value_pin hsq hnp hrlt hclt hempty hb0 (hihB.mp htb).1
          exact hab (hpa ▸ hpb ▸ rfl)
    · have hcomps : compsSimple config candFn (fuel + 1) g = [] := by
        conv_lhs => rw [compsSimple]
        rw [if_neg hvalid]
      rw [hcomps]
      simp

theorem nodup_subset_length_le {α : Type} [DecidableEq α] {l l' : List α}
    (h : l.Nodup) (hs : l ⊆ l') : l.length ≤ l'.length := by
  classical
  calc l.length = l.toFinset.card := (List.toFinset_card_of_nodup h).symm
    _ ≤ l'.toFinset.card := Finset.card_le_card fun x hx => by
        rw [List.mem_toFinset] at hx ⊢
        exact hs hx
    _ ≤ l'.length := l'.toFinset_card_le

theorem fillsTo_mono_menu {menu1 menu2 : Nat → Nat → List Nat} {g t : Grid}
    (hsub : ∀ r c, r < g.length → c < (g.getD r []).length →
      ∀ v ∈ menu1 r c, v ∈ menu2 r c)
    (h : FillsTo menu1 g t) : FillsTo menu2 g t := by
  obtain ⟨hs, hc⟩ := h
  refine ⟨hs, fun r c hr hcc => ⟨(hc r c hr hcc).1, fun h0 => ?_⟩⟩
  obtain ⟨v, hv1, hv2, hv3⟩ := (hc r c hr hcc).2 h0
  exact ⟨v, hsub r c hr hcc v hv1, hv2, hv3⟩

theorem menuOf_sub_range {config : SudokuConfig}
    {candFn : Nat → Nat → Except String (List Nat)}
    (hmenu : ∀ r c, r < config.size → c < config.size →
      ∃ l, candFn r c = .ok l ∧ l.Sublist (List.range' 1 config.size))
    {g : Grid} (hsq : GridSquare g config.size) :
    ∀ r c, r < g.length → c < (g.getD r []).length →
      ∀ v ∈ menuOf candFn r c, v ∈ List.range' 1 config.size := by
  intro r c hr hcc v hv
  have hrlt : r < config.size := by rw [← hsq.1]; exact hr
  have hclt : c < config.size := by rw [← hsq.2 r hrlt]; exact hcc
  obtain ⟨l, hl, hsub⟩ := hmenu r c hrlt hclt
  rw [menuOf_eq hl] at hv
  exact hsub.subset hv

theorem compsMRV_length_le (config : SudokuConfig)
    (candFn : Nat → Nat → Except String (List Nat))
    (hreg : RegionsInRange config)
    (hmenu : ∀ r c, r < config.size → c < config.size →
      ∃ l, candFn r c = .ok l ∧ l.Sublist (List.range' 1 config.size))
    (fuel : Nat) (g : Grid) (hsq : GridSquare g config.size) (hnp : EmptyNotPuzzle g)
    (hfuel : (emptyCellCoords 0 g).length + 1 ≤ fuel) :
    (compsMRV config candFn fuel g).length ≤ (refCompletions config fuel g).length := by
  refine nodup_subset_length_le (nodup_compsMRV config candFn hreg hmenu fuel g hsq hnp
    hfuel) ?_
  intro t ht
  obtain ⟨hft, hvt⟩ :=
    (mem_compsMRV config candFn hreg hmenu fuel g hsq hnp hfuel t).mp ht
  exact (mem_refCompletions config fuel g hsq hnp hfuel t).mpr
    ⟨fillsTo_mono_menu (menuOf_sub_range hmenu hsq) hft, hvt⟩

theorem compsSimple_length_le (config : SudokuConfig)
    (candFn : Nat → Nat → Except String (List Nat))
    (hreg : RegionsInRange config)
    (hmenu : ∀ r c, r < config.size → c < config.size →
      ∃ l, candFn r c = .ok l ∧ l.Sublist (List.range' 1 config.size))
    (fuel : Nat) (g : Grid) (hsq : GridSquare g config.size) (hnp : EmptyNotPuzzle g)
    (hfuel : (emptyCellCoords 0 g).length + 1 ≤ fuel) :
    (compsSimple config candFn fuel g).length ≤
      (refCompletions config fuel g).length := by
  refine nodup_subset_length_le (nodup_compsSimple config candFn hreg hmenu fuel g hsq
    hnp hfuel) ?_
  intro t ht
  obtain ⟨hft, hvt⟩ :=
    (mem_compsSimple config candFn hreg hmenu fuel g hsq hnp hfuel t).mp ht
  exact (mem_refCompletions config fuel g hsq hnp hfuel t).mpr
    ⟨fillsTo_mono_menu (menuOf_sub_range hmenu hsq) hft, hvt⟩

/-! ### C3: the entry point under the two strategies -/

theorem filterValidValues_sub (grid : Grid) (config : SudokuConfig) (row col : Nat)
    (hin : ∀ reg ∈ config.regions, ∀ p ∈ reg.cells, InRange grid p) :
    ∀ nums : List Nat, ∃ l, filterValidValues grid config row col nums = .ok l ∧
      l.Sublist nums
  | [] => ⟨[], rfl, List.Sublist.refl []⟩
  | num :: rest => by
    obtain ⟨b, hbrun, _⟩ := isValidMoveBitmask_spec grid row col num config.regions hin
    obtain ⟨l, hrun, hsub⟩ := filterValidValues_sub grid config row col hin rest
    unfold filterValidValues
    rw [hbrun, hrun]
    dsimp only
    cases b with
    | true => exact ⟨num :: l, by rw [if_pos rfl], hsub.cons₂ num⟩
    | false => exact ⟨l, by rw [if_neg (by simp)], hsub.cons num⟩

theorem initialCandidatesFn_menu (grid : Grid) (config : SudokuConfig)
    (hsq : GridSquare grid config.size) (hreg : RegionsInRange config) :
    ∀ r c, r < config.size → c < config.size →
      ∃ l, initialCandidatesFn grid config r c = .ok l ∧
        l.Sublist (List.range' 1 config.size) := by
  intro r c hr hc
  have hin : ∀ reg ∈ config.regions, ∀ p ∈ reg.cells, InRange grid p :=
    fun reg hregm p hp =>
      inRange_of_wf hsq (hreg reg hregm p hp).1 (hreg reg hregm p hp).2
  have hcell := cellAt_ok (p := (r, c)) (inRange_of_wf hsq hr hc)
  unfold initialCandidatesFn
  rw [hcell]
  dsimp only
  by_cases hz : (cellAtD grid r c).value ≠ 0
  · rw [if_pos hz]
    exact ⟨[], rfl, List.nil_sublist _⟩
  · rw [if_neg hz]
    exact filterValidValues_sub grid config r c hin (List.range' 1 config.size)

/-- Find-all solver options with cap `N` for the default (MRV) strategy. -/
def fastestOpts (N : Nat) : SolverOptions :=
  { findAllSolutions := true, maxSolutions := N, timeoutMs := 0, strategy := "fastest" }

/-- Find-all solver options with cap `N` for the simple fallback
strategy. -/
def simpleOpts (N : Nat) : SolverOptions :=
  { findAllSolutions := true, maxSolutions := N, timeoutMs := 0, strategy := "simple" }

theorem solveSudoku_invalid_sols (clock : Nat → Int) (grid : Grid)
    (config : SudokuConfig) (opts : SolverOptions)
    (hvin : ∀ reg ∈ config.regions, ∀ p ∈ reg.cells, InRange grid p)
    (hnvalid : ¬ GridValid grid config.regions) :
    (solveSudoku clock grid config opts).solutions = [] := by
  obtain ⟨res, hvrun, hviff⟩ := validateAllRegions_ok grid config.regions hvin
  have hresv : res.isValid = false := by
    cases h : res.isValid with
    | false => rfl
    | true => exact absurd (hviff.mp h) hnvalid
  have hbody : ∀ tt, solveSudokuBody clock grid config opts tt =
      .ok ({ success := false, solutions := [], finishReason := "no_solution", failReason := some "initial grid invalid" }, 1) := by
    intro tt
    unfold solveSudokuBody
    rw [hvrun]
    dsimp only
    rw [if_pos (by simp [hresv])]
  unfold solveSudoku
  dsimp only
  rw [hbody]

theorem solveSudoku_fastest_sols (clock : Nat → Int) (grid : Grid)
    (config : SudokuConfig) (N : Nat) (hsq : GridSquare grid config.size)
    (hreg : RegionsInRange config) (hnp : EmptyNotPuzzle grid)
    (hvalid : GridValid grid config.regions)
    (hcap : (compsMRV config (initialCandidatesFn grid config)
      (solverFuel grid) grid).length ≤ N) :
    (solveSudoku clock grid config (fastestOpts N)).solutions =
      compsMRV config (initialCandidatesFn grid config) (solverFuel grid) grid := by
  have hvin : ∀ reg ∈ config.regions, ∀ p ∈ reg.cells, InRange grid p :=
    fun reg hregm p hp =>
      inRange_of_wf hsq (hreg reg hregm p hp).1 (hreg reg hregm p hp).2
  obtain ⟨res, hvrun, hviff⟩ := validateAllRegions_ok grid config.regions hvin
  have hresv : res.isValid = true := hviff.mpr hvalid
  have hmenu := initialCandidatesFn_menu grid config hsq hreg
  obtain ⟨b, stF, hrun, hsols, hintF⟩ :=
    solveBT_run clock
      { config := config
        onProgress := (fastestOpts N).onProgress
        findAllSolutions := (fastestOpts N).findAllSolutions
        maxSolutions := (fastestOpts N).maxSolutions
        timeoutTimestamp := none
        getCandidatesForCell := initialCandidatesFn grid config }
      rfl rfl rfl hreg
      (fun r c hr hc => ⟨(hmenu r c hr hc).choose, (hmenu r c hr hc).choose_spec.1⟩)
      (solverFuel grid) grid { clockIndex := 1 } hsq hnp rfl
      (by simpa using hcap)
  have hbody : ∃ r idx, solveSudokuBody clock grid config (fastestOpts N) none =
      .ok (r, idx) ∧ r.solutions = stF.solutions := by
    unfold solveSudokuBody
    rw [hvrun]
    dsimp only
    rw [if_neg (by simp [hresv])]
    rw [if_pos (show (fastestOpts N).strategy = "fastest" from rfl)]
    rw [cloneGrid_eq, hrun]
    dsimp only
    rw [if_neg (by simp [hintF])]
    by_cases hlen : stF.solutions.length > 0
    · rw [if_pos hlen]
      exact ⟨_, _, rfl, rfl⟩
    · rw [if_neg hlen]
      exact ⟨_, _, rfl, rfl⟩
  obtain ⟨r, idx, hbodyrun, hrsols⟩ := hbody
  unfold solveSudoku
  dsimp only
  rw [if_neg (show ¬ ((fastestOpts N).timeoutMs ≠ 0) by simp [fastestOpts])]
  rw [hbodyrun]
  dsimp only
  rw [hrsols]
  exact hsols.trans (List.nil_append _)

theorem solveSudoku_simple_sols (clock : Nat → Int) (grid : Grid)
    (config : SudokuConfig) (N : Nat) (hsq : GridSquare grid config.size)
    (hreg : RegionsInRange config) (hnp : EmptyNotPuzzle grid)
    (hvalid : GridValid grid config.regions)
    (hcap : (compsSimple config (initialCandidatesFn grid config)
      (solverFuel grid) grid).length ≤ N) :
    (solveSudoku clock grid config (simpleOpts N)).solutions =
      compsSimple config (initialCandidatesFn grid config) (solverFuel grid) grid := by
  have hvin : ∀ reg ∈ config.regions, ∀ p ∈ reg.cells, InRange grid p :=
    fun reg hregm p hp =>
      inRange_of_wf hsq (hreg reg hregm p hp).1 (hreg reg hregm p hp).2
  obtain ⟨res, hvrun, hviff⟩ := validateAllRegions_ok grid config.regions hvin
  have hresv : res.isValid = true := hviff.mpr hvalid
  have hmenu := initialCandidatesFn_menu grid config hsq hreg
  obtain ⟨stF, hrun, hsols, hintF⟩ :=
    solveSimple_run clock
      { config := config
        onProgress := (simpleOpts N).onProgress
        findAllSolutions := (simpleOpts N).findAllSolutions
        maxSolutions := (simpleOpts N).maxSolutions
        timeoutTimestamp := none
        getCandidatesForCell := initialCandidatesFn grid config }
      rfl rfl rfl hreg
      (fun r c hr hc => ⟨(hmenu r c hr hc).choose, (hmenu r c hr hc).choose_spec.1⟩)
      (solverFuel grid) grid { clockIndex := 1 } hsq hnp rfl
      (by simpa using hcap)
  have hbody : ∃ r idx, solveSudokuBody clock grid config (simpleOpts N) none =
      .ok (r, idx) ∧ r.solutions = stF.solutions := by
    unfold solveSudokuBody
    rw [hvrun]
    dsimp only
    rw [if_neg (by simp [hresv])]
    rw [if_neg (show ¬ ((simpleOpts N).strategy = "fastest") by simp [simpleOpts])]
    rw [cloneGrid_eq, hrun]
    dsimp only
    rw [if_neg (by simp [hintF])]
    by_cases hlen : stF.solutions.length > 0
    · rw [if_pos hlen]
      exact ⟨_, _, rfl, rfl⟩
    · rw [if_neg hlen]
      exact ⟨_, _, rfl, rfl⟩
  obtain ⟨r, idx, hbodyrun, hrsols⟩ := hbody
  unfold solveSudoku
  dsimp only
  rw [if_neg (show ¬ ((simpleOpts N).timeoutMs ≠ 0) by simp [simpleOpts])]
  rw [hbodyrun]
  dsimp only
  rw [hrsols]
  exact hsols.trans (List.nil_append _)

/-- **C3**: on a well-formed square puzzle, with `findAllSolutions`, no
timeout (the solver treats `timeoutMs = 0` as no deadline), no callback,
and a `maxSolutions` cap of at least the total number of valid
completions (as enumerated by the specification's first-empty-cell
ascending-order reference), the MRV strategy (`"fastest"`) and the simple
backtracking strategy collect set-equal sets of solution grids. -/
theorem solver_strategies_set_equal :
    ∀ (grid : Grid) (config : SudokuConfig) (clock : Nat → Int) (N : Nat),
      GridSquare grid config.size → RegionsInRange config → EmptyNotPuzzle grid →
      (refCompletions config (solverFuel grid) grid).length ≤ N →
      ∀ t, t ∈ (solveSudoku clock grid config (fastestOpts N)).solutions ↔
        t ∈ (solveSudoku clock grid config (simpleOpts N)).solutions := by
  intro grid config clock N hsq hreg hnp hcap t
  have hvin : ∀ reg ∈ config.regions, ∀ p ∈ reg.cells, InRange grid p :=
    fun reg hregm p hp =>
      inRange_of_wf hsq (hreg reg hregm p hp).1 (hreg reg hregm p hp).2
  by_cases hvalid : GridValid grid config.regions
  · have hmenu := initialCandidatesFn_menu grid config hsq hreg
    have hfuel : (emptyCellCoords 0 grid).length + 1 ≤ solverFuel grid := le_refl _
    have hcapM : (compsMRV config (initialCandidatesFn grid config)
        (solverFuel grid) grid).length ≤ N :=
      le_trans (compsMRV_length_le config (initialCandidatesFn grid config) hreg hmenu
        (solverFuel grid) grid hsq hnp hfuel) hcap
    have hcapS : (compsSimple config (initialCandidatesFn grid config)
        (solverFuel grid) grid).length ≤ N :=
      le_trans (compsSimple_length_le config (initialCandidatesFn grid config) hreg hmenu
        (solverFuel grid) grid hsq hnp hfuel) hcap
    rw [solveSudoku_fastest_sols clock grid config N hsq hreg hnp hvalid hcapM,
      solveSudoku_simple_sols clock grid config N hsq hreg hnp hvalid hcapS]
    exact (mem_compsMRV config (initialCandidatesFn grid config) hreg hmenu
        (solverFuel grid) grid hsq hnp hfuel t).trans
      (mem_compsSimple config (initialCandidatesFn grid config) hreg hmenu
        (solverFuel grid) grid hsq hnp hfuel t).symm
  · rw [solveSudoku_invalid_sols clock grid config (fastestOpts N) hvin hvalid,
      solveSudoku_invalid_sols clock grid config (simpleOpts N) hvin hvalid]

/-- A bounded sufficient condition for `EmptyNotPuzzle` (out-of-range
reads give the unflagged default cell). -/
theorem emptyNotPuzzle_of_bounded {g : Grid}
    (h : ∀ r, r < g.length → ∀ c, c < (g.getD r []).length →
      (cellAtD g r c).value = 0 → (cellAtD g r c).isPuzzle = false) :
    EmptyNotPuzzle g := by
  intro r c h0
  by_cases hir : r < g.length ∧ c < (g.getD r []).length
  · exact h r hir.1 c hir.2 h0
  · rw [cellAtD_oob hir]
    rfl

instance (config : SudokuConfig) : Decidable (RegionsInRange config) := by
  unfold RegionsInRange
  infer_instance

instance (g : Grid) (size : Nat) : Decidable (GridSquare g size) := by
  unfold GridSquare
  infer_instance

set_option maxRecDepth 10000 in
/-- Witness for C3 at concrete inputs: the 2×2 puzzle with a single given
has exactly one valid completion; with cap 2 the two strategies' solution
sets agree, and the first solution of the MRV run is a member of both. -/
theorem solver_strategies_set_equal_witness :
    GridSquare c6Grid std2Config.size ∧
    RegionsInRange std2Config ∧
    EmptyNotPuzzle c6Grid ∧
    (refCompletions std2Config (solverFuel c6Grid) c6Grid).length ≤ 2 ∧
    (((solveSudoku clock0 c6Grid std2Config (fastestOpts 2)).solutions.getD 0 []) ∈
        (solveSudoku clock0 c6Grid std2Config (fastestOpts 2)).solutions ↔
      ((solveSudoku clock0 c6Grid std2Config (fastestOpts 2)).solutions.getD 0 []) ∈
        (solveSudoku clock0 c6Grid std2Config (simpleOpts 2)).solutions) ∧
    ((solveSudoku clock0 c6Grid std2Config (fastestOpts 2)).solutions.getD 0 []) ∈
      (solveSudoku clock0 c6Grid std2Config (fastestOpts 2)).solutions := by
  refine ⟨by decide, by decide, emptyNotPuzzle_of_bounded (by decide), by decide,
    ?_, by decide⟩
  exact solver_strategies_set_equal c6Grid std2Config clock0 2 (by decide) (by decide)
    (emptyNotPuzzle_of_bounded (by decide)) (by decide) _

end Sudoku
